import Mathlib

/-!
# The thermal operator of Cap (cpp/source/thermal_operator.templates.h)

A shallow embedding of `cap::ThermalOperator<dim>`: its constructor, `reset`,
`compute_thermal_operator_contribution` and `compute_robin_boundary_contribution`.

Conventions of the embedding.

* `double` is idealised as a commutative ring `R` (exact arithmetic, no rounding).
  Every definition is computable, so it can be run on `Int` or `Rat` data.
* Dense cell-local containers (`dealii::FullMatrix`, `dealii::Vector`) and the global
  containers (`dealii::SparseMatrix`, `dealii::Vector`) are total functions of their
  indices; an entry that the C++ container does not store is `0`.
* `dealii::types::global_dof_index` is an unsigned machine integer of `index_bits` bits
  (32 by default in deal.II, 64 when built with 64 bit indices); `int` has 32 bits.
* A C++ exception thrown by a collaborator is an `Except.error`; the error of a pass
  carries the operator as it stands when the exception leaves the pass.
* The collaborators that are not part of the file (the mesh with its finite element
  evaluation, the property providers, the constraint matrix) are parameters.
-/

set_option autoImplicit false

namespace cap

/-! ## Containers -/

/-- Dense cell-local matrix (`dealii::FullMatrix<double>`), entry `(i, j)`. -/
abbrev FullMatrix (R : Type) := Nat → Nat → R

/-- Dense vector (`dealii::Vector<double>`), entry `i`. -/
abbrev Vector (R : Type) := Nat → R

/-- Global matrix (`dealii::SparseMatrix<double>`), entry `(row, column)`. -/
abbrev SparseMatrix (R : Type) := Nat → Nat → R

/-- The statement `M(i, j) += x`. -/
def FullMatrix.add_to {R : Type} [CommRing R] (M : FullMatrix R) (i j : Nat) (x : R) :
    FullMatrix R :=
  fun a b => if a = i ∧ b = j then M a b + x else M a b

/-- The statement `v(i) += x`. -/
def Vector.add_to {R : Type} [CommRing R] (v : Vector R) (i : Nat) (x : R) : Vector R :=
  fun a => if a = i then v a + x else v a

/-! ## Machine integers -/

/-- Conversion of an integer value to an unsigned type of `w` bits. -/
def to_unsigned (w : Nat) (x : Int) : Nat :=
  (x % (2 : Int) ^ w).toNat

/-- Conversion of an integer value to `int` (32 bits, two's complement). -/
def to_int (x : Int) : Int :=
  (x + 2 ^ 31) % 2 ^ 32 - 2 ^ 31

/-! ## Collaborators (deal.II and the property providers) -/

/-- The data of `dealii::FEValues<dim>` after `reinit(cell)`, seen through the scalar
extractor `fe_values[temperature]`. -/
structure FEValues (R : Type) where
  /-- Source: `fe_values[temperature].value(i, q_point)` -/
  value : Nat → Nat → R
  /-- Source: `fe_values[temperature].gradient(i, q_point)[d]` -/
  gradient : Nat → Nat → Nat → R
  /-- Source: `fe_values.JxW(q_point)` -/
  JxW : Nat → R

/-- The data of `dealii::FEFaceValues<dim>` after `reinit(cell, face)`. -/
structure FEFaceValues (R : Type) where
  /-- Source: `fe_face_values[temperature].value(i, q_point)` -/
  value : Nat → Nat → R
  /-- Source: `fe_face_values.JxW(q_point)` -/
  JxW : Nat → R

/-- A face of a cell, as the Robin pass sees it. -/
structure Face (R : Type) where
  /-- Source: `cell->face(face)->at_boundary()` -/
  at_boundary : Bool
  /-- what `fe_face_values.reinit(cell, face)` evaluates -/
  fe_face_values : FEFaceValues R

/-- An active cell of the mesh, as the two passes see it. -/
structure Cell (R : Type) where
  /-- Source: `cell->at_boundary()` -/
  at_boundary : Bool
  /-- Source: `cell->face(face)` -/
  face : Nat → Face R
  /-- Source: `cell->get_dof_indices(local_dof_indices)`: entry `i` of the filled vector -/
  dof_indices : Nat → Nat
  /-- what `fe_values.reinit(cell)` evaluates -/
  fe_values : FEValues R

/-- The finite element `dof_handler.get_fe()`. -/
structure FiniteElement where
  /-- Source: `fe.degree` -/
  degree : Nat
  /-- Source: `fe.dofs_per_cell` -/
  dofs_per_cell : Nat
  /-- the component of local degree of freedom `i` -/
  system_to_component_index : Nat → Nat

/-- The degree-of-freedom handler `*(this->dof_handler)`. -/
structure DoFHandler (R : Type) where
  /-- the template parameter `dim` -/
  dim : Nat
  /-- Source: `dof_handler.get_fe()` -/
  fe : FiniteElement
  /-- what `dealii::DoFTools::count_dofs_per_component` writes; its length is
  `dealii::DoFTools::n_components(dof_handler)` -/
  dofs_per_component : List Nat
  /-- the cells from `begin_active()` to `end()`, in iteration order -/
  active_cells : List (Cell R)

/-- Source: `dealii::DoFTools::n_components(dof_handler)`. -/
def DoFHandler.n_components {R : Type} (dof_handler : DoFHandler R) : Nat :=
  dof_handler.dofs_per_component.length

/-- Number of points of `dealii::QGauss<dim>(n)`: the tensor product of the `n` point rule. -/
def QGauss_size (dim n : Nat) : Nat :=
  n ^ dim

/-- Source: `dealii::GeometryInfo<dim>::faces_per_cell`. -/
def faces_per_cell (dim : Nat) : Nat :=
  2 * dim

/-- Source: `Tensor<1,dim> * Tensor<1,dim>`: the scalar product of two gradients. -/
def scalar_product {R : Type} [CommRing R] (dim : Nat) (a b : Nat → R) : R :=
  (List.range dim).foldl (fun s d => s + a d * b d) 0

/-- The constraint matrix `*(this->constraint_matrix)`, through the only operation the
passes use: `distribute_local_to_global(local, indices, global)`, for a matrix and for a
vector. It returns the global container after the call. -/
structure ConstraintMatrix (R : Type) where
  /-- Source: `distribute_local_to_global(local_matrix, indices, global_matrix)` -/
  distribute_matrix : FullMatrix R → List Nat → SparseMatrix R → SparseMatrix R
  /-- Source: `distribute_local_to_global(local_vector, indices, global_vector)` -/
  distribute_vector : Vector R → List Nat → Vector R → Vector R

/-- The accumulator of a constraint matrix without constraints, matrix case:
`global(indices[i], indices[j]) += local(i, j)` for all local `i`, `j`. -/
def scatter_add_matrix {R : Type} [CommRing R] (local_matrix : FullMatrix R)
    (indices : List Nat) (global_matrix : SparseMatrix R) : SparseMatrix R :=
  (List.range indices.length).foldl (fun G i =>
    (List.range indices.length).foldl (fun G j =>
      FullMatrix.add_to G (indices.getD i 0) (indices.getD j 0) (local_matrix i j)) G)
    global_matrix

/-- The accumulator of a constraint matrix without constraints, vector case:
`global(indices[i]) += local(i)` for all local `i`. -/
def scatter_add_vector {R : Type} [CommRing R] (local_vector : Vector R)
    (indices : List Nat) (global_vector : Vector R) : Vector R :=
  (List.range indices.length).foldl (fun v i =>
    Vector.add_to v (indices.getD i 0) (local_vector i)) global_vector

/-- A constraint matrix that holds no constraint. -/
def ConstraintMatrix.unconstrained {R : Type} [CommRing R] : ConstraintMatrix R where
  distribute_matrix := scatter_add_matrix
  distribute_vector := scatter_add_vector

/-- The collaborators a thermal operator points to, and the two properties of the build
that the code depends on. The collaborators are shared and `const`: no member function of
the operator changes them. -/
structure Env (R E : Type) where
  /-- width in bits of `dealii::types::global_dof_index` -/
  index_bits : Nat
  /-- whether `std::vector::operator[]` checks its index: it does in a build of the standard
  library with its assertions (`_GLIBCXX_ASSERTIONS`), where an index that is not below the
  size aborts the program; it does not in a default build -/
  range_checked : Bool := false
  /-- Source: `*(this->dof_handler)` -/
  dof_handler : DoFHandler R
  /-- Source: `*(this->constraint_matrix)` -/
  constraint_matrix : ConstraintMatrix R
  /-- Source: `(this->mp_values)->get_values(name, cell, values)`: the values written, one per
  quadrature point, or the exception thrown -/
  mp_values : String → Cell R → Except E (Nat → R)
  /-- Source: `(this->b_values)->get_values(name, cell, face, values)` -/
  b_values : String → Cell R → Nat → Except E (Nat → R)

/-! ## The degree-of-freedom extractor -/

/-- Modelled from the spec: the class `DoFExtractor` of `cap/dof_extractor.h`, which is
not part of the excerpt. It keeps the local positions of the rows and of the columns
whose component is in the mask. -/
structure DoFExtractor where
  /-- local positions kept as rows, in increasing order -/
  row_indices : List Nat
  /-- local positions kept as columns, in increasing order -/
  column_indices : List Nat

/-- Modelled from the spec: the constructor `DoFExtractor(row_mask, column_mask,
dofs_per_cell)` of `cap/dof_extractor.h`. Local position `i` is kept when the component
underlying it is set in the mask; the finite element supplies that component. -/
def DoFExtractor.create (fe : FiniteElement) (row_mask column_mask : List Bool)
    (dofs_per_cell : Nat) : DoFExtractor where
  row_indices := (List.range dofs_per_cell).filter
    (fun i => row_mask.getD (fe.system_to_component_index i) false)
  column_indices := (List.range dofs_per_cell).filter
    (fun i => column_mask.getD (fe.system_to_component_index i) false)

/-- Modelled from the spec: `DoFExtractor::extract_row_indices` of `cap/dof_extractor.h`,
the subsequence of `local_indices` whose component is in the mask, order preserved. -/
def DoFExtractor.extract_row_indices (x : DoFExtractor) (local_indices : List Nat) :
    List Nat :=
  x.row_indices.map (fun i => local_indices.getD i 0)

/-- Modelled from the spec: `DoFExtractor::extract_matrix` of `cap/dof_extractor.h`, the
sub-matrix restricted to the masked rows and columns. -/
def DoFExtractor.extract_matrix {R : Type} [CommRing R] (x : DoFExtractor)
    (full_matrix : FullMatrix R) : FullMatrix R :=
  fun a b =>
    if a < x.row_indices.length ∧ b < x.column_indices.length then
      full_matrix (x.row_indices.getD a 0) (x.column_indices.getD b 0)
    else 0

/-- Modelled from the spec: `DoFExtractor::extract_vector` of `cap/dof_extractor.h`, the
sub-vector restricted to the masked entries. -/
def DoFExtractor.extract_vector {R : Type} [CommRing R] (x : DoFExtractor)
    (full_vector : Vector R) : Vector R :=
  fun a => if a < x.row_indices.length then full_vector (x.row_indices.getD a 0) else 0

/-- The component mask of both passes: `dealii::ComponentMask the_mask(n_components,
false); the_mask.set(temperature_component, true);`. -/
def the_mask (n_components temperature_component : Nat) : List Bool :=
  (List.replicate n_components false).set temperature_component true

/-! ## The operator -/

/-- The members of the base class `Operator<dim>` that the file writes: the three outputs
and the cached boundary values. -/
structure Operator (R : Type) where
  /-- Source: `this->stiffness_matrix` -/
  stiffness_matrix : SparseMatrix R
  /-- Source: `this->mass_matrix` -/
  mass_matrix : SparseMatrix R
  /-- Source: `this->load_vector` -/
  load_vector : Vector R
  /-- Source: `this->boundary_values` -/
  boundary_values : List (Nat × R)

/-- The object `ThermalOperator<dim>`: the base members and the two members the
constructor sets. -/
structure ThermalOperator (R : Type) extends Operator R where
  /-- Source: `this->temperature_component` -/
  temperature_component : Nat
  /-- Source: `this->dof_shift` -/
  dof_shift : Nat

/-! ## The constructor -/

/-- The ways the constructor does not complete: the exceptions of
`boost::property_tree::ptree::get`, and the abort of a checked vector access. -/
inductive ConstructionError where
  /-- Source: `ptree_bad_path`: no node at the path -/
  | ptree_bad_path (path : String)
  /-- Source: `ptree_bad_data`: the data of the node does not translate to the requested type -/
  | ptree_bad_data (data : String)
  /-- the assertion `index < size` of a checked `std::vector::operator[]` fails -/
  | vector_index_out_of_range (index size : Nat)
  deriving DecidableEq, Repr

/-- The property tree `parameters->database`: its entries (path, data), and the
translation of a data string to `unsigned int` that `get<unsigned int>` applies. -/
structure PropertyTree where
  /-- the nodes of the tree -/
  entries : List (String × String)
  /-- the translator of `get<unsigned int>` -/
  translate_unsigned : String → Option Nat

/-- The call `database->get<unsigned int>(path)`. -/
def PropertyTree.get_unsigned (database : PropertyTree) (path : String) :
    Except ConstructionError Nat :=
  match database.entries.lookup path with
  | none => .error (.ptree_bad_path path)
  | some data =>
    match database.translate_unsigned data with
    | none => .error (.ptree_bad_data data)
    | some value => .ok value

/-- What `*(&(dofs_per_component[0]) + k)` reads: entry `k` of the vector, or, past its
end, whatever the memory behind the vector holds. -/
def read_dofs_per_component (dofs_per_component : List Nat) (past_the_end : Nat → Nat)
    (k : Nat) : Nat :=
  if k < dofs_per_component.length then dofs_per_component.getD k 0
  else past_the_end (k - dofs_per_component.length)

/-- The call `std::accumulate(first, first + last, 0)`: the initial value `0` is an `int`,
so the running sum is an `int` and every `init = init + *first` converts back to `int`. -/
def accumulate (read : Nat → Nat) (last : Nat) : Int :=
  (List.range last).foldl (fun init k => to_int (init + (read k : Int))) 0

/-- The constructor `ThermalOperator<dim>::ThermalOperator(parameters)`. The base
sub-object `base` is what `Operator<dim>(parameters)` has built. The member `dof_shift` is
declared in `cap/operator.h`, outside the excerpt: it is given the unsigned index type,
the type its only use converts it to. The constructor itself compares
`temperature_component` with nothing; the two bounds of the accumulation are written
`&(dofs_per_component[0])` and `&(dofs_per_component[this->temperature_component])`, and
the second subscript is not below the size of the vector when `temperature_component` is
not below the number of components (nor is the first when the vector is empty): a checked
`operator[]` aborts there, an unchecked one yields the address and the accumulation
reads on. -/
def ThermalOperator.create {R E : Type} (env : Env R E) (database : PropertyTree)
    (past_the_end : Nat → Nat) (base : Operator R) :
    Except ConstructionError (ThermalOperator R) :=
  match database.get_unsigned "temperature_component" with
  | .error e => .error e
  | .ok temperature_component =>
    let dofs_per_component := env.dof_handler.dofs_per_component
    if env.range_checked = true ∧ dofs_per_component.length ≤ temperature_component then
      .error (.vector_index_out_of_range temperature_component dofs_per_component.length)
    else
      .ok { toOperator := base
            temperature_component := temperature_component
            dof_shift := to_unsigned env.index_bits
              (accumulate (read_dofs_per_component dofs_per_component past_the_end)
                temperature_component) }

/-! ## The volume pass -/

/-- The cell-local matrices of the volume pass, declared before its loop over the cells. -/
structure VolumeLocals (R : Type) where
  /-- Source: `cell_stiffness_matrix` -/
  cell_stiffness_matrix : FullMatrix R
  /-- Source: `cell_mass_matrix` -/
  cell_mass_matrix : FullMatrix R

/-- The loop over the quadrature points of a cell (volume pass), with its loops over
`i` and `j`. -/
def volume_quadrature_loop {R : Type} [CommRing R] (dim n_q_points dofs_per_cell : Nat)
    (fe_values : FEValues R)
    (thermal_conductivity_values density_times_heat_capacity_values : Nat → R)
    (locals : VolumeLocals R) : VolumeLocals R :=
  (List.range n_q_points).foldl (fun locals q_point =>
    (List.range dofs_per_cell).foldl (fun locals i =>
      (List.range dofs_per_cell).foldl (fun (locals : VolumeLocals R) j =>
        { cell_stiffness_matrix :=
            locals.cell_stiffness_matrix.add_to i j
              (thermal_conductivity_values q_point *
                scalar_product dim (fe_values.gradient i q_point)
                  (fe_values.gradient j q_point) *
                fe_values.JxW q_point)
          cell_mass_matrix :=
            locals.cell_mass_matrix.add_to i j
              (density_times_heat_capacity_values q_point *
                (fe_values.value i q_point * fe_values.value j q_point) *
                fe_values.JxW q_point) })
        locals) locals) locals

/-- The shift of the extracted indices: `if (dof_shift != 0) std::transform(..., bind2nd(
std::minus<global_dof_index>(), dof_shift))`, a subtraction in the unsigned index type. -/
def shift_indices (index_bits dof_shift : Nat) (tmp_indices : List Nat) : List Nat :=
  if dof_shift ≠ 0 then
    tmp_indices.map (fun index : Nat =>
      to_unsigned index_bits ((index : Int) - (dof_shift : Int)))
  else tmp_indices

/-- The vector `tmp_indices` that both passes hand to `distribute_local_to_global` for a
cell: the indices of the cell, extracted, then shifted. -/
def tmp_indices {R E : Type} (env : Env R E) (dof_extractor : DoFExtractor)
    (dof_shift : Nat) (cell : Cell R) : List Nat :=
  let local_dof_indices := (List.range env.dof_handler.fe.dofs_per_cell).map cell.dof_indices
  shift_indices env.index_bits dof_shift (dof_extractor.extract_row_indices local_dof_indices)

/-- The body of the loop over the cells (volume pass). The state is the operator and the
cell-local matrices as the previous iteration left them. -/
def volume_cell {R E : Type} [CommRing R] (env : Env R E) (dof_extractor : DoFExtractor)
    (state : ThermalOperator R × VolumeLocals R) (cell : Cell R) :
    Except (E × ThermalOperator R) (ThermalOperator R × VolumeLocals R) :=
  let fe := env.dof_handler.fe
  let n_q_points := QGauss_size env.dof_handler.dim (fe.degree + 1)
  let zeroed : VolumeLocals R :=
    { state.2 with cell_stiffness_matrix := fun _ _ => 0, cell_mass_matrix := fun _ _ => 0 }
  match env.mp_values "thermal_conductivity" cell with
  | .error e => .error (e, state.1)
  | .ok thermal_conductivity_values =>
    match env.mp_values "density_times_heat_capacity" cell with
    | .error e => .error (e, state.1)
    | .ok density_times_heat_capacity_values =>
      let locals := volume_quadrature_loop env.dof_handler.dim n_q_points fe.dofs_per_cell
        cell.fe_values thermal_conductivity_values density_times_heat_capacity_values zeroed
      let indices := tmp_indices env dof_extractor state.1.dof_shift cell
      let tmp_mass_matrix := dof_extractor.extract_matrix locals.cell_mass_matrix
      let tmp_stiffness_matrix := dof_extractor.extract_matrix locals.cell_stiffness_matrix
      .ok ({ state.1 with
              stiffness_matrix := env.constraint_matrix.distribute_matrix
                tmp_stiffness_matrix indices state.1.stiffness_matrix
              mass_matrix := env.constraint_matrix.distribute_matrix
                tmp_mass_matrix indices state.1.mass_matrix }, locals)

/-- The loop over the active cells (volume pass): it stops at the first exception. -/
def volume_loop {R E : Type} [CommRing R] (env : Env R E) (dof_extractor : DoFExtractor) :
    List (Cell R) → ThermalOperator R × VolumeLocals R →
      Except (E × ThermalOperator R) (ThermalOperator R × VolumeLocals R)
  | [], state => .ok state
  | cell :: rest, state =>
    match volume_cell env dof_extractor state cell with
    | .error e => .error e
    | .ok state => volume_loop env dof_extractor rest state

/-- The extractor both passes build: `DoFExtractor dof_extractor(the_mask, the_mask,
dofs_per_cell)`. -/
def make_extractor {R E : Type} (env : Env R E) (temperature_component : Nat) :
    DoFExtractor :=
  let mask := the_mask env.dof_handler.n_components temperature_component
  DoFExtractor.create env.dof_handler.fe mask mask env.dof_handler.fe.dofs_per_cell

/-- The member function `ThermalOperator<dim>::compute_thermal_operator_contribution()`. -/
def compute_thermal_operator_contribution {R E : Type} [CommRing R] (env : Env R E)
    (op : ThermalOperator R) : Except (E × ThermalOperator R) (ThermalOperator R) :=
  let dof_extractor := make_extractor env op.temperature_component
  let locals : VolumeLocals R :=
    { cell_stiffness_matrix := fun _ _ => 0, cell_mass_matrix := fun _ _ => 0 }
  match volume_loop env dof_extractor env.dof_handler.active_cells (op, locals) with
  | .error e => .error e
  | .ok state => .ok state.1

/-! ## The Robin pass -/

/-- The cell-local matrix and vector of the Robin pass, declared before its loop over the
cells. -/
structure RobinLocals (R : Type) where
  /-- Source: `cell_stiffness_matrix` -/
  cell_stiffness_matrix : FullMatrix R
  /-- Source: `cell_load_vector` -/
  cell_load_vector : Vector R

/-- The loop over the quadrature points of a boundary face, with its loops over `i`
and `j`. -/
def robin_quadrature_loop {R : Type} [CommRing R] (n_face_q_points dofs_per_cell : Nat)
    (fe_face_values : FEFaceValues R)
    (heat_transfer_coefficient_values ambient_temperature_values : Nat → R)
    (locals : RobinLocals R) : RobinLocals R :=
  (List.range n_face_q_points).foldl (fun locals q_point =>
    (List.range dofs_per_cell).foldl (fun locals i =>
      let after_j : RobinLocals R :=
        (List.range dofs_per_cell).foldl (fun (locals : RobinLocals R) j =>
          { locals with
            cell_stiffness_matrix :=
              locals.cell_stiffness_matrix.add_to i j
                (heat_transfer_coefficient_values q_point *
                  fe_face_values.value i q_point *
                  fe_face_values.value j q_point *
                  fe_face_values.JxW q_point) })
          locals
      { after_j with
        cell_load_vector :=
          after_j.cell_load_vector.add_to i
            (heat_transfer_coefficient_values q_point *
              ambient_temperature_values q_point *
              fe_face_values.value i q_point *
              fe_face_values.JxW q_point) })
      locals) locals

/-- The loop over the faces of a cell: a face on the boundary has its two fields looked
up and its quadrature loop run; another face is passed over. -/
def robin_face_loop {R E : Type} [CommRing R] (env : Env R E) (cell : Cell R) :
    List Nat → RobinLocals R → Except E (RobinLocals R)
  | [], locals => .ok locals
  | face :: rest, locals =>
    if (cell.face face).at_boundary then
      match env.b_values "heat_transfer_coefficient" cell face with
      | .error e => .error e
      | .ok heat_transfer_coefficient_values =>
        match env.b_values "ambient_temperature" cell face with
        | .error e => .error e
        | .ok ambient_temperature_values =>
          robin_face_loop env cell rest
            (robin_quadrature_loop
              (QGauss_size (env.dof_handler.dim - 1) (env.dof_handler.fe.degree + 1))
              env.dof_handler.fe.dofs_per_cell (cell.face face).fe_face_values
              heat_transfer_coefficient_values ambient_temperature_values locals)
    else robin_face_loop env cell rest locals

/-- The first half of the body of the loop over the cells (Robin pass): the cell-local
matrix and vector, zeroed and then integrated when the cell is at the boundary. -/
def robin_integrate {R E : Type} [CommRing R] (env : Env R E) (locals : RobinLocals R)
    (cell : Cell R) : Except E (RobinLocals R) :=
  let zeroed : RobinLocals R :=
    { locals with cell_stiffness_matrix := fun _ _ => 0, cell_load_vector := fun _ => 0 }
  if cell.at_boundary then
    robin_face_loop env cell (List.range (faces_per_cell env.dof_handler.dim)) zeroed
  else .ok zeroed

/-- The body of the loop over the cells (Robin pass). -/
def robin_cell {R E : Type} [CommRing R] (env : Env R E) (dof_extractor : DoFExtractor)
    (state : ThermalOperator R × RobinLocals R) (cell : Cell R) :
    Except (E × ThermalOperator R) (ThermalOperator R × RobinLocals R) :=
  match robin_integrate env state.2 cell with
  | .error e => .error (e, state.1)
  | .ok locals =>
    let indices := tmp_indices env dof_extractor state.1.dof_shift cell
    let tmp_stiffness_matrix := dof_extractor.extract_matrix locals.cell_stiffness_matrix
    let tmp_load_vector := dof_extractor.extract_vector locals.cell_load_vector
    .ok ({ state.1 with
            stiffness_matrix := env.constraint_matrix.distribute_matrix
              tmp_stiffness_matrix indices state.1.stiffness_matrix
            load_vector := env.constraint_matrix.distribute_vector
              tmp_load_vector indices state.1.load_vector }, locals)

/-- The loop over the active cells (Robin pass): it stops at the first exception. -/
def robin_loop {R E : Type} [CommRing R] (env : Env R E) (dof_extractor : DoFExtractor) :
    List (Cell R) → ThermalOperator R × RobinLocals R →
      Except (E × ThermalOperator R) (ThermalOperator R × RobinLocals R)
  | [], state => .ok state
  | cell :: rest, state =>
    match robin_cell env dof_extractor state cell with
    | .error e => .error e
    | .ok state => robin_loop env dof_extractor rest state

/-- The member function `ThermalOperator<dim>::compute_robin_boundary_contribution()`. -/
def compute_robin_boundary_contribution {R E : Type} [CommRing R] (env : Env R E)
    (op : ThermalOperator R) : Except (E × ThermalOperator R) (ThermalOperator R) :=
  let dof_extractor := make_extractor env op.temperature_component
  let locals : RobinLocals R :=
    { cell_stiffness_matrix := fun _ _ => 0, cell_load_vector := fun _ => 0 }
  match robin_loop env dof_extractor env.dof_handler.active_cells (op, locals) with
  | .error e => .error e
  | .ok state => .ok state.1

/-! ## `reset` -/

/-- The first four statements of `reset`: the outputs set to zero, the boundary values
cleared. -/
def zero_outputs {R : Type} [CommRing R] (op : ThermalOperator R) : ThermalOperator R :=
  { op with
    stiffness_matrix := fun _ _ => 0
    mass_matrix := fun _ _ => 0
    load_vector := fun _ => 0
    boundary_values := [] }

/-- The member function `ThermalOperator<dim>::reset(parameters)`. -/
def reset {R E P : Type} [CommRing R] (env : Env R E) (parameters : P)
    (op : ThermalOperator R) : Except (E × ThermalOperator R) (ThermalOperator R) :=
  let _ignored := parameters
  match compute_thermal_operator_contribution env (zero_outputs op) with
  | .error e => .error e
  | .ok op => compute_robin_boundary_contribution env op

/-! ## Quantities used to state the properties -/

/-- The summand of a face in the cell stiffness matrix of the Robin pass. -/
def robin_face_stiffness {R : Type} [CommRing R] (n_face_q_points : Nat) (face : Face R) (h : Nat → R)
    (i j : Nat) : R :=
  ∑ q ∈ Finset.range n_face_q_points,
    h q * face.fe_face_values.value i q * face.fe_face_values.value j q *
      face.fe_face_values.JxW q

/-- The summand of a face in the cell load vector of the Robin pass. -/
def robin_face_load {R : Type} [CommRing R] (n_face_q_points : Nat) (face : Face R) (h amb : Nat → R)
    (i : Nat) : R :=
  ∑ q ∈ Finset.range n_face_q_points,
    h q * amb q * face.fe_face_values.value i q * face.fe_face_values.JxW q

/-! ## A small mesh for the examples

Two line cells that share a node, two components (component 1 is the temperature), linear
elements, component-wise numbering: degrees of freedom `0, 1, 2` belong to component 0
and `3, 4, 5` to the temperature. Integer data throughout. -/

/-- Finite element evaluation on an example cell: the temperature shape functions are
the local degrees of freedom 1 and 3. -/
def example_fe_values : FEValues Int where
  value := fun i q =>
    if i = 1 then (if q = 0 then 2 else 1)
    else if i = 3 then (if q = 0 then 1 else 2)
    else 0
  gradient := fun i _ d =>
    if d = 0 then (if i = 1 then -1 else if i = 3 then 1 else 0) else 0
  JxW := fun _ => 1

/-- Face evaluation on an example cell: face 0 is the left end, face 1 the right end. -/
def example_face (at_boundary : Bool) (face : Nat) : Face Int where
  at_boundary := at_boundary
  fe_face_values :=
    { value := fun i _ =>
        if (face = 0 ∧ i = 1) ∨ (face = 1 ∧ i = 3) then 1 else 0
      JxW := fun _ => 1 }

/-- The left example cell: nodes 0 and 1, its left end on the boundary. -/
def example_cell_left : Cell Int where
  at_boundary := true
  face := fun f => example_face (decide (f = 0)) f
  dof_indices := fun i => [0, 3, 1, 4].getD i 0
  fe_values := example_fe_values

/-- The right example cell: nodes 1 and 2, its right end on the boundary. -/
def example_cell_right : Cell Int where
  at_boundary := true
  face := fun f => example_face (decide (f = 1)) f
  dof_indices := fun i => [1, 4, 2, 5].getD i 0
  fe_values := example_fe_values

/-- The example degree-of-freedom handler. -/
def example_dof_handler : DoFHandler Int where
  dim := 1
  fe := { degree := 1, dofs_per_cell := 4, system_to_component_index := fun i => i % 2 }
  dofs_per_component := [3, 3]
  active_cells := [example_cell_left, example_cell_right]

/-- The example volume provider: conductivity 2, capacity 3, any other name unknown. -/
def example_mp_values (name : String) (_cell : Cell Int) : Except String (Nat → Int) :=
  if name = "thermal_conductivity" then .ok (fun _ => 2)
  else if name = "density_times_heat_capacity" then .ok (fun _ => 3)
  else .error name

/-- The example boundary provider: coefficient 5, ambient temperature 300. -/
def example_b_values (name : String) (_cell : Cell Int) (_face : Nat) :
    Except String (Nat → Int) :=
  if name = "heat_transfer_coefficient" then .ok (fun _ => 5)
  else if name = "ambient_temperature" then .ok (fun _ => 300)
  else .error name

/-- The example collaborators, without constraints, with 32 bit indices. -/
def example_env : Env Int String where
  index_bits := 32
  dof_handler := example_dof_handler
  constraint_matrix := ConstraintMatrix.unconstrained
  mp_values := example_mp_values
  b_values := example_b_values

/-- An example operator whose outputs hold arbitrary earlier contents. -/
def example_operator : ThermalOperator Int where
  stiffness_matrix := fun i j => 7 + i + j
  mass_matrix := fun i _ => 11 * i
  load_vector := fun _ => -4
  boundary_values := [(0, 1)]
  temperature_component := 1
  dof_shift := 3

/-- Example contents of the cell-local matrices left by an earlier iteration. -/
def example_volume_locals : VolumeLocals Int where
  cell_stiffness_matrix := fun _ _ => 9
  cell_mass_matrix := fun i j => i + j

/-- An operator whose outputs are zero, with the given configuration. -/
def zero_operator {R : Type} [CommRing R] (temperature_component dof_shift : Nat) :
    ThermalOperator R where
  stiffness_matrix := fun _ _ => 0
  mass_matrix := fun _ _ => 0
  load_vector := fun _ => 0
  boundary_values := []
  temperature_component := temperature_component
  dof_shift := dof_shift

/-- The scattered volume contribution of a cell: the operator that the body of the volume
loop leaves for this cell when it starts from zero outputs (zero outputs if the body
throws). Its stiffness and mass matrices are what the cell adds to the global ones. -/
def volume_contribution {R E : Type} [CommRing R] (env : Env R E)
    (temperature_component dof_shift : Nat) (cell : Cell R) : ThermalOperator R :=
  match volume_cell env (make_extractor env temperature_component)
      (zero_operator temperature_component dof_shift,
        { cell_stiffness_matrix := fun _ _ => 0, cell_mass_matrix := fun _ _ => 0 }) cell with
  | .ok out => out.1
  | .error _ => zero_operator temperature_component dof_shift

/-- The scattered Robin contribution of a cell: the operator that the body of the Robin
loop leaves for this cell when it starts from zero outputs (zero outputs if the body
throws). Its stiffness matrix and load vector are what the cell adds to the global ones. -/
def robin_contribution {R E : Type} [CommRing R] (env : Env R E)
    (temperature_component dof_shift : Nat) (cell : Cell R) : ThermalOperator R :=
  match robin_cell env (make_extractor env temperature_component)
      (zero_operator temperature_component dof_shift,
        { cell_stiffness_matrix := fun _ _ => 0, cell_load_vector := fun _ => 0 }) cell with
  | .ok out => out.1
  | .error _ => zero_operator temperature_component dof_shift

/-- An accumulator is additive when a call adds to the global container an increment that
does not depend on what the container holds. -/
def ConstraintMatrix.Additive {R : Type} [CommRing R] (cm : ConstraintMatrix R) : Prop :=
  (∀ local_matrix indices global_matrix a b,
    cm.distribute_matrix local_matrix indices global_matrix a b =
      global_matrix a b + cm.distribute_matrix local_matrix indices (fun _ _ => 0) a b) ∧
  (∀ local_vector indices global_vector a,
    cm.distribute_vector local_vector indices global_vector a =
      global_vector a + cm.distribute_vector local_vector indices (fun _ => 0) a)

/-- The two lookups of the volume pass on a cell return. -/
def volume_lookups_return {R E : Type} (env : Env R E) (cell : Cell R) : Prop :=
  (∃ k, env.mp_values "thermal_conductivity" cell = .ok k) ∧
  (∃ c, env.mp_values "density_times_heat_capacity" cell = .ok c)

/-- The lookups that the Robin pass performs on a cell return: two for each boundary face
of a cell at the boundary. -/
def robin_lookups_return {R E : Type} (env : Env R E) (cell : Cell R) : Prop :=
  cell.at_boundary = true →
    ∀ f, f < faces_per_cell env.dof_handler.dim → (cell.face f).at_boundary = true →
      (∃ h, env.b_values "heat_transfer_coefficient" cell f = .ok h) ∧
      (∃ amb, env.b_values "ambient_temperature" cell f = .ok amb)

/-- A matrix is symmetric. -/
def IsSymmetric {R : Type} (M : Nat → Nat → R) : Prop :=
  ∀ a b, M a b = M b a

/-- An accumulator preserves symmetry when distributing a symmetric local matrix, with one
index list for rows and columns, into a symmetric global matrix leaves it symmetric. -/
def ConstraintMatrix.PreservesSymmetry {R : Type} (cm : ConstraintMatrix R) : Prop :=
  ∀ local_matrix indices global_matrix, IsSymmetric local_matrix →
    IsSymmetric global_matrix →
    IsSymmetric (cm.distribute_matrix local_matrix indices global_matrix)

/-- An accumulator is neutral on zero when distributing an all-zero local matrix or
vector leaves the global container as it was. -/
def ConstraintMatrix.ZeroNeutral {R : Type} [CommRing R] (cm : ConstraintMatrix R) : Prop :=
  (∀ indices global_matrix,
    cm.distribute_matrix (fun _ _ => 0) indices global_matrix = global_matrix) ∧
  (∀ indices global_vector,
    cm.distribute_vector (fun _ => 0) indices global_vector = global_vector)

/-- A cell in the interior of the example mesh: no face on the boundary. -/
def example_cell_interior : Cell Int where
  at_boundary := false
  face := fun f => example_face false f
  dof_indices := fun i => [0, 3, 1, 4].getD i 0
  fe_values := example_fe_values

/-- The example collaborators on a mesh without boundary cell (a periodic line, say). -/
def example_env_interior : Env Int String :=
  { example_env with
    dof_handler :=
      { example_dof_handler with active_cells := [example_cell_interior, example_cell_interior] } }

/-- A translator for the examples: a nonempty string of decimal digits is the number it
writes, any other string does not translate. -/
def parse_decimal (data : String) : Option Nat :=
  if data.data.isEmpty || !(data.data.all Char.isDigit) then none
  else some (data.data.foldl (fun n c => 10 * n + (c.toNat - 48)) 0)

/-- A configuration whose only entry is `temperature_component`, with the given data, read
as a decimal numeral. -/
def example_database (data : String) : PropertyTree where
  entries := [("temperature_component", data)]
  translate_unsigned := parse_decimal

/-- The base sub-object of the examples: outputs as the base constructor may leave them. -/
def example_base : Operator Int where
  stiffness_matrix := fun _ _ => 0
  mass_matrix := fun _ _ => 0
  load_vector := fun _ => 0
  boundary_values := []

/-- The example collaborators of a build with 64 bit indices, on a space whose first
component has `2^32` degrees of freedom. -/
def example_env_large : Env Int String :=
  { example_env with
    index_bits := 64
    dof_handler := { example_dof_handler with dofs_per_component := [4294967296, 1] } }

/-- A cell of a mesh with two blocks of `2^32` degrees of freedom: nodes 0 and 1, its left
end on the boundary; its temperature degrees of freedom are numbered `2^32` and
`2^32 + 1`. -/
def example_cell_wide : Cell Int where
  at_boundary := true
  face := fun f => example_face (decide (f = 0)) f
  dof_indices := fun i => [0, 4294967296, 1, 4294967297].getD i 0
  fe_values := example_fe_values

/-- The example collaborators of a build with 64 bit indices, on a space with two
components of `2^32` degrees of freedom each, numbered as contiguous blocks. -/
def example_env_wide : Env Int String :=
  { example_env with
    index_bits := 64
    dof_handler :=
      { example_dof_handler with
        dofs_per_component := [4294967296, 4294967296]
        active_cells := [example_cell_wide] } }

/-- A lookup of the volume pass on a cell throws `e`: the first one, or the second one
after the first has returned. -/
def volume_lookup_throws {R E : Type} (env : Env R E) (cell : Cell R) (e : E) : Prop :=
  env.mp_values "thermal_conductivity" cell = .error e ∨
  ((∃ k, env.mp_values "thermal_conductivity" cell = .ok k) ∧
    env.mp_values "density_times_heat_capacity" cell = .error e)

/-- A lookup of the Robin pass on a face throws `e`: the first one, or the second one
after the first has returned. -/
def robin_lookup_throws {R E : Type} (env : Env R E) (cell : Cell R) (face : Nat) (e : E) :
    Prop :=
  env.b_values "heat_transfer_coefficient" cell face = .error e ∨
  ((∃ h, env.b_values "heat_transfer_coefficient" cell face = .ok h) ∧
    env.b_values "ambient_temperature" cell face = .error e)

/-- The example collaborators with a volume provider that does not know the right cell. -/
def example_env_failing : Env Int String :=
  { example_env with
    mp_values := fun name cell =>
      if cell.dof_indices 0 = 1 then .error "cell out of range"
      else example_mp_values name cell }

/-! ## The unit square with the bilinear element

The scenario of the closed-form properties: one cell, the unit square, with the bilinear
shape functions in the vertex order `(0,0), (1,0), (0,1), (1,1)`, the 2x2 Gauss rule on the
cell and the 2-point Gauss rule on each face, one component, no constraint. The Gauss
abscissae on `[0, 1]` are `(1 - s) / 2` and `(1 + s) / 2`, where `s` stands for `1/√3`:
the properties are stated over any field with an element `s` such that `3 * s^2 = 1`. -/

/-- The abscissae of the 2-point Gauss rule on `[0, 1]`. -/
def gauss_point {R : Type} [Field R] (s : R) (n : Nat) : R :=
  if n = 0 then (1 - s) / 2 else (1 + s) / 2

/-- The bilinear shape function `i` of the unit square at the point `(x, y)`. -/
def bilinear_value {R : Type} [Field R] (i : Nat) (x y : R) : R :=
  if i = 0 then (1 - x) * (1 - y)
  else if i = 1 then x * (1 - y)
  else if i = 2 then (1 - x) * y
  else if i = 3 then x * y
  else 0

/-- Component `d` of the gradient of the bilinear shape function `i` at `(x, y)`. -/
def bilinear_gradient {R : Type} [Field R] (i d : Nat) (x y : R) : R :=
  if d = 0 then
    (if i = 0 then -(1 - y) else if i = 1 then 1 - y else if i = 2 then -y
      else if i = 3 then y else 0)
  else if d = 1 then
    (if i = 0 then -(1 - x) else if i = 1 then -x else if i = 2 then 1 - x
      else if i = 3 then x else 0)
  else 0

/-- The evaluation of the bilinear element on the unit square with the 2x2 Gauss rule:
point `q` has abscissa number `q % 2` in `x` and `q / 2` in `y`, and weight `1/4`. -/
def unit_square_fe_values {R : Type} [Field R] (s : R) : FEValues R where
  value := fun i q => bilinear_value i (gauss_point s (q % 2)) (gauss_point s (q / 2))
  gradient := fun i q d =>
    bilinear_gradient i d (gauss_point s (q % 2)) (gauss_point s (q / 2))
  JxW := fun _ => 1 / 4

/-- The faces of the unit square, numbered as in deal.II (`x = 0`, `x = 1`, `y = 0`,
`y = 1`), with the 2-point Gauss rule along the face, weight `1/2`. -/
def unit_square_face {R : Type} [Field R] (s : R) (at_boundary : Bool) (face : Nat) :
    Face R where
  at_boundary := at_boundary
  fe_face_values :=
    { value := fun i q =>
        if face = 0 then bilinear_value i 0 (gauss_point s q)
        else if face = 1 then bilinear_value i 1 (gauss_point s q)
        else if face = 2 then bilinear_value i (gauss_point s q) 0
        else bilinear_value i (gauss_point s q) 1
      JxW := fun _ => 1 / 2 }

/-- The single cell of the scenario: degrees of freedom `0, 1, 2, 3` at its vertices, the
face `x = 0` the only one treated as boundary. -/
def unit_square_cell {R : Type} [Field R] (s : R) : Cell R where
  at_boundary := true
  face := fun f => unit_square_face s (decide (f = 0)) f
  dof_indices := fun i => i
  fe_values := unit_square_fe_values s

/-- The collaborators of the scenario: constant conductivity `k`, capacity `c`, heat
transfer coefficient `h` and ambient temperature `amb`; no constraint. -/
def unit_square_env {R : Type} [Field R] (s k c h amb : R) : Env R String where
  index_bits := 32
  dof_handler :=
    { dim := 2
      fe := { degree := 1, dofs_per_cell := 4, system_to_component_index := fun _ => 0 }
      dofs_per_component := [4]
      active_cells := [unit_square_cell s] }
  constraint_matrix := ConstraintMatrix.unconstrained
  mp_values := fun name _ =>
    if name = "thermal_conductivity" then .ok (fun _ => k)
    else if name = "density_times_heat_capacity" then .ok (fun _ => c)
    else .error name
  b_values := fun name _ _ =>
    if name = "heat_transfer_coefficient" then .ok (fun _ => h)
    else if name = "ambient_temperature" then .ok (fun _ => amb)
    else .error name

/-- Six times the closed-form Galerkin stiffness matrix of the bilinear element on the
unit square. -/
def closed_form_stiffness (i j : Nat) : Int :=
  (([[4, -1, -1, -2], [-1, 4, -2, -1], [-1, -2, 4, -1], [-2, -1, -1, 4]] :
    List (List Int)).getD i []).getD j 0

/-- Thirty-six times the closed-form mass matrix of the bilinear element on the unit
square. -/
def closed_form_mass (i j : Nat) : Int :=
  (([[4, 2, 2, 1], [2, 4, 1, 2], [2, 1, 4, 2], [1, 2, 2, 4]] :
    List (List Int)).getD i []).getD j 0

/-- Six times the closed-form Robin matrix of the face `x = 0`: the block
`[[2, 1], [1, 2]]` at the rows and columns `0` and `2`. -/
def closed_form_robin (i j : Nat) : Int :=
  (([[2, 0, 1, 0], [0, 0, 0, 0], [1, 0, 2, 0], [0, 0, 0, 0]] :
    List (List Int)).getD i []).getD j 0

/-- Twice the closed-form load of the face `x = 0` for unit data: `1` at the nodes `0`
and `2`. -/
def closed_form_load (i : Nat) : Int :=
  ([1, 0, 1, 0] : List Int).getD i 0

/-! ## The contributions of a cell, as the integrals state them

These definitions do not run the loops of the passes: the cell-local matrices are written
as the quadrature sums, and the scattered contribution of a cell is what the accumulator
adds to a zero container when it is handed them with the shifted temperature indices of
the cell. -/

/-- The cell-local stiffness matrix of the volume term: for `i, j < dofs_per_cell` the sum
over the quadrature points of `k(q) * (grad(i,q) . grad(j,q)) * JxW(q)`. -/
def volume_local_stiffness {R : Type} [CommRing R] (dim n_q_points dofs_per_cell : Nat)
    (fe_values : FEValues R) (k : Nat → R) : FullMatrix R :=
  fun i j =>
    if i < dofs_per_cell ∧ j < dofs_per_cell then
      ∑ q ∈ Finset.range n_q_points,
        k q * (∑ d ∈ Finset.range dim, fe_values.gradient i q d * fe_values.gradient j q d) *
          fe_values.JxW q
    else 0

/-- The cell-local mass matrix: for `i, j < dofs_per_cell` the sum over the quadrature
points of `c(q) * (value(i,q) * value(j,q)) * JxW(q)`. -/
def volume_local_mass {R : Type} [CommRing R] (n_q_points dofs_per_cell : Nat)
    (fe_values : FEValues R) (c : Nat → R) : FullMatrix R :=
  fun i j =>
    if i < dofs_per_cell ∧ j < dofs_per_cell then
      ∑ q ∈ Finset.range n_q_points,
        c q * (fe_values.value i q * fe_values.value j q) * fe_values.JxW q
    else 0

/-- The cell-local Robin matrix: on a cell at the boundary, for `i, j < dofs_per_cell`, the
sum over the boundary faces `f` and the face quadrature points `q` of
`h_f(q) * value(i,q) * value(j,q) * JxW_f(q)`; zero on any other cell. -/
def robin_local_stiffness {R : Type} [CommRing R] (faces n_face_q_points dofs_per_cell : Nat)
    (cell : Cell R) (h : Nat → Nat → R) : FullMatrix R :=
  fun i j =>
    if cell.at_boundary = true ∧ i < dofs_per_cell ∧ j < dofs_per_cell then
      ∑ f ∈ (Finset.range faces).filter (fun f => (cell.face f).at_boundary = true),
        ∑ q ∈ Finset.range n_face_q_points,
          h f q * (cell.face f).fe_face_values.value i q *
            (cell.face f).fe_face_values.value j q * (cell.face f).fe_face_values.JxW q
    else 0

/-- The cell-local Robin load vector: on a cell at the boundary, for `i < dofs_per_cell`,
the sum over the boundary faces `f` and the face quadrature points `q` of
`h_f(q) * amb_f(q) * value(i,q) * JxW_f(q)`; zero on any other cell. -/
def robin_local_load {R : Type} [CommRing R] (faces n_face_q_points dofs_per_cell : Nat)
    (cell : Cell R) (h amb : Nat → Nat → R) : Vector R :=
  fun i =>
    if cell.at_boundary = true ∧ i < dofs_per_cell then
      ∑ f ∈ (Finset.range faces).filter (fun f => (cell.face f).at_boundary = true),
        ∑ q ∈ Finset.range n_face_q_points,
          h f q * amb f q * (cell.face f).fe_face_values.value i q *
            (cell.face f).fe_face_values.JxW q
    else 0

/-- The global indices a cell is scattered to: the indices of its local degrees of freedom
that belong to the temperature, in order, each minus `dof_shift` in the unsigned index
type (left as they are when `dof_shift` is 0). -/
def scattered_indices {R E : Type} (env : Env R E) (temperature_component dof_shift : Nat)
    (cell : Cell R) : List Nat :=
  ((make_extractor env temperature_component).extract_row_indices
      ((List.range env.dof_handler.fe.dofs_per_cell).map cell.dof_indices)).map
    (fun g : Nat =>
      if dof_shift = 0 then g
      else to_unsigned env.index_bits ((g : Int) - (dof_shift : Int)))

/-- The scattered volume contribution of a cell to the stiffness matrix, for the
conductivity values `k` of the cell. -/
def scattered_volume_stiffness {R E : Type} [CommRing R] (env : Env R E)
    (temperature_component dof_shift : Nat) (cell : Cell R) (k : Nat → R) : SparseMatrix R :=
  env.constraint_matrix.distribute_matrix
    ((make_extractor env temperature_component).extract_matrix
      (volume_local_stiffness env.dof_handler.dim
        (QGauss_size env.dof_handler.dim (env.dof_handler.fe.degree + 1))
        env.dof_handler.fe.dofs_per_cell cell.fe_values k))
    (scattered_indices env temperature_component dof_shift cell) (fun _ _ => 0)

/-- The scattered volume contribution of a cell to the mass matrix, for the capacity
values `c` of the cell. -/
def scattered_volume_mass {R E : Type} [CommRing R] (env : Env R E)
    (temperature_component dof_shift : Nat) (cell : Cell R) (c : Nat → R) : SparseMatrix R :=
  env.constraint_matrix.distribute_matrix
    ((make_extractor env temperature_component).extract_matrix
      (volume_local_mass (QGauss_size env.dof_handler.dim (env.dof_handler.fe.degree + 1))
        env.dof_handler.fe.dofs_per_cell cell.fe_values c))
    (scattered_indices env temperature_component dof_shift cell) (fun _ _ => 0)

/-- The scattered Robin contribution of a cell to the stiffness matrix, for the heat
transfer coefficients `h f` of its faces. -/
def scattered_robin_stiffness {R E : Type} [CommRing R] (env : Env R E)
    (temperature_component dof_shift : Nat) (cell : Cell R) (h : Nat → Nat → R) :
    SparseMatrix R :=
  env.constraint_matrix.distribute_matrix
    ((make_extractor env temperature_component).extract_matrix
      (robin_local_stiffness (faces_per_cell env.dof_handler.dim)
        (QGauss_size (env.dof_handler.dim - 1) (env.dof_handler.fe.degree + 1))
        env.dof_handler.fe.dofs_per_cell cell h))
    (scattered_indices env temperature_component dof_shift cell) (fun _ _ => 0)

/-- The scattered Robin contribution of a cell to the load vector, for the heat transfer
coefficients `h f` and the ambient temperatures `amb f` of its faces. -/
def scattered_robin_load {R E : Type} [CommRing R] (env : Env R E)
    (temperature_component dof_shift : Nat) (cell : Cell R) (h amb : Nat → Nat → R) :
    Vector R :=
  env.constraint_matrix.distribute_vector
    ((make_extractor env temperature_component).extract_vector
      (robin_local_load (faces_per_cell env.dof_handler.dim)
        (QGauss_size (env.dof_handler.dim - 1) (env.dof_handler.fe.degree + 1))
        env.dof_handler.fe.dofs_per_cell cell h amb))
    (scattered_indices env temperature_component dof_shift cell) (fun _ => 0)

/-- The two lookups of the volume pass on a cell return the values `k` and `c`. -/
def volume_lookups_return_values {R E : Type} (env : Env R E) (cell : Cell R)
    (k c : Nat → R) : Prop :=
  env.mp_values "thermal_conductivity" cell = .ok k ∧
  env.mp_values "density_times_heat_capacity" cell = .ok c

/-- The lookups that the Robin pass performs on a cell return the values `h f` and `amb f`:
two for each boundary face `f` of a cell at the boundary. -/
def robin_lookups_return_values {R E : Type} (env : Env R E) (cell : Cell R)
    (h amb : Nat → Nat → R) : Prop :=
  cell.at_boundary = true →
    ∀ f, f < faces_per_cell env.dof_handler.dim → (cell.face f).at_boundary = true →
      env.b_values "heat_transfer_coefficient" cell f = .ok (h f) ∧
      env.b_values "ambient_temperature" cell f = .ok (amb f)

/-- The lookups of both passes return the values `k`, `c`, `h`, `amb` on every active
cell (the boundary ones on the boundary faces of the cells at the boundary). -/
def providers_return {R E : Type} (env : Env R E) (k c : Cell R → Nat → R)
    (h amb : Cell R → Nat → Nat → R) : Prop :=
  ∀ cell ∈ env.dof_handler.active_cells,
    env.mp_values "thermal_conductivity" cell = .ok (k cell) ∧
    env.mp_values "density_times_heat_capacity" cell = .ok (c cell) ∧
    (cell.at_boundary = true →
      ∀ f, f < faces_per_cell env.dof_handler.dim → (cell.face f).at_boundary = true →
        env.b_values "heat_transfer_coefficient" cell f = .ok (h cell f) ∧
        env.b_values "ambient_temperature" cell f = .ok (amb cell f))

/-! ## The products of the passes in `double`

The scalars of the passes are `double`. The properties of the sums are stated over a
commutative ring, that is, for the exact values. What follows models the two operations of
`double` themselves, which round their exact result to a significand of 53 bits, and
the terms that the two passes add to their cell-local matrices, with the parentheses of
the source. -/

/-- A finite `double`, written `mantissa * 2 ^ exponent`. The range of the exponent
(overflow, subnormal numbers) is not modelled. -/
structure Double where
  /-- the significand, with its sign -/
  mantissa : Int
  /-- the power of two that scales the significand -/
  exponent : Int
  deriving DecidableEq, Repr

/-- The number of low bits to drop from `magnitude` to leave a significand of at most 53
bits: the number of halvings that bring it below `2^53`. The first argument bounds the
recursion; `magnitude` itself is enough. -/
def Double.excess_bits : Nat → Nat → Nat
  | 0, _ => 0
  | fuel + 1, magnitude =>
    if magnitude < 2 ^ 53 then 0 else Double.excess_bits fuel (magnitude / 2) + 1

/-- Rounding of the exact value `mantissa * 2 ^ exponent` to a significand of 53 bits, to
nearest, ties to even (the rounding of IEEE 754 arithmetic in its default mode). `shift` is
the number of low bits dropped. -/
def Double.round (mantissa exponent : Int) : Double :=
  let magnitude := mantissa.natAbs
  let shift := Double.excess_bits magnitude magnitude
  let quotient := magnitude / 2 ^ shift
  let remainder := magnitude % 2 ^ shift
  let rounded :=
    if 2 ^ shift < 2 * remainder ∨ (2 * remainder = 2 ^ shift ∧ quotient % 2 = 1) then
      quotient + 1
    else quotient
  { mantissa := mantissa.sign * (rounded : Int), exponent := exponent + (shift : Int) }

/-- The operator `*` of `double`: the exact product, rounded. -/
def Double.mul (a b : Double) : Double :=
  Double.round (a.mantissa * b.mantissa) (a.exponent + b.exponent)

/-- The operator `+` of `double`: the exact sum, rounded. -/
def Double.add (a b : Double) : Double :=
  let exponent := min a.exponent b.exponent
  Double.round
    (a.mantissa * 2 ^ (a.exponent - exponent).toNat +
      b.mantissa * 2 ^ (b.exponent - exponent).toNat)
    exponent

/-- Two `double` have the same value (what `==` compares). -/
def Double.same_value (a b : Double) : Prop :=
  a.mantissa * 2 ^ (a.exponent - min a.exponent b.exponent).toNat =
    b.mantissa * 2 ^ (b.exponent - min a.exponent b.exponent).toNat

/-- The `double` of an integer of at most 53 bits. -/
def Double.of_int (n : Int) : Double :=
  { mantissa := n, exponent := 0 }

/-- The `double` nearest to one tenth, the value of the literal `0.1`:
`3602879701896397 / 2^55`. -/
def Double.one_tenth : Double :=
  { mantissa := 3602879701896397, exponent := -55 }

/-- Source: `fe_values[temperature].gradient(i, q_point) *
fe_values[temperature].gradient(j, q_point)`, the scalar product of two tensors of rank 1. -/
def scalar_product_double (dim : Nat) (a b : Nat → Double) : Double :=
  (List.range dim).foldl (fun s d => s.add ((a d).mul (b d))) (Double.of_int 0)

/-- Source: the term added to `cell_stiffness_matrix(i, j)` in the volume pass,
`thermal_conductivity_values[q_point] * (gradient(i, q_point) * gradient(j, q_point)) *
JxW(q_point)`, with the parentheses of the source. -/
def volume_stiffness_term_double (dim : Nat) (thermal_conductivity : Double)
    (gradient_i gradient_j : Nat → Double) (JxW : Double) : Double :=
  (thermal_conductivity.mul (scalar_product_double dim gradient_i gradient_j)).mul JxW

/-- Source: the term added to `cell_mass_matrix(i, j)` in the volume pass,
`density_times_heat_capacity_values[q_point] * (value(i, q_point) * value(j, q_point)) *
JxW(q_point)`, with the parentheses of the source. -/
def volume_mass_term_double (density_times_heat_capacity value_i value_j JxW : Double) :
    Double :=
  (density_times_heat_capacity.mul (value_i.mul value_j)).mul JxW

/-- Source: the term added to `cell_stiffness_matrix(i, j)` in the Robin pass,
`heat_transfer_coefficient_values[q_point] * value(i, q_point) * value(j, q_point) *
JxW(q_point)`: without parentheses, so the products associate to the left. -/
def robin_stiffness_term_double (heat_transfer_coefficient value_i value_j JxW : Double) :
    Double :=
  ((heat_transfer_coefficient.mul value_i).mul value_j).mul JxW

/-- The entry of a cell-local matrix after it was set to zero and one term was added to it
(one quadrature point): `cell_stiffness_matrix(i, j) = 0; cell_stiffness_matrix(i, j) +=
term`. -/
def entry_after_one_term (term : Double) : Double :=
  (Double.of_int 0).add term

-- end of the definitions

/-! ## Loops as sums -/

section Lemmas

variable {R : Type} [CommRing R]

/-- A loop over `0 .. n-1` whose body adds `δ k` to an observed quantity adds the sum of
the `δ k` to it. -/
theorem foldl_range_observe {S : Type} (obs : S → R) (step : S → Nat → S) (δ : Nat → R)
    (h : ∀ s k, obs (step s k) = obs s + δ k) (n : Nat) (s : S) :
    obs ((List.range n).foldl step s) = obs s + ∑ k ∈ Finset.range n, δ k := by
  induction n with
  | zero => simp
  | succ n ih =>
    rw [List.range_succ, List.foldl_append, Finset.sum_range_succ]
    simp only [List.foldl_cons, List.foldl_nil]
    rw [h, ih, add_assoc]

/-- A double sum that selects the entry `(a, b)`. -/
theorem sum_sum_select (n a b : Nat) (f : Nat → Nat → R) :
    (∑ i ∈ Finset.range n, ∑ j ∈ Finset.range n, if a = i ∧ b = j then f i j else 0)
      = if a < n ∧ b < n then f a b else 0 := by
  have inner : ∀ i, (∑ j ∈ Finset.range n, if a = i ∧ b = j then f i j else 0)
      = if a = i then (if b < n then f i b else 0) else 0 := by
    intro i
    by_cases hi : a = i
    · simp [hi, Finset.sum_ite_eq]
    · simp [hi]
  simp only [inner]
  rw [Finset.sum_ite_eq]
  by_cases ha : a < n <;> by_cases hb : b < n <;> simp [ha, hb]

/-- The scalar product is the sum of the products of the components. -/
theorem scalar_product_eq_sum (dim : Nat) (a b : Nat → R) :
    scalar_product dim a b = ∑ d ∈ Finset.range dim, a d * b d := by
  unfold scalar_product
  have := foldl_range_observe (fun s : R => s) (fun s d => s + a d * b d)
    (fun d => a d * b d) (fun _ _ => rfl) dim 0
  simpa using this

end Lemmas

section VolumeLemmas

variable {R : Type} [CommRing R]

/-- Entry `(a, b)` of the cell stiffness matrix after the quadrature loop of the volume
pass. -/
theorem volume_quadrature_loop_stiffness (dim n_q_points dofs_per_cell : Nat)
    (fe_values : FEValues R) (k c : Nat → R) (locals : VolumeLocals R) (a b : Nat) :
    (volume_quadrature_loop dim n_q_points dofs_per_cell fe_values k c
        locals).cell_stiffness_matrix a b
      = locals.cell_stiffness_matrix a b +
        ∑ q ∈ Finset.range n_q_points,
          if a < dofs_per_cell ∧ b < dofs_per_cell then
            k q * scalar_product dim (fe_values.gradient a q) (fe_values.gradient b q) *
              fe_values.JxW q
          else 0 := by
  unfold volume_quadrature_loop
  refine foldl_range_observe (fun s : VolumeLocals R => s.cell_stiffness_matrix a b) _ _ ?_ _ _
  intro s q
  rw [← sum_sum_select dofs_per_cell a b (fun i j =>
    k q * scalar_product dim (fe_values.gradient i q) (fe_values.gradient j q) *
      fe_values.JxW q)]
  refine foldl_range_observe (fun s : VolumeLocals R => s.cell_stiffness_matrix a b) _ _ ?_ _ _
  intro s i
  refine foldl_range_observe (fun s : VolumeLocals R => s.cell_stiffness_matrix a b) _ _ ?_ _ _
  intro s j
  simp only [FullMatrix.add_to]
  split <;> simp

/-- Entry `(a, b)` of the cell mass matrix after the quadrature loop of the volume pass. -/
theorem volume_quadrature_loop_mass (dim n_q_points dofs_per_cell : Nat)
    (fe_values : FEValues R) (k c : Nat → R) (locals : VolumeLocals R) (a b : Nat) :
    (volume_quadrature_loop dim n_q_points dofs_per_cell fe_values k c
        locals).cell_mass_matrix a b
      = locals.cell_mass_matrix a b +
        ∑ q ∈ Finset.range n_q_points,
          if a < dofs_per_cell ∧ b < dofs_per_cell then
            c q * (fe_values.value a q * fe_values.value b q) * fe_values.JxW q
          else 0 := by
  unfold volume_quadrature_loop
  refine foldl_range_observe (fun s : VolumeLocals R => s.cell_mass_matrix a b) _ _ ?_ _ _
  intro s q
  rw [← sum_sum_select dofs_per_cell a b (fun i j =>
    c q * (fe_values.value i q * fe_values.value j q) * fe_values.JxW q)]
  refine foldl_range_observe (fun s : VolumeLocals R => s.cell_mass_matrix a b) _ _ ?_ _ _
  intro s i
  refine foldl_range_observe (fun s : VolumeLocals R => s.cell_mass_matrix a b) _ _ ?_ _ _
  intro s j
  simp only [FullMatrix.add_to]
  split <;> simp

end VolumeLemmas

section RobinLemmas

variable {R : Type} [CommRing R]

/-- A sum over `List.range n` is the sum over `Finset.range n`. -/
theorem list_range_map_sum (n : Nat) (g : Nat → R) :
    ((List.range n).map g).sum = ∑ k ∈ Finset.range n, g k := by
  induction n with
  | zero => simp
  | succ n ih => simp [List.range_succ, Finset.sum_range_succ, ih]

/-- A sum that selects the entry `a`. -/
theorem sum_select (n a : Nat) (f : Nat → R) :
    (∑ i ∈ Finset.range n, if a = i then f i else 0) = if a < n then f a else 0 := by
  rw [Finset.sum_ite_eq]
  simp

/-- Entry `(a, b)` of the cell stiffness matrix after the quadrature loop of a face. -/
theorem robin_quadrature_loop_stiffness (n_face_q_points dofs_per_cell : Nat)
    (fe_face_values : FEFaceValues R) (h amb : Nat → R) (locals : RobinLocals R)
    (a b : Nat) :
    (robin_quadrature_loop n_face_q_points dofs_per_cell fe_face_values h amb
        locals).cell_stiffness_matrix a b
      = locals.cell_stiffness_matrix a b +
        ∑ q ∈ Finset.range n_face_q_points,
          if a < dofs_per_cell ∧ b < dofs_per_cell then
            h q * fe_face_values.value a q * fe_face_values.value b q * fe_face_values.JxW q
          else 0 := by
  unfold robin_quadrature_loop
  refine foldl_range_observe (fun s : RobinLocals R => s.cell_stiffness_matrix a b) _ _ ?_ _ _
  intro s q
  rw [← sum_sum_select dofs_per_cell a b (fun i j =>
    h q * fe_face_values.value i q * fe_face_values.value j q * fe_face_values.JxW q)]
  refine foldl_range_observe (fun s : RobinLocals R => s.cell_stiffness_matrix a b) _ _ ?_ _ _
  intro s i
  refine foldl_range_observe (fun s : RobinLocals R => s.cell_stiffness_matrix a b) _ _ ?_ _ _
  intro s j
  simp only [FullMatrix.add_to]
  split <;> simp

/-- Entry `a` of the cell load vector after the quadrature loop of a face. -/
theorem robin_quadrature_loop_load (n_face_q_points dofs_per_cell : Nat)
    (fe_face_values : FEFaceValues R) (h amb : Nat → R) (locals : RobinLocals R)
    (a : Nat) :
    (robin_quadrature_loop n_face_q_points dofs_per_cell fe_face_values h amb
        locals).cell_load_vector a
      = locals.cell_load_vector a +
        ∑ q ∈ Finset.range n_face_q_points,
          if a < dofs_per_cell then
            h q * amb q * fe_face_values.value a q * fe_face_values.JxW q
          else 0 := by
  unfold robin_quadrature_loop
  refine foldl_range_observe (fun s : RobinLocals R => s.cell_load_vector a) _ _ ?_ _ _
  intro s q
  rw [← sum_select dofs_per_cell a (fun i =>
    h q * amb q * fe_face_values.value i q * fe_face_values.JxW q)]
  refine foldl_range_observe (fun s : RobinLocals R => s.cell_load_vector a) _ _ ?_ _ _
  intro s i
  have hj : ∀ (n : Nat) (t : RobinLocals R),
      ((List.range n).foldl (fun (locals : RobinLocals R) j =>
        { locals with
          cell_stiffness_matrix :=
            locals.cell_stiffness_matrix.add_to i j
              (h q * fe_face_values.value i q * fe_face_values.value j q *
                fe_face_values.JxW q) }) t).cell_load_vector a = t.cell_load_vector a := by
    intro n t
    have := foldl_range_observe (fun s : RobinLocals R => s.cell_load_vector a)
      (fun (locals : RobinLocals R) j =>
        { locals with
          cell_stiffness_matrix :=
            locals.cell_stiffness_matrix.add_to i j
              (h q * fe_face_values.value i q * fe_face_values.value j q *
                fe_face_values.JxW q) }) (fun _ => 0) (fun _ _ => by simp) n t
    simpa using this
  simp only [Vector.add_to, hj]
  split <;> simp

/-- The loop over a list of faces: when the lookups of its boundary faces return, it
returns, and it has added the summands of the boundary faces. -/
theorem robin_face_loop_ok {E : Type} (env : Env R E) (cell : Cell R) (h amb : Nat → Nat → R)
    (faces : List Nat)
    (hb : ∀ f ∈ faces, (cell.face f).at_boundary = true →
      env.b_values "heat_transfer_coefficient" cell f = .ok (h f) ∧
      env.b_values "ambient_temperature" cell f = .ok (amb f))
    (locals : RobinLocals R) :
    ∃ out, robin_face_loop env cell faces locals = .ok out ∧
      (∀ a b, out.cell_stiffness_matrix a b = locals.cell_stiffness_matrix a b +
        (faces.map (fun f =>
          if (cell.face f).at_boundary = true ∧
              a < env.dof_handler.fe.dofs_per_cell ∧ b < env.dof_handler.fe.dofs_per_cell then
            robin_face_stiffness
              (QGauss_size (env.dof_handler.dim - 1) (env.dof_handler.fe.degree + 1))
              (cell.face f) (h f) a b
          else 0)).sum) ∧
      (∀ a, out.cell_load_vector a = locals.cell_load_vector a +
        (faces.map (fun f =>
          if (cell.face f).at_boundary = true ∧ a < env.dof_handler.fe.dofs_per_cell then
            robin_face_load
              (QGauss_size (env.dof_handler.dim - 1) (env.dof_handler.fe.degree + 1))
              (cell.face f) (h f) (amb f) a
          else 0)).sum) := by
  induction faces generalizing locals with
  | nil => exact ⟨locals, rfl, by simp, by simp⟩
  | cons f rest ih =>
    have hrest : ∀ g ∈ rest, (cell.face g).at_boundary = true →
        env.b_values "heat_transfer_coefficient" cell g = .ok (h g) ∧
        env.b_values "ambient_temperature" cell g = .ok (amb g) :=
      fun g hg => hb g (List.mem_cons_of_mem _ hg)
    by_cases hf : (cell.face f).at_boundary = true
    · obtain ⟨h1, h2⟩ := hb f (List.mem_cons_self _ _) hf
      obtain ⟨out, hout, hK, hL⟩ := ih hrest
        (robin_quadrature_loop
          (QGauss_size (env.dof_handler.dim - 1) (env.dof_handler.fe.degree + 1))
          env.dof_handler.fe.dofs_per_cell (cell.face f).fe_face_values (h f) (amb f) locals)
      refine ⟨out, ?_, ?_, ?_⟩
      · simp only [robin_face_loop, hf, if_true, h1, h2]
        exact hout
      · intro a b
        rw [hK, robin_quadrature_loop_stiffness]
        simp only [List.map_cons, List.sum_cons, hf, true_and, robin_face_stiffness]
        by_cases hab : a < env.dof_handler.fe.dofs_per_cell ∧
            b < env.dof_handler.fe.dofs_per_cell
        · simp only [hab, and_self, if_true]
          rw [add_assoc]
        · simp only [hab, if_false, Finset.sum_const_zero, add_zero, zero_add]
      · intro a
        rw [hL, robin_quadrature_loop_load]
        simp only [List.map_cons, List.sum_cons, hf, true_and, robin_face_load]
        by_cases ha : a < env.dof_handler.fe.dofs_per_cell
        · simp only [ha, if_true]
          rw [add_assoc]
        · simp only [ha, if_false, Finset.sum_const_zero, add_zero, zero_add]
    · obtain ⟨out, hout, hK, hL⟩ := ih hrest locals
      refine ⟨out, ?_, ?_, ?_⟩
      · simp only [robin_face_loop, hf]
        exact hout
      · intro a b
        rw [hK]
        simp [hf]
      · intro a
        rw [hL]
        simp [hf]

end RobinLemmas

/-! ## C1: local integration of the volume pass -/

section C1

variable {R : Type} [CommRing R]

/-- C1. Volume pass, local integration. For every cell on which the two lookups return
`k` and `c`, the body of the cell loop returns; the matrices it hands to the extractor
(and, extracted, to the accumulator) are the cell-local matrices it leaves, and for all
`i, j < dofs_per_cell` these are the quadrature sums
`stiffness[i,j] = Σ_q k(q) * (grad(i,q) . grad(j,q)) * JxW(q)` and
`mass[i,j] = Σ_q c(q) * value(i,q) * value(j,q) * JxW(q)`, whatever the cell-local
matrices held after the previous cell. -/
theorem volume_cell_local_integration {E : Type} (env : Env R E)
    (dof_extractor : DoFExtractor) (state : ThermalOperator R × VolumeLocals R)
    (cell : Cell R) (k c : Nat → R)
    (hk : env.mp_values "thermal_conductivity" cell = .ok k)
    (hc : env.mp_values "density_times_heat_capacity" cell = .ok c) :
    ∃ out, volume_cell env dof_extractor state cell = .ok out ∧
      out.1.stiffness_matrix =
        env.constraint_matrix.distribute_matrix
          (dof_extractor.extract_matrix out.2.cell_stiffness_matrix)
          (tmp_indices env dof_extractor state.1.dof_shift cell) state.1.stiffness_matrix ∧
      out.1.mass_matrix =
        env.constraint_matrix.distribute_matrix
          (dof_extractor.extract_matrix out.2.cell_mass_matrix)
          (tmp_indices env dof_extractor state.1.dof_shift cell) state.1.mass_matrix ∧
      ∀ i j, i < env.dof_handler.fe.dofs_per_cell → j < env.dof_handler.fe.dofs_per_cell →
        out.2.cell_stiffness_matrix i j =
          ∑ q ∈ Finset.range (QGauss_size env.dof_handler.dim (env.dof_handler.fe.degree + 1)),
            k q * (∑ d ∈ Finset.range env.dof_handler.dim,
              cell.fe_values.gradient i q d * cell.fe_values.gradient j q d) *
              cell.fe_values.JxW q ∧
        out.2.cell_mass_matrix i j =
          ∑ q ∈ Finset.range (QGauss_size env.dof_handler.dim (env.dof_handler.fe.degree + 1)),
            c q * (cell.fe_values.value i q * cell.fe_values.value j q) *
              cell.fe_values.JxW q := by
  refine ⟨_, by simp only [volume_cell, hk, hc]; rfl, rfl, rfl, ?_⟩
  intro i j hi hj
  constructor
  · simp only [volume_quadrature_loop_stiffness, hi, hj, and_self, if_true, zero_add,
      scalar_product_eq_sum]
  · simp only [volume_quadrature_loop_mass, hi, hj, and_self, if_true, zero_add]

/-- C1 on the left example cell, entered with leftovers in the cell-local matrices. -/
theorem volume_cell_local_integration_witness :
    example_env.mp_values "thermal_conductivity" example_cell_left = .ok (fun _ => 2) ∧
    example_env.mp_values "density_times_heat_capacity" example_cell_left
      = .ok (fun _ => 3) ∧
    ∃ out, volume_cell example_env (make_extractor example_env 1)
        (example_operator, example_volume_locals) example_cell_left = .ok out ∧
      out.1.stiffness_matrix =
        example_env.constraint_matrix.distribute_matrix
          ((make_extractor example_env 1).extract_matrix out.2.cell_stiffness_matrix)
          (tmp_indices example_env (make_extractor example_env 1) 3 example_cell_left)
          example_operator.stiffness_matrix ∧
      out.1.mass_matrix =
        example_env.constraint_matrix.distribute_matrix
          ((make_extractor example_env 1).extract_matrix out.2.cell_mass_matrix)
          (tmp_indices example_env (make_extractor example_env 1) 3 example_cell_left)
          example_operator.mass_matrix ∧
      ∀ i j, i < 4 → j < 4 →
        out.2.cell_stiffness_matrix i j =
          ∑ q ∈ Finset.range (QGauss_size 1 (1 + 1)),
            (2 : Int) * (∑ d ∈ Finset.range 1,
              example_fe_values.gradient i q d * example_fe_values.gradient j q d) *
              example_fe_values.JxW q ∧
        out.2.cell_mass_matrix i j =
          ∑ q ∈ Finset.range (QGauss_size 1 (1 + 1)),
            (3 : Int) * (example_fe_values.value i q * example_fe_values.value j q) *
              example_fe_values.JxW q :=
  ⟨rfl, rfl, volume_cell_local_integration example_env (make_extractor example_env 1)
    (example_operator, example_volume_locals) example_cell_left (fun _ => 2) (fun _ => 3)
    rfl rfl⟩

end C1

/-! ## C2: local integration of the Robin pass -/

section C2

variable {R : Type} [CommRing R]

/-- The first half of the Robin cell body returns when the lookups of the boundary faces
return, and leaves the sums over the boundary faces (nothing when the cell is not at the
boundary). -/
theorem robin_integrate_ok {E : Type} (env : Env R E) (locals : RobinLocals R)
    (cell : Cell R) (h amb : Nat → Nat → R)
    (hb : ∀ f, f < faces_per_cell env.dof_handler.dim → (cell.face f).at_boundary = true →
      env.b_values "heat_transfer_coefficient" cell f = .ok (h f) ∧
      env.b_values "ambient_temperature" cell f = .ok (amb f)) :
    ∃ out, robin_integrate env locals cell = .ok out ∧
      (∀ a b, out.cell_stiffness_matrix a b =
        if cell.at_boundary = true ∧ a < env.dof_handler.fe.dofs_per_cell ∧
            b < env.dof_handler.fe.dofs_per_cell then
          ∑ f ∈ (Finset.range (faces_per_cell env.dof_handler.dim)).filter
              (fun f => (cell.face f).at_boundary = true),
            robin_face_stiffness
              (QGauss_size (env.dof_handler.dim - 1) (env.dof_handler.fe.degree + 1))
              (cell.face f) (h f) a b
        else 0) ∧
      (∀ a, out.cell_load_vector a =
        if cell.at_boundary = true ∧ a < env.dof_handler.fe.dofs_per_cell then
          ∑ f ∈ (Finset.range (faces_per_cell env.dof_handler.dim)).filter
              (fun f => (cell.face f).at_boundary = true),
            robin_face_load
              (QGauss_size (env.dof_handler.dim - 1) (env.dof_handler.fe.degree + 1))
              (cell.face f) (h f) (amb f) a
        else 0) := by
  by_cases hc : cell.at_boundary = true
  · obtain ⟨out, hout, hK, hL⟩ := robin_face_loop_ok env cell h amb
      (List.range (faces_per_cell env.dof_handler.dim))
      (fun f hf => hb f (List.mem_range.mp hf))
      { locals with cell_stiffness_matrix := fun _ _ => 0, cell_load_vector := fun _ => 0 }
    refine ⟨out, ?_, ?_, ?_⟩
    · simp only [robin_integrate, hc, if_true]
      exact hout
    · intro a b
      rw [hK, list_range_map_sum, Finset.sum_filter]
      by_cases hab : a < env.dof_handler.fe.dofs_per_cell ∧
          b < env.dof_handler.fe.dofs_per_cell
      · simp [hc, hab]
      · simp [hab]
    · intro a
      rw [hL, list_range_map_sum, Finset.sum_filter]
      by_cases ha : a < env.dof_handler.fe.dofs_per_cell
      · simp [hc, ha]
      · simp [ha]
  · refine ⟨{ locals with cell_stiffness_matrix := fun _ _ => 0,
                          cell_load_vector := fun _ => 0 }, ?_, ?_, ?_⟩
    · simp only [robin_integrate, hc]
      rfl
    · intro a b
      simp [hc]
    · intro a
      simp [hc]

/-- C2. Robin pass, local integration. For every cell whose boundary faces have their two
lookups return `h f` and `amb f`, the body of the cell loop returns; the matrix and the
vector it hands to the extractor are the cell-local ones it leaves; on a cell at the
boundary, for `i, j < dofs_per_cell`, they are the sums over the boundary faces `f` and
the face quadrature points `q` of `h_f(q) * value(i,q) * value(j,q) * JxW_f(q)` and of
`h_f(q) * amb_f(q) * value(i,q) * JxW_f(q)`; a cell that is not at the boundary, or has
no boundary face, leaves an all-zero matrix and vector. -/
theorem robin_cell_local_integration {E : Type} (env : Env R E)
    (dof_extractor : DoFExtractor) (state : ThermalOperator R × RobinLocals R)
    (cell : Cell R) (h amb : Nat → Nat → R)
    (hb : ∀ f, f < faces_per_cell env.dof_handler.dim → (cell.face f).at_boundary = true →
      env.b_values "heat_transfer_coefficient" cell f = .ok (h f) ∧
      env.b_values "ambient_temperature" cell f = .ok (amb f)) :
    ∃ out, robin_cell env dof_extractor state cell = .ok out ∧
      out.1.stiffness_matrix =
        env.constraint_matrix.distribute_matrix
          (dof_extractor.extract_matrix out.2.cell_stiffness_matrix)
          (tmp_indices env dof_extractor state.1.dof_shift cell) state.1.stiffness_matrix ∧
      out.1.load_vector =
        env.constraint_matrix.distribute_vector
          (dof_extractor.extract_vector out.2.cell_load_vector)
          (tmp_indices env dof_extractor state.1.dof_shift cell) state.1.load_vector ∧
      (cell.at_boundary = true →
        ∀ i j, i < env.dof_handler.fe.dofs_per_cell → j < env.dof_handler.fe.dofs_per_cell →
          out.2.cell_stiffness_matrix i j =
            ∑ f ∈ (Finset.range (faces_per_cell env.dof_handler.dim)).filter
                (fun f => (cell.face f).at_boundary = true),
              ∑ q ∈ Finset.range
                  (QGauss_size (env.dof_handler.dim - 1) (env.dof_handler.fe.degree + 1)),
                h f q * (cell.face f).fe_face_values.value i q *
                  (cell.face f).fe_face_values.value j q *
                  (cell.face f).fe_face_values.JxW q ∧
          out.2.cell_load_vector i =
            ∑ f ∈ (Finset.range (faces_per_cell env.dof_handler.dim)).filter
                (fun f => (cell.face f).at_boundary = true),
              ∑ q ∈ Finset.range
                  (QGauss_size (env.dof_handler.dim - 1) (env.dof_handler.fe.degree + 1)),
                h f q * amb f q * (cell.face f).fe_face_values.value i q *
                  (cell.face f).fe_face_values.JxW q) ∧
      ((cell.at_boundary = false ∨
          ∀ f, f < faces_per_cell env.dof_handler.dim → (cell.face f).at_boundary = false) →
        ∀ i j, out.2.cell_stiffness_matrix i j = 0 ∧ out.2.cell_load_vector i = 0) := by
  obtain ⟨out, hout, hK, hL⟩ := robin_integrate_ok env state.2 cell h amb hb
  refine ⟨_, by simp only [robin_cell, hout]; rfl, rfl, rfl, ?_, ?_⟩
  · intro hc i j hi hj
    constructor
    · rw [hK]
      simp only [hc, hi, hj, and_self, if_true]
      rfl
    · rw [hL]
      simp only [hc, hi, and_self, if_true]
      rfl
  · intro hz i j
    have hempty : cell.at_boundary = true →
        (Finset.range (faces_per_cell env.dof_handler.dim)).filter
          (fun f => (cell.face f).at_boundary = true) = ∅ ∨ cell.at_boundary = false := by
      intro _
      rcases hz with hz | hz
      · exact Or.inr hz
      · left
        apply Finset.filter_eq_empty_iff.mpr
        intro f hf
        simp [hz f (Finset.mem_range.mp hf)]
    constructor
    · rw [hK]
      split
      · next hcond =>
        rcases hempty hcond.1 with he | he
        · rw [he, Finset.sum_empty]
        · simp [he] at hcond
      · rfl
    · rw [hL]
      split
      · next hcond =>
        rcases hempty hcond.1 with he | he
        · rw [he, Finset.sum_empty]
        · simp [he] at hcond
      · rfl

/-- C2 on the left example cell, whose left end is its only boundary face. -/
theorem robin_cell_local_integration_witness :
    (∀ f, f < faces_per_cell example_env.dof_handler.dim →
      (example_cell_left.face f).at_boundary = true →
      example_env.b_values "heat_transfer_coefficient" example_cell_left f
        = .ok ((fun _ _ => 5) f) ∧
      example_env.b_values "ambient_temperature" example_cell_left f
        = .ok ((fun _ _ => 300) f)) ∧
    ∃ out, robin_cell example_env (make_extractor example_env 1)
        (example_operator, { cell_stiffness_matrix := fun _ _ => 9,
                             cell_load_vector := fun _ => 9 }) example_cell_left = .ok out ∧
      out.2.cell_stiffness_matrix 1 1 = 5 ∧ out.2.cell_load_vector 1 = 1500 ∧
      out.2.cell_stiffness_matrix 3 3 = 0 := by
  have hb : ∀ f, f < faces_per_cell example_env.dof_handler.dim →
      (example_cell_left.face f).at_boundary = true →
      example_env.b_values "heat_transfer_coefficient" example_cell_left f
        = .ok ((fun _ _ => 5) f) ∧
      example_env.b_values "ambient_temperature" example_cell_left f
        = .ok ((fun _ _ => 300) f) := fun _ _ _ => ⟨rfl, rfl⟩
  refine ⟨hb, ?_⟩
  obtain ⟨out, hout, -, -, hsum, -⟩ :=
    robin_cell_local_integration example_env (make_extractor example_env 1)
      (example_operator, { cell_stiffness_matrix := fun _ _ => 9,
                           cell_load_vector := fun _ => 9 }) example_cell_left
      (fun _ _ => 5) (fun _ _ => 300) hb
  refine ⟨out, hout, ?_, ?_, ?_⟩
  · rw [(hsum rfl 1 1 (by decide) (by decide)).1]
    decide
  · rw [(hsum rfl 1 1 (by decide) (by decide)).2]
    decide
  · rw [(hsum rfl 3 3 (by decide) (by decide)).1]
    decide

end C2

/-! ## The cell loops: when they return, and what they leave -/

section Loops

variable {R : Type} [CommRing R] {E : Type}

/-- The body of the volume loop returns exactly when its two lookups return. -/
theorem volume_cell_ok_iff (env : Env R E) (x : DoFExtractor)
    (state : ThermalOperator R × VolumeLocals R) (cell : Cell R) :
    (∃ out, volume_cell env x state cell = .ok out) ↔ volume_lookups_return env cell := by
  unfold volume_lookups_return
  constructor
  · rintro ⟨out, hout⟩
    unfold volume_cell at hout
    split at hout
    · simp at hout
    · next k hk =>
      split at hout
      · simp at hout
      · next c hc => exact ⟨⟨k, hk⟩, ⟨c, hc⟩⟩
  · rintro ⟨⟨k, hk⟩, ⟨c, hc⟩⟩
    exact ⟨_, by simp only [volume_cell, hk, hc]; rfl⟩

/-- What the body of the volume loop leaves when it returns: the configuration, the load
vector and the boundary values are untouched; the matrices are distributed into. -/
theorem volume_cell_ok_frame (env : Env R E) (x : DoFExtractor)
    (state out : ThermalOperator R × VolumeLocals R) (cell : Cell R)
    (hout : volume_cell env x state cell = .ok out) :
    out.1.temperature_component = state.1.temperature_component ∧
    out.1.dof_shift = state.1.dof_shift ∧
    out.1.load_vector = state.1.load_vector ∧
    out.1.boundary_values = state.1.boundary_values ∧
    out.1.stiffness_matrix = env.constraint_matrix.distribute_matrix
      (x.extract_matrix out.2.cell_stiffness_matrix)
      (tmp_indices env x state.1.dof_shift cell) state.1.stiffness_matrix ∧
    out.1.mass_matrix = env.constraint_matrix.distribute_matrix
      (x.extract_matrix out.2.cell_mass_matrix)
      (tmp_indices env x state.1.dof_shift cell) state.1.mass_matrix := by
  unfold volume_cell at hout
  split at hout
  · simp at hout
  · split at hout
    · simp at hout
    · simp only [Except.ok.injEq] at hout
      subst hout
      exact ⟨rfl, rfl, rfl, rfl, rfl, rfl⟩

/-- The cell-local matrices that the body of the volume loop leaves do not depend on the
state it is entered with. -/
theorem volume_cell_locals_indep (env : Env R E) (x : DoFExtractor)
    (s t out_s out_t : ThermalOperator R × VolumeLocals R) (cell : Cell R)
    (hs : volume_cell env x s cell = .ok out_s) (ht : volume_cell env x t cell = .ok out_t) :
    out_s.2 = out_t.2 := by
  unfold volume_cell at hs ht
  split at hs
  · simp at hs
  · next k hk =>
    split at hs
    · simp at hs
    · next c hc =>
      simp only [hk, hc, Except.ok.injEq] at hs ht
      subst hs
      subst ht
      rfl

/-- When the body of the volume loop throws, the error carries the operator unchanged. -/
theorem volume_cell_error_state (env : Env R E) (x : DoFExtractor)
    (state : ThermalOperator R × VolumeLocals R) (cell : Cell R) (e : E)
    (op : ThermalOperator R) (h : volume_cell env x state cell = .error (e, op)) :
    op = state.1 := by
  unfold volume_cell at h
  split at h
  · simp only [Except.error.injEq, Prod.mk.injEq] at h
    exact h.2.symm
  · split at h
    · simp only [Except.error.injEq, Prod.mk.injEq] at h
      exact h.2.symm
    · simp at h

/-- The loop over a list of faces returns exactly when the lookups of the boundary faces
of the list return. -/
theorem robin_face_loop_ok_iff (env : Env R E) (cell : Cell R) (faces : List Nat)
    (locals : RobinLocals R) :
    (∃ out, robin_face_loop env cell faces locals = .ok out) ↔
      ∀ f ∈ faces, (cell.face f).at_boundary = true →
        (∃ h, env.b_values "heat_transfer_coefficient" cell f = .ok h) ∧
        (∃ amb, env.b_values "ambient_temperature" cell f = .ok amb) := by
  induction faces generalizing locals with
  | nil => simp [robin_face_loop]
  | cons f rest ih =>
    by_cases hf : (cell.face f).at_boundary = true
    · simp only [robin_face_loop, hf, if_true, List.mem_cons, forall_eq_or_imp, true_implies]
      cases h1 : env.b_values "heat_transfer_coefficient" cell f with
      | error e => simp
      | ok h =>
        cases h2 : env.b_values "ambient_temperature" cell f with
        | error e => simp
        | ok amb => simpa using ih _
    · simp only [robin_face_loop, hf, List.mem_cons, forall_eq_or_imp]
      simpa using ih locals

/-- The first half of the Robin cell body returns exactly when the lookups it performs
return. -/
theorem robin_integrate_ok_iff (env : Env R E) (locals : RobinLocals R) (cell : Cell R) :
    (∃ out, robin_integrate env locals cell = .ok out) ↔ robin_lookups_return env cell := by
  unfold robin_integrate robin_lookups_return
  by_cases hc : cell.at_boundary = true
  · simp only [hc, if_true, true_implies]
    rw [robin_face_loop_ok_iff]
    simp only [List.mem_range]
  · simp [hc]

/-- The cell-local matrix and vector of the Robin pass do not depend on what the previous
cell left. -/
theorem robin_integrate_indep (env : Env R E) (s t : RobinLocals R) (cell : Cell R) :
    robin_integrate env s cell = robin_integrate env t cell := rfl

/-- The body of the Robin loop returns exactly when the lookups it performs return. -/
theorem robin_cell_ok_iff (env : Env R E) (x : DoFExtractor)
    (state : ThermalOperator R × RobinLocals R) (cell : Cell R) :
    (∃ out, robin_cell env x state cell = .ok out) ↔ robin_lookups_return env cell := by
  rw [← robin_integrate_ok_iff env state.2 cell]
  unfold robin_cell
  cases h : robin_integrate env state.2 cell with
  | error e => simp
  | ok locals => simp

/-- What the body of the Robin loop leaves when it returns: the configuration, the mass
matrix and the boundary values are untouched; the stiffness matrix and the load vector
are distributed into. -/
theorem robin_cell_ok_frame (env : Env R E) (x : DoFExtractor)
    (state out : ThermalOperator R × RobinLocals R) (cell : Cell R)
    (hout : robin_cell env x state cell = .ok out) :
    robin_integrate env state.2 cell = .ok out.2 ∧
    out.1.temperature_component = state.1.temperature_component ∧
    out.1.dof_shift = state.1.dof_shift ∧
    out.1.mass_matrix = state.1.mass_matrix ∧
    out.1.boundary_values = state.1.boundary_values ∧
    out.1.stiffness_matrix = env.constraint_matrix.distribute_matrix
      (x.extract_matrix out.2.cell_stiffness_matrix)
      (tmp_indices env x state.1.dof_shift cell) state.1.stiffness_matrix ∧
    out.1.load_vector = env.constraint_matrix.distribute_vector
      (x.extract_vector out.2.cell_load_vector)
      (tmp_indices env x state.1.dof_shift cell) state.1.load_vector := by
  unfold robin_cell at hout
  split at hout
  · simp at hout
  · next locals hl =>
    simp only [Except.ok.injEq] at hout
    subst hout
    exact ⟨hl, rfl, rfl, rfl, rfl, rfl, rfl⟩

/-- When the body of the Robin loop throws, the error carries the operator unchanged. -/
theorem robin_cell_error_state (env : Env R E) (x : DoFExtractor)
    (state : ThermalOperator R × RobinLocals R) (cell : Cell R) (e : E)
    (op : ThermalOperator R) (h : robin_cell env x state cell = .error (e, op)) :
    op = state.1 := by
  unfold robin_cell at h
  split at h
  · simp only [Except.error.injEq, Prod.mk.injEq] at h
    exact h.2.symm
  · simp at h

/-- The volume loop returns exactly when the lookups return on every cell of the list. -/
theorem volume_loop_ok_iff (env : Env R E) (x : DoFExtractor) (cells : List (Cell R))
    (state : ThermalOperator R × VolumeLocals R) :
    (∃ out, volume_loop env x cells state = .ok out) ↔
      ∀ cell ∈ cells, volume_lookups_return env cell := by
  induction cells generalizing state with
  | nil => simp [volume_loop]
  | cons cell rest ih =>
    simp only [volume_loop, List.mem_cons, forall_eq_or_imp]
    rw [← volume_cell_ok_iff env x state cell]
    cases h : volume_cell env x state cell with
    | error e => simp
    | ok next => simpa using ih next

/-- The Robin loop returns exactly when the lookups it performs return on every cell of
the list. -/
theorem robin_loop_ok_iff (env : Env R E) (x : DoFExtractor) (cells : List (Cell R))
    (state : ThermalOperator R × RobinLocals R) :
    (∃ out, robin_loop env x cells state = .ok out) ↔
      ∀ cell ∈ cells, robin_lookups_return env cell := by
  induction cells generalizing state with
  | nil => simp [robin_loop]
  | cons cell rest ih =>
    simp only [robin_loop, List.mem_cons, forall_eq_or_imp]
    rw [← robin_cell_ok_iff env x state cell]
    cases h : robin_cell env x state cell with
    | error e => simp
    | ok next => simpa using ih next

end Loops

/-! ## Additive accumulators -/

section Additive

variable {R : Type} [CommRing R] {E : Type}

/-- Entry `(a, b)` of a matrix after a scatter-add without constraints. -/
theorem scatter_add_matrix_apply (local_matrix : FullMatrix R) (indices : List Nat)
    (global_matrix : SparseMatrix R) (a b : Nat) :
    scatter_add_matrix local_matrix indices global_matrix a b =
      global_matrix a b +
        ∑ i ∈ Finset.range indices.length, ∑ j ∈ Finset.range indices.length,
          if a = indices.getD i 0 ∧ b = indices.getD j 0 then local_matrix i j else 0 := by
  unfold scatter_add_matrix
  refine foldl_range_observe (fun G : SparseMatrix R => G a b) _ _ ?_ _ _
  intro G i
  refine foldl_range_observe (fun G : SparseMatrix R => G a b) _ _ ?_ _ _
  intro G j
  simp only [FullMatrix.add_to]
  split <;> simp

/-- Entry `a` of a vector after a scatter-add without constraints. -/
theorem scatter_add_vector_apply (local_vector : Vector R) (indices : List Nat)
    (global_vector : Vector R) (a : Nat) :
    scatter_add_vector local_vector indices global_vector a =
      global_vector a +
        ∑ i ∈ Finset.range indices.length,
          if a = indices.getD i 0 then local_vector i else 0 := by
  unfold scatter_add_vector
  refine foldl_range_observe (fun v : Vector R => v a) _ _ ?_ _ _
  intro v i
  simp only [Vector.add_to]
  split <;> simp

/-- The accumulator without constraints is additive. -/
theorem unconstrained_additive : (ConstraintMatrix.unconstrained : ConstraintMatrix R).Additive := by
  constructor
  · intro l idx G a b
    show scatter_add_matrix l idx G a b = G a b + scatter_add_matrix l idx (fun _ _ => 0) a b
    rw [scatter_add_matrix_apply, scatter_add_matrix_apply l idx (fun _ _ => 0), zero_add]
  · intro l idx v a
    show scatter_add_vector l idx v a = v a + scatter_add_vector l idx (fun _ => 0) a
    rw [scatter_add_vector_apply, scatter_add_vector_apply l idx (fun _ => 0), zero_add]

/-- With an additive accumulator, the body of the volume loop adds the contribution of
the cell to the stiffness and mass matrices. -/
theorem volume_cell_additive (env : Env R E) (hadd : env.constraint_matrix.Additive)
    (state out : ThermalOperator R × VolumeLocals R) (cell : Cell R)
    (hout : volume_cell env (make_extractor env state.1.temperature_component) state cell
      = .ok out) (a b : Nat) :
    out.1.stiffness_matrix a b = state.1.stiffness_matrix a b +
      (volume_contribution env state.1.temperature_component state.1.dof_shift
        cell).stiffness_matrix a b ∧
    out.1.mass_matrix a b = state.1.mass_matrix a b +
      (volume_contribution env state.1.temperature_component state.1.dof_shift
        cell).mass_matrix a b := by
  obtain ⟨out0, h0⟩ := (volume_cell_ok_iff env
    (make_extractor env state.1.temperature_component)
    (zero_operator state.1.temperature_component state.1.dof_shift,
      { cell_stiffness_matrix := fun _ _ => 0, cell_mass_matrix := fun _ _ => 0 }) cell).mpr
    ((volume_cell_ok_iff env _ state cell).mp ⟨out, hout⟩)
  have hloc := volume_cell_locals_indep env _ _ _ _ _ cell hout h0
  obtain ⟨-, -, -, -, hK, hM⟩ := volume_cell_ok_frame env _ _ _ cell hout
  obtain ⟨-, -, -, -, hK0, hM0⟩ := volume_cell_ok_frame env _ _ _ cell h0
  have hc : volume_contribution env state.1.temperature_component state.1.dof_shift cell
      = out0.1 := by
    simp only [volume_contribution, h0]
  rw [hc, hK, hM, hK0, hM0, hloc]
  exact ⟨hadd.1 _ _ _ a b, hadd.1 _ _ _ a b⟩

/-- With an additive accumulator, the volume loop adds the contributions of its cells. -/
theorem volume_loop_additive (env : Env R E) (hadd : env.constraint_matrix.Additive)
    (tc ds : Nat) (cells : List (Cell R)) (state out : ThermalOperator R × VolumeLocals R)
    (htc : state.1.temperature_component = tc) (hds : state.1.dof_shift = ds)
    (hout : volume_loop env (make_extractor env tc) cells state = .ok out) :
    out.1.temperature_component = tc ∧ out.1.dof_shift = ds ∧
    out.1.load_vector = state.1.load_vector ∧
    out.1.boundary_values = state.1.boundary_values ∧
    ∀ a b,
      out.1.stiffness_matrix a b = state.1.stiffness_matrix a b +
        (cells.map (fun cell =>
          (volume_contribution env tc ds cell).stiffness_matrix a b)).sum ∧
      out.1.mass_matrix a b = state.1.mass_matrix a b +
        (cells.map (fun cell =>
          (volume_contribution env tc ds cell).mass_matrix a b)).sum := by
  induction cells generalizing state with
  | nil =>
    simp only [volume_loop, Except.ok.injEq] at hout
    subst hout
    exact ⟨htc, hds, rfl, rfl, by simp⟩
  | cons cell rest ih =>
    simp only [volume_loop] at hout
    cases hcell : volume_cell env (make_extractor env tc) state cell with
    | error e => simp [hcell] at hout
    | ok next =>
      simp only [hcell] at hout
      obtain ⟨h1, h2, h3, h4, -, -⟩ := volume_cell_ok_frame env _ _ _ cell hcell
      obtain ⟨i1, i2, i3, i4, i5⟩ := ih next (h1.trans htc) (h2.trans hds) hout
      refine ⟨i1, i2, i3.trans h3, i4.trans h4, ?_⟩
      intro a b
      have hcell2 := hcell
      rw [← htc] at hcell2
      have hadd2 := volume_cell_additive env hadd state next cell hcell2 a b
      rw [htc, hds] at hadd2
      rw [(i5 a b).1, (i5 a b).2, hadd2.1, hadd2.2]
      simp only [List.map_cons, List.sum_cons]
      exact ⟨by ring, by ring⟩

/-- With an additive accumulator, the body of the Robin loop adds the contribution of the
cell to the stiffness matrix and to the load vector. -/
theorem robin_cell_additive (env : Env R E) (hadd : env.constraint_matrix.Additive)
    (state out : ThermalOperator R × RobinLocals R) (cell : Cell R)
    (hout : robin_cell env (make_extractor env state.1.temperature_component) state cell
      = .ok out) (a b : Nat) :
    out.1.stiffness_matrix a b = state.1.stiffness_matrix a b +
      (robin_contribution env state.1.temperature_component state.1.dof_shift
        cell).stiffness_matrix a b ∧
    out.1.load_vector a = state.1.load_vector a +
      (robin_contribution env state.1.temperature_component state.1.dof_shift
        cell).load_vector a := by
  obtain ⟨out0, h0⟩ := (robin_cell_ok_iff env
    (make_extractor env state.1.temperature_component)
    (zero_operator state.1.temperature_component state.1.dof_shift,
      { cell_stiffness_matrix := fun _ _ => 0, cell_load_vector := fun _ => 0 }) cell).mpr
    ((robin_cell_ok_iff env _ state cell).mp ⟨out, hout⟩)
  obtain ⟨hl, -, -, -, -, hK, hL⟩ := robin_cell_ok_frame env _ _ _ cell hout
  obtain ⟨hl0, -, -, -, -, hK0, hL0⟩ := robin_cell_ok_frame env _ _ _ cell h0
  have hloc : out.2 = out0.2 := by
    rw [robin_integrate_indep env state.2
      { cell_stiffness_matrix := fun _ _ => 0, cell_load_vector := fun _ => 0 } cell] at hl
    have := hl.symm.trans hl0
    simpa using this
  have hc : robin_contribution env state.1.temperature_component state.1.dof_shift cell
      = out0.1 := by
    simp only [robin_contribution, h0]
  rw [hc, hK, hL, hK0, hL0, hloc]
  exact ⟨hadd.1 _ _ _ a b, hadd.2 _ _ _ a⟩

/-- With an additive accumulator, the Robin loop adds the contributions of its cells. -/
theorem robin_loop_additive (env : Env R E) (hadd : env.constraint_matrix.Additive)
    (tc ds : Nat) (cells : List (Cell R)) (state out : ThermalOperator R × RobinLocals R)
    (htc : state.1.temperature_component = tc) (hds : state.1.dof_shift = ds)
    (hout : robin_loop env (make_extractor env tc) cells state = .ok out) :
    out.1.temperature_component = tc ∧ out.1.dof_shift = ds ∧
    out.1.mass_matrix = state.1.mass_matrix ∧
    out.1.boundary_values = state.1.boundary_values ∧
    ∀ a b,
      out.1.stiffness_matrix a b = state.1.stiffness_matrix a b +
        (cells.map (fun cell =>
          (robin_contribution env tc ds cell).stiffness_matrix a b)).sum ∧
      out.1.load_vector a = state.1.load_vector a +
        (cells.map (fun cell =>
          (robin_contribution env tc ds cell).load_vector a)).sum := by
  induction cells generalizing state with
  | nil =>
    simp only [robin_loop, Except.ok.injEq] at hout
    subst hout
    exact ⟨htc, hds, rfl, rfl, by simp⟩
  | cons cell rest ih =>
    simp only [robin_loop] at hout
    cases hcell : robin_cell env (make_extractor env tc) state cell with
    | error e => simp [hcell] at hout
    | ok next =>
      simp only [hcell] at hout
      obtain ⟨-, h1, h2, h3, h4, -, -⟩ := robin_cell_ok_frame env _ _ _ cell hcell
      obtain ⟨i1, i2, i3, i4, i5⟩ := ih next (h1.trans htc) (h2.trans hds) hout
      refine ⟨i1, i2, i3.trans h3, i4.trans h4, ?_⟩
      intro a b
      have hcell2 := hcell
      rw [← htc] at hcell2
      have hadd2 := robin_cell_additive env hadd state next cell hcell2 a b
      rw [htc, hds] at hadd2
      rw [(i5 a b).1, (i5 a b).2, hadd2.1, hadd2.2]
      simp only [List.map_cons, List.sum_cons]
      exact ⟨by ring, by ring⟩

end Additive

/-! ## C3: the two passes add up in `reset` -/

section C3

variable {R : Type} [CommRing R] {E : Type}

/-- The volume pass returns `out` exactly when its cell loop returns `out` with some
cell-local matrices. -/
theorem compute_thermal_operator_contribution_eq_ok (env : Env R E)
    (op out : ThermalOperator R) :
    compute_thermal_operator_contribution env op = .ok out ↔
      ∃ locals, volume_loop env (make_extractor env op.temperature_component)
        env.dof_handler.active_cells
        (op, { cell_stiffness_matrix := fun _ _ => 0, cell_mass_matrix := fun _ _ => 0 })
        = .ok (out, locals) := by
  simp only [compute_thermal_operator_contribution]
  cases h : volume_loop env (make_extractor env op.temperature_component)
    env.dof_handler.active_cells
    (op, { cell_stiffness_matrix := fun _ _ => 0, cell_mass_matrix := fun _ _ => 0 }) with
  | error e => simp
  | ok state =>
    obtain ⟨s1, s2⟩ := state
    simp

/-- The volume pass throws exactly when its cell loop throws, with the same error. -/
theorem compute_thermal_operator_contribution_eq_error (env : Env R E)
    (op : ThermalOperator R) (e : E × ThermalOperator R) :
    compute_thermal_operator_contribution env op = .error e ↔
      volume_loop env (make_extractor env op.temperature_component)
        env.dof_handler.active_cells
        (op, { cell_stiffness_matrix := fun _ _ => 0, cell_mass_matrix := fun _ _ => 0 })
        = .error e := by
  simp only [compute_thermal_operator_contribution]
  cases h : volume_loop env (make_extractor env op.temperature_component)
    env.dof_handler.active_cells
    (op, { cell_stiffness_matrix := fun _ _ => 0, cell_mass_matrix := fun _ _ => 0 }) with
  | error e => simp
  | ok state => simp

/-- The Robin pass returns `out` exactly when its cell loop returns `out` with some
cell-local matrix and vector. -/
theorem compute_robin_boundary_contribution_eq_ok (env : Env R E)
    (op out : ThermalOperator R) :
    compute_robin_boundary_contribution env op = .ok out ↔
      ∃ locals, robin_loop env (make_extractor env op.temperature_component)
        env.dof_handler.active_cells
        (op, { cell_stiffness_matrix := fun _ _ => 0, cell_load_vector := fun _ => 0 })
        = .ok (out, locals) := by
  simp only [compute_robin_boundary_contribution]
  cases h : robin_loop env (make_extractor env op.temperature_component)
    env.dof_handler.active_cells
    (op, { cell_stiffness_matrix := fun _ _ => 0, cell_load_vector := fun _ => 0 }) with
  | error e => simp
  | ok state =>
    obtain ⟨s1, s2⟩ := state
    simp

/-- The Robin pass throws exactly when its cell loop throws, with the same error. -/
theorem compute_robin_boundary_contribution_eq_error (env : Env R E)
    (op : ThermalOperator R) (e : E × ThermalOperator R) :
    compute_robin_boundary_contribution env op = .error e ↔
      robin_loop env (make_extractor env op.temperature_component)
        env.dof_handler.active_cells
        (op, { cell_stiffness_matrix := fun _ _ => 0, cell_load_vector := fun _ => 0 })
        = .error e := by
  simp only [compute_robin_boundary_contribution]
  cases h : robin_loop env (make_extractor env op.temperature_component)
    env.dof_handler.active_cells
    (op, { cell_stiffness_matrix := fun _ _ => 0, cell_load_vector := fun _ => 0 }) with
  | error e => simp
  | ok state => simp

/-- The volume pass returns exactly when its lookups return on every active cell. -/
theorem compute_thermal_operator_contribution_ok_iff (env : Env R E)
    (op : ThermalOperator R) :
    (∃ out, compute_thermal_operator_contribution env op = .ok out) ↔
      ∀ cell ∈ env.dof_handler.active_cells, volume_lookups_return env cell := by
  rw [← volume_loop_ok_iff env (make_extractor env op.temperature_component)
    env.dof_handler.active_cells
    (op, { cell_stiffness_matrix := fun _ _ => 0, cell_mass_matrix := fun _ _ => 0 })]
  constructor
  · rintro ⟨out, hout⟩
    obtain ⟨locals, h⟩ := (compute_thermal_operator_contribution_eq_ok env op out).mp hout
    exact ⟨_, h⟩
  · rintro ⟨⟨out, locals⟩, h⟩
    exact ⟨out, (compute_thermal_operator_contribution_eq_ok env op out).mpr ⟨locals, h⟩⟩

/-- The Robin pass returns exactly when the lookups it performs return on every active
cell. -/
theorem compute_robin_boundary_contribution_ok_iff (env : Env R E)
    (op : ThermalOperator R) :
    (∃ out, compute_robin_boundary_contribution env op = .ok out) ↔
      ∀ cell ∈ env.dof_handler.active_cells, robin_lookups_return env cell := by
  rw [← robin_loop_ok_iff env (make_extractor env op.temperature_component)
    env.dof_handler.active_cells
    (op, { cell_stiffness_matrix := fun _ _ => 0, cell_load_vector := fun _ => 0 })]
  constructor
  · rintro ⟨out, hout⟩
    obtain ⟨locals, h⟩ := (compute_robin_boundary_contribution_eq_ok env op out).mp hout
    exact ⟨_, h⟩
  · rintro ⟨⟨out, locals⟩, h⟩
    exact ⟨out, (compute_robin_boundary_contribution_eq_ok env op out).mpr ⟨locals, h⟩⟩

/-- With an additive accumulator, the volume pass adds the contributions of all active
cells to the stiffness and mass matrices and leaves the rest of the operator alone. -/
theorem compute_thermal_operator_contribution_additive (env : Env R E)
    (hadd : env.constraint_matrix.Additive) (op out : ThermalOperator R)
    (hout : compute_thermal_operator_contribution env op = .ok out) :
    out.temperature_component = op.temperature_component ∧ out.dof_shift = op.dof_shift ∧
    out.load_vector = op.load_vector ∧ out.boundary_values = op.boundary_values ∧
    ∀ a b,
      out.stiffness_matrix a b = op.stiffness_matrix a b +
        (env.dof_handler.active_cells.map (fun cell =>
          (volume_contribution env op.temperature_component op.dof_shift
            cell).stiffness_matrix a b)).sum ∧
      out.mass_matrix a b = op.mass_matrix a b +
        (env.dof_handler.active_cells.map (fun cell =>
          (volume_contribution env op.temperature_component op.dof_shift
            cell).mass_matrix a b)).sum := by
  obtain ⟨locals, h⟩ := (compute_thermal_operator_contribution_eq_ok env op out).mp hout
  exact volume_loop_additive env hadd op.temperature_component op.dof_shift _ (op, _) _
    rfl rfl h

/-- With an additive accumulator, the Robin pass adds the contributions of all active
cells to the stiffness matrix and the load vector and leaves the rest of the operator
alone. -/
theorem compute_robin_boundary_contribution_additive (env : Env R E)
    (hadd : env.constraint_matrix.Additive) (op out : ThermalOperator R)
    (hout : compute_robin_boundary_contribution env op = .ok out) :
    out.temperature_component = op.temperature_component ∧ out.dof_shift = op.dof_shift ∧
    out.mass_matrix = op.mass_matrix ∧ out.boundary_values = op.boundary_values ∧
    ∀ a b,
      out.stiffness_matrix a b = op.stiffness_matrix a b +
        (env.dof_handler.active_cells.map (fun cell =>
          (robin_contribution env op.temperature_component op.dof_shift
            cell).stiffness_matrix a b)).sum ∧
      out.load_vector a = op.load_vector a +
        (env.dof_handler.active_cells.map (fun cell =>
          (robin_contribution env op.temperature_component op.dof_shift
            cell).load_vector a)).sum := by
  obtain ⟨locals, h⟩ := (compute_robin_boundary_contribution_eq_ok env op out).mp hout
  exact robin_loop_additive env hadd op.temperature_component op.dof_shift _ (op, _) _
    rfl rfl h

omit [CommRing R] in
/-- The index list both cell bodies scatter with is the list of the extracted indices, each
minus `dof_shift` in the unsigned index type (unchanged when `dof_shift` is 0). -/
theorem tmp_indices_eq_scattered_indices (env : Env R E) (tc ds : Nat) (cell : Cell R) :
    tmp_indices env (make_extractor env tc) ds cell = scattered_indices env tc ds cell := by
  unfold tmp_indices scattered_indices shift_indices
  by_cases h : ds = 0
  · simp [h]
  · simp [h]

/-- Started from zero, the quadrature loop of the volume pass leaves the quadrature sums. -/
theorem volume_quadrature_loop_from_zero (dim n_q_points dofs_per_cell : Nat)
    (fe_values : FEValues R) (k c : Nat → R) :
    (volume_quadrature_loop dim n_q_points dofs_per_cell fe_values k c
        { cell_stiffness_matrix := fun _ _ => 0,
          cell_mass_matrix := fun _ _ => 0 }).cell_stiffness_matrix
      = volume_local_stiffness dim n_q_points dofs_per_cell fe_values k ∧
    (volume_quadrature_loop dim n_q_points dofs_per_cell fe_values k c
        { cell_stiffness_matrix := fun _ _ => 0,
          cell_mass_matrix := fun _ _ => 0 }).cell_mass_matrix
      = volume_local_mass n_q_points dofs_per_cell fe_values c := by
  constructor
  · funext a b
    rw [volume_quadrature_loop_stiffness]
    simp only [volume_local_stiffness, scalar_product_eq_sum, zero_add]
    by_cases hab : a < dofs_per_cell ∧ b < dofs_per_cell
    · simp only [hab, and_self, if_true]
    · simp only [hab, if_false, Finset.sum_const_zero]
  · funext a b
    rw [volume_quadrature_loop_mass]
    simp only [volume_local_mass, zero_add]
    by_cases hab : a < dofs_per_cell ∧ b < dofs_per_cell
    · simp only [hab, and_self, if_true]
    · simp only [hab, if_false, Finset.sum_const_zero]

/-- What the body of the volume loop adds for a cell whose lookups return `k` and `c`: the
quadrature sums, extracted and scattered with the shifted temperature indices. -/
theorem volume_contribution_eq_scattered (env : Env R E) (tc ds : Nat) (cell : Cell R)
    (k c : Nat → R)
    (hk : env.mp_values "thermal_conductivity" cell = .ok k)
    (hc : env.mp_values "density_times_heat_capacity" cell = .ok c) :
    (volume_contribution env tc ds cell).stiffness_matrix =
      scattered_volume_stiffness env tc ds cell k ∧
    (volume_contribution env tc ds cell).mass_matrix =
      scattered_volume_mass env tc ds cell c := by
  obtain ⟨hK, hM⟩ := volume_quadrature_loop_from_zero env.dof_handler.dim
    (QGauss_size env.dof_handler.dim (env.dof_handler.fe.degree + 1))
    env.dof_handler.fe.dofs_per_cell cell.fe_values k c
  constructor
  · simp only [volume_contribution, volume_cell, hk, hc, scattered_volume_stiffness]
    rw [hK, tmp_indices_eq_scattered_indices]
    rfl
  · simp only [volume_contribution, volume_cell, hk, hc, scattered_volume_mass]
    rw [hM, tmp_indices_eq_scattered_indices]
    rfl

/-- What the body of the Robin loop adds for a cell whose boundary faces have their lookups
return `h f` and `amb f`: the face quadrature sums, extracted and scattered with the shifted
temperature indices. -/
theorem robin_contribution_eq_scattered (env : Env R E) (tc ds : Nat) (cell : Cell R)
    (h amb : Nat → Nat → R)
    (hb : cell.at_boundary = true →
      ∀ f, f < faces_per_cell env.dof_handler.dim → (cell.face f).at_boundary = true →
        env.b_values "heat_transfer_coefficient" cell f = .ok (h f) ∧
        env.b_values "ambient_temperature" cell f = .ok (amb f)) :
    (robin_contribution env tc ds cell).stiffness_matrix =
      scattered_robin_stiffness env tc ds cell h ∧
    (robin_contribution env tc ds cell).load_vector =
      scattered_robin_load env tc ds cell h amb := by
  have hloc : ∃ out, robin_integrate env
      { cell_stiffness_matrix := fun _ _ => 0, cell_load_vector := fun _ => 0 } cell = .ok out ∧
      out.cell_stiffness_matrix = robin_local_stiffness (faces_per_cell env.dof_handler.dim)
        (QGauss_size (env.dof_handler.dim - 1) (env.dof_handler.fe.degree + 1))
        env.dof_handler.fe.dofs_per_cell cell h ∧
      out.cell_load_vector = robin_local_load (faces_per_cell env.dof_handler.dim)
        (QGauss_size (env.dof_handler.dim - 1) (env.dof_handler.fe.degree + 1))
        env.dof_handler.fe.dofs_per_cell cell h amb := by
    by_cases hcell : cell.at_boundary = true
    · obtain ⟨out, hout, hK, hL⟩ := robin_integrate_ok env
        { cell_stiffness_matrix := fun _ _ => 0, cell_load_vector := fun _ => 0 } cell h amb
        (hb hcell)
      refine ⟨out, hout, ?_, ?_⟩
      · funext a b
        rw [hK]
        rfl
      · funext a
        rw [hL]
        rfl
    · refine ⟨{ cell_stiffness_matrix := fun _ _ => 0, cell_load_vector := fun _ => 0 },
        ?_, ?_, ?_⟩
      · simp only [robin_integrate, hcell]
        rfl
      · funext a b
        simp [robin_local_stiffness, hcell]
      · funext a
        simp [robin_local_load, hcell]
  obtain ⟨out, hout, hK, hL⟩ := hloc
  constructor
  · simp only [robin_contribution, robin_cell, hout, scattered_robin_stiffness]
    rw [hK, tmp_indices_eq_scattered_indices]
    rfl
  · simp only [robin_contribution, robin_cell, hout, scattered_robin_load]
    rw [hL, tmp_indices_eq_scattered_indices]
    rfl

/-- Over a list of cells whose volume lookups return `k` and `c`, the increments of the
volume loop are the scattered quadrature sums. -/
theorem volume_contributions_eq_scattered (env : Env R E) (tc ds : Nat)
    (cells : List (Cell R)) (k c : Cell R → Nat → R)
    (hv : ∀ x ∈ cells, volume_lookups_return_values env x (k x) (c x)) (a b : Nat) :
    cells.map (fun x => (volume_contribution env tc ds x).stiffness_matrix a b) =
      cells.map (fun x => scattered_volume_stiffness env tc ds x (k x) a b) ∧
    cells.map (fun x => (volume_contribution env tc ds x).mass_matrix a b) =
      cells.map (fun x => scattered_volume_mass env tc ds x (c x) a b) :=
  ⟨List.map_congr_left (fun x hx => by
      rw [(volume_contribution_eq_scattered env tc ds x (k x) (c x) (hv x hx).1
        (hv x hx).2).1]),
    List.map_congr_left (fun x hx => by
      rw [(volume_contribution_eq_scattered env tc ds x (k x) (c x) (hv x hx).1
        (hv x hx).2).2])⟩

/-- Over a list of cells whose boundary lookups return `h` and `amb`, the increments of the
Robin loop are the scattered face quadrature sums. -/
theorem robin_contributions_eq_scattered (env : Env R E) (tc ds : Nat)
    (cells : List (Cell R)) (h amb : Cell R → Nat → Nat → R)
    (hr : ∀ x ∈ cells, robin_lookups_return_values env x (h x) (amb x)) (a b : Nat) :
    cells.map (fun x => (robin_contribution env tc ds x).stiffness_matrix a b) =
      cells.map (fun x => scattered_robin_stiffness env tc ds x (h x) a b) ∧
    cells.map (fun x => (robin_contribution env tc ds x).load_vector a) =
      cells.map (fun x => scattered_robin_load env tc ds x (h x) (amb x) a) :=
  ⟨List.map_congr_left (fun x hx => by
      rw [(robin_contribution_eq_scattered env tc ds x (h x) (amb x) (hr x hx)).1]),
    List.map_congr_left (fun x hx => by
      rw [(robin_contribution_eq_scattered env tc ds x (h x) (amb x) (hr x hx)).2])⟩

omit [CommRing R] in
/-- When the providers return the values `k`, `c`, `h`, `amb`, every lookup of both passes
returns. -/
theorem providers_return_lookups (env : Env R E) (k c : Cell R → Nat → R)
    (h amb : Cell R → Nat → Nat → R) (hp : providers_return env k c h amb) :
    (∀ cell ∈ env.dof_handler.active_cells, volume_lookups_return env cell) ∧
    (∀ cell ∈ env.dof_handler.active_cells, robin_lookups_return env cell) :=
  ⟨fun cell hcell => ⟨⟨_, (hp cell hcell).1⟩, ⟨_, (hp cell hcell).2.1⟩⟩,
    fun cell hcell hb f hf hfb =>
      ⟨⟨_, ((hp cell hcell).2.2 hb f hf hfb).1⟩, ⟨_, ((hp cell hcell).2.2 hb f hf hfb).2⟩⟩⟩

/-- With an additive accumulator and providers that return `k`, `c`, `h`, `amb`, `reset`
returns, and its three outputs are the sums over the active cells of the scattered
quadrature sums: the stiffness matrix of the volume and the Robin ones, the mass matrix of
the volume ones, the load vector of the Robin ones. The volume pass alone leaves the volume
sums. -/
theorem reset_eq_scattered_sums {P : Type} (env : Env R E) (parameters : P)
    (op : ThermalOperator R) (hadd : env.constraint_matrix.Additive)
    (k c : Cell R → Nat → R) (h amb : Cell R → Nat → Nat → R)
    (hp : providers_return env k c h amb) :
    ∃ mid out,
      compute_thermal_operator_contribution env (zero_outputs op) = .ok mid ∧
      compute_robin_boundary_contribution env mid = .ok out ∧
      reset env parameters op = .ok out ∧
      (∀ a b, mid.stiffness_matrix a b =
        (env.dof_handler.active_cells.map (fun cell =>
          scattered_volume_stiffness env op.temperature_component op.dof_shift cell
            (k cell) a b)).sum) ∧
      (∀ a b, out.stiffness_matrix a b = mid.stiffness_matrix a b +
        (env.dof_handler.active_cells.map (fun cell =>
          scattered_robin_stiffness env op.temperature_component op.dof_shift cell
            (h cell) a b)).sum) ∧
      (∀ a b, out.mass_matrix a b =
        (env.dof_handler.active_cells.map (fun cell =>
          scattered_volume_mass env op.temperature_component op.dof_shift cell
            (c cell) a b)).sum) ∧
      (∀ a, out.load_vector a =
        (env.dof_handler.active_cells.map (fun cell =>
          scattered_robin_load env op.temperature_component op.dof_shift cell
            (h cell) (amb cell) a)).sum) := by
  obtain ⟨hv, hr⟩ := providers_return_lookups env k c h amb hp
  obtain ⟨mid, hmid⟩ :=
    (compute_thermal_operator_contribution_ok_iff env (zero_outputs op)).mpr hv
  obtain ⟨out, hout⟩ := (compute_robin_boundary_contribution_ok_iff env mid).mpr hr
  obtain ⟨m1, m2, m3, -, m5⟩ :=
    compute_thermal_operator_contribution_additive env hadd _ _ hmid
  obtain ⟨-, -, o3, -, o5⟩ := compute_robin_boundary_contribution_additive env hadd _ _ hout
  have m1 : mid.temperature_component = op.temperature_component := m1
  have m2 : mid.dof_shift = op.dof_shift := m2
  have hvs : ∀ a b, (env.dof_handler.active_cells.map (fun cell =>
      (volume_contribution env op.temperature_component op.dof_shift
        cell).stiffness_matrix a b)) =
      (env.dof_handler.active_cells.map (fun cell =>
        scattered_volume_stiffness env op.temperature_component op.dof_shift cell
          (k cell) a b)) := fun a b =>
    List.map_congr_left (fun cell hcell => by
      rw [(volume_contribution_eq_scattered env _ _ cell (k cell) (c cell)
        (hp cell hcell).1 (hp cell hcell).2.1).1])
  have hvm : ∀ a b, (env.dof_handler.active_cells.map (fun cell =>
      (volume_contribution env op.temperature_component op.dof_shift
        cell).mass_matrix a b)) =
      (env.dof_handler.active_cells.map (fun cell =>
        scattered_volume_mass env op.temperature_component op.dof_shift cell
          (c cell) a b)) := fun a b =>
    List.map_congr_left (fun cell hcell => by
      rw [(volume_contribution_eq_scattered env _ _ cell (k cell) (c cell)
        (hp cell hcell).1 (hp cell hcell).2.1).2])
  have hrs : ∀ a b, (env.dof_handler.active_cells.map (fun cell =>
      (robin_contribution env op.temperature_component op.dof_shift
        cell).stiffness_matrix a b)) =
      (env.dof_handler.active_cells.map (fun cell =>
        scattered_robin_stiffness env op.temperature_component op.dof_shift cell
          (h cell) a b)) := fun a b =>
    List.map_congr_left (fun cell hcell => by
      rw [(robin_contribution_eq_scattered env _ _ cell (h cell) (amb cell)
        (hp cell hcell).2.2).1])
  have hrl : ∀ a, (env.dof_handler.active_cells.map (fun cell =>
      (robin_contribution env op.temperature_component op.dof_shift
        cell).load_vector a)) =
      (env.dof_handler.active_cells.map (fun cell =>
        scattered_robin_load env op.temperature_component op.dof_shift cell
          (h cell) (amb cell) a)) := fun a =>
    List.map_congr_left (fun cell hcell => by
      rw [(robin_contribution_eq_scattered env _ _ cell (h cell) (amb cell)
        (hp cell hcell).2.2).2])
  refine ⟨mid, out, hmid, hout, by simp only [reset, hmid, hout], ?_, ?_, ?_, ?_⟩
  · intro a b
    have h5 : mid.stiffness_matrix a b = 0 +
        (env.dof_handler.active_cells.map (fun cell =>
          (volume_contribution env op.temperature_component op.dof_shift
            cell).stiffness_matrix a b)).sum := (m5 a b).1
    rw [hvs, zero_add] at h5
    exact h5
  · intro a b
    have ho := (o5 a b).1
    rw [m1, m2, hrs] at ho
    exact ho
  · intro a b
    have h5 : mid.mass_matrix a b = 0 +
        (env.dof_handler.active_cells.map (fun cell =>
          (volume_contribution env op.temperature_component op.dof_shift
            cell).mass_matrix a b)).sum := (m5 a b).2
    rw [hvm, zero_add] at h5
    rw [o3]
    exact h5
  · intro a
    have ho := (o5 a 0).2
    rw [m1, m2, hrl] at ho
    have hz : mid.load_vector a = 0 := by
      have : mid.load_vector = (zero_outputs op).load_vector := m3
      rw [this]
      rfl
    rw [ho, hz, zero_add]

/-- The providers of the example mesh return conductivity 2, capacity 3, coefficient 5 and
ambient temperature 300 everywhere. -/
theorem example_providers_return :
    providers_return example_env (fun _ _ => 2) (fun _ _ => 3) (fun _ _ _ => 5)
      (fun _ _ _ => 300) :=
  fun _ _ => ⟨rfl, rfl, fun _ _ _ _ => ⟨rfl, rfl⟩⟩

/-- C3. Additivity of the two passes in `reset`. With an accumulator that adds to the
global container (as `distribute_local_to_global` does), on every mesh and for all values
`k`, `c`, `h`, `amb` that the providers return: the volume pass returns an operator `mid`,
the Robin pass run on `mid` returns the result `out` of `reset`; the stiffness matrix of
`mid` is the sum over the cells of the scattered volume contributions (the quadrature sums
`k(q) * (grad(i,q) . grad(j,q)) * JxW(q)`, extracted and scattered with the shifted
temperature indices), the Robin pass adds to it the sum over the cells of the scattered
Robin contributions (the face quadrature sums `h(q) * value(i,q) * value(j,q) * JxW(q)`),
and so the stiffness matrix after `reset` is the sum of both. -/
theorem reset_stiffness_adds_both_passes {P : Type} (env : Env R E) (parameters : P)
    (op : ThermalOperator R) (hadd : env.constraint_matrix.Additive)
    (k c : Cell R → Nat → R) (h amb : Cell R → Nat → Nat → R)
    (hp : providers_return env k c h amb) :
    ∃ mid out,
      compute_thermal_operator_contribution env (zero_outputs op) = .ok mid ∧
      compute_robin_boundary_contribution env mid = .ok out ∧
      reset env parameters op = .ok out ∧
      ∀ a b,
        mid.stiffness_matrix a b =
          (env.dof_handler.active_cells.map (fun cell =>
            scattered_volume_stiffness env op.temperature_component op.dof_shift cell
              (k cell) a b)).sum ∧
        out.stiffness_matrix a b = mid.stiffness_matrix a b +
          (env.dof_handler.active_cells.map (fun cell =>
            scattered_robin_stiffness env op.temperature_component op.dof_shift cell
              (h cell) a b)).sum ∧
        out.stiffness_matrix a b =
          (env.dof_handler.active_cells.map (fun cell =>
            scattered_volume_stiffness env op.temperature_component op.dof_shift cell
              (k cell) a b)).sum +
          (env.dof_handler.active_cells.map (fun cell =>
            scattered_robin_stiffness env op.temperature_component op.dof_shift cell
              (h cell) a b)).sum := by
  obtain ⟨mid, out, hmid, hout, hreset, hm, ho, -, -⟩ :=
    reset_eq_scattered_sums env parameters op hadd k c h amb hp
  exact ⟨mid, out, hmid, hout, hreset, fun a b => ⟨hm a b, ho a b, by rw [ho a b, hm a b]⟩⟩

/-- C3 on the example mesh (conductivity 2, coefficient 5), from an operator with nonzero
earlier contents: the scattered contributions have the values of the integrals (two
quadrature points of weight 1 and gradients 1 and -1 give the corner entry 4 from the volume
term of the left cell, to which its boundary face adds 5, the off-diagonal entry -4 from the
volume term alone, the middle entry 4 + 4 from the two cells), and the stiffness matrix
after `reset` is their sum. -/
theorem reset_stiffness_adds_both_passes_witness :
    (ConstraintMatrix.unconstrained : ConstraintMatrix Int).Additive ∧
    providers_return example_env (fun _ _ => 2) (fun _ _ => 3) (fun _ _ _ => 5)
      (fun _ _ _ => 300) ∧
    scattered_volume_stiffness example_env 1 3 example_cell_left (fun _ => 2) 0 0 = 4 ∧
    scattered_volume_stiffness example_env 1 3 example_cell_left (fun _ => 2) 0 1 = -4 ∧
    scattered_volume_stiffness example_env 1 3 example_cell_right (fun _ => 2) 1 1 = 4 ∧
    scattered_volume_stiffness example_env 1 3 example_cell_right (fun _ => 2) 0 0 = 0 ∧
    scattered_robin_stiffness example_env 1 3 example_cell_left (fun _ _ => 5) 0 0 = 5 ∧
    scattered_robin_stiffness example_env 1 3 example_cell_left (fun _ _ => 5) 1 1 = 0 ∧
    scattered_robin_stiffness example_env 1 3 example_cell_right (fun _ _ => 5) 2 2 = 5 ∧
    ∃ mid out,
      compute_thermal_operator_contribution example_env (zero_outputs example_operator)
        = .ok mid ∧
      compute_robin_boundary_contribution example_env mid = .ok out ∧
      reset example_env () example_operator = .ok out ∧
      ∀ a b,
        mid.stiffness_matrix a b =
          (example_env.dof_handler.active_cells.map (fun cell =>
            scattered_volume_stiffness example_env 1 3 cell (fun _ => 2) a b)).sum ∧
        out.stiffness_matrix a b = mid.stiffness_matrix a b +
          (example_env.dof_handler.active_cells.map (fun cell =>
            scattered_robin_stiffness example_env 1 3 cell (fun _ _ => 5) a b)).sum ∧
        out.stiffness_matrix a b =
          (example_env.dof_handler.active_cells.map (fun cell =>
            scattered_volume_stiffness example_env 1 3 cell (fun _ => 2) a b)).sum +
          (example_env.dof_handler.active_cells.map (fun cell =>
            scattered_robin_stiffness example_env 1 3 cell (fun _ _ => 5) a b)).sum :=
  ⟨unconstrained_additive, example_providers_return,
    by decide, by decide, by decide, by decide, by decide, by decide, by decide,
    reset_stiffness_adds_both_passes example_env () example_operator unconstrained_additive
      (fun _ _ => 2) (fun _ _ => 3) (fun _ _ _ => 5) (fun _ _ _ => 300)
      example_providers_return⟩

end C3

/-! ## Invariants of the cell loops -/

section Invariants

variable {R : Type} [CommRing R] {E : Type}

/-- A property of the operator that every returning volume cell body preserves holds of
the operator the volume loop leaves, whether the loop returns or throws. -/
theorem volume_loop_invariant (env : Env R E) (x : DoFExtractor)
    (P : ThermalOperator R → Prop)
    (hstep : ∀ state out cell, P state.1 → volume_cell env x state cell = .ok out → P out.1)
    (cells : List (Cell R)) (state : ThermalOperator R × VolumeLocals R) (h0 : P state.1) :
    (∀ out, volume_loop env x cells state = .ok out → P out.1) ∧
    (∀ e op, volume_loop env x cells state = .error (e, op) → P op) := by
  induction cells generalizing state with
  | nil =>
    constructor
    · intro out hout
      simp only [volume_loop, Except.ok.injEq] at hout
      exact hout ▸ h0
    · intro e op herr
      simp [volume_loop] at herr
  | cons cell rest ih =>
    simp only [volume_loop]
    cases hcell : volume_cell env x state cell with
    | error err =>
      obtain ⟨e1, op1⟩ := err
      have := volume_cell_error_state env x state cell e1 op1 hcell
      constructor
      · intro out hout
        simp at hout
      · intro e op herr
        simp only [Except.error.injEq, Prod.mk.injEq] at herr
        rw [← herr.2, this]
        exact h0
    | ok next => exact ih next (hstep state next cell h0 hcell)

/-- A property of the operator that every returning Robin cell body preserves holds of
the operator the Robin loop leaves, whether the loop returns or throws. -/
theorem robin_loop_invariant (env : Env R E) (x : DoFExtractor)
    (P : ThermalOperator R → Prop)
    (hstep : ∀ state out cell, P state.1 → robin_cell env x state cell = .ok out → P out.1)
    (cells : List (Cell R)) (state : ThermalOperator R × RobinLocals R) (h0 : P state.1) :
    (∀ out, robin_loop env x cells state = .ok out → P out.1) ∧
    (∀ e op, robin_loop env x cells state = .error (e, op) → P op) := by
  induction cells generalizing state with
  | nil =>
    constructor
    · intro out hout
      simp only [robin_loop, Except.ok.injEq] at hout
      exact hout ▸ h0
    · intro e op herr
      simp [robin_loop] at herr
  | cons cell rest ih =>
    simp only [robin_loop]
    cases hcell : robin_cell env x state cell with
    | error err =>
      obtain ⟨e1, op1⟩ := err
      have := robin_cell_error_state env x state cell e1 op1 hcell
      constructor
      · intro out hout
        simp at hout
      · intro e op herr
        simp only [Except.error.injEq, Prod.mk.injEq] at herr
        rw [← herr.2, this]
        exact h0
    | ok next => exact ih next (hstep state next cell h0 hcell)

/-- The operator that `reset` leaves, whether it returns or throws, satisfies every
property that holds of the zeroed operator and that the returning cell bodies of both
passes preserve. -/
theorem reset_invariant {P' : Type} (env : Env R E) (parameters : P')
    (op : ThermalOperator R) (P : ThermalOperator R → Prop)
    (hv : ∀ state out cell, P state.1 →
      volume_cell env (make_extractor env op.temperature_component) state cell = .ok out →
      P out.1)
    (hr : ∀ tc state out cell, P state.1 →
      robin_cell env (make_extractor env tc) state cell = .ok out → P out.1)
    (h0 : P (zero_outputs op)) :
    (∀ out, reset env parameters op = .ok out → P out) ∧
    (∀ e out, reset env parameters op = .error (e, out) → P out) := by
  have hvol := volume_loop_invariant env (make_extractor env op.temperature_component) P hv
    env.dof_handler.active_cells
    (zero_outputs op,
      { cell_stiffness_matrix := fun _ _ => 0, cell_mass_matrix := fun _ _ => 0 }) h0
  simp only [reset]
  cases hmid : compute_thermal_operator_contribution env (zero_outputs op) with
  | error err =>
    obtain ⟨e1, op1⟩ := err
    have h1 := (compute_thermal_operator_contribution_eq_error env _ _).mp hmid
    constructor
    · intro out hout
      simp at hout
    · intro e out herr
      simp only [Except.error.injEq, Prod.mk.injEq] at herr
      rw [← herr.2]
      exact hvol.2 e1 op1 h1
  | ok mid =>
    obtain ⟨locals, h1⟩ := (compute_thermal_operator_contribution_eq_ok env _ _).mp hmid
    have hmidP : P mid := hvol.1 _ h1
    have hrob := robin_loop_invariant env (make_extractor env mid.temperature_component) P
      (hr mid.temperature_component) env.dof_handler.active_cells
      (mid, { cell_stiffness_matrix := fun _ _ => 0, cell_load_vector := fun _ => 0 }) hmidP
    constructor
    · intro out hout
      obtain ⟨locals2, h2⟩ := (compute_robin_boundary_contribution_eq_ok env _ _).mp hout
      exact hrob.1 _ h2
    · intro e out herr
      exact hrob.2 e out ((compute_robin_boundary_contribution_eq_error env _ _).mp herr)

end Invariants

/-! ## When `reset` returns -/

section ResetReturns

variable {R : Type} [CommRing R] {E : Type}

/-- The call of `reset` returns exactly when every lookup of the volume pass and every
lookup that the Robin pass performs returns. -/
theorem reset_ok_iff {P : Type} (env : Env R E) (parameters : P) (op : ThermalOperator R) :
    (∃ out, reset env parameters op = .ok out) ↔
      (∀ cell ∈ env.dof_handler.active_cells, volume_lookups_return env cell) ∧
      (∀ cell ∈ env.dof_handler.active_cells, robin_lookups_return env cell) := by
  rw [← compute_thermal_operator_contribution_ok_iff env (zero_outputs op)]
  simp only [reset]
  cases hmid : compute_thermal_operator_contribution env (zero_outputs op) with
  | error err => simp
  | ok mid =>
    rw [← compute_robin_boundary_contribution_ok_iff env mid]
    simp

/-- The lookups of the volume pass return on the example mesh. -/
theorem example_volume_lookups_return :
    ∀ cell ∈ example_env.dof_handler.active_cells, volume_lookups_return example_env cell :=
  fun _ _ => ⟨⟨_, rfl⟩, ⟨_, rfl⟩⟩

/-- The lookups of the Robin pass return on the example mesh. -/
theorem example_robin_lookups_return :
    ∀ cell ∈ example_env.dof_handler.active_cells, robin_lookups_return example_env cell :=
  fun _ _ _ _ _ _ => ⟨⟨_, rfl⟩, ⟨_, rfl⟩⟩

/-- The call of `reset` returns on the example mesh. -/
theorem example_reset_returns (op : ThermalOperator Int) :
    ∃ out, reset example_env () op = .ok out :=
  (reset_ok_iff example_env () op).mpr
    ⟨example_volume_lookups_return, example_robin_lookups_return⟩

end ResetReturns

/-! ## C4: symmetry -/

section C4

variable {R : Type} [CommRing R] {E : Type}

/-- Swapping the two sides of a conjunction under an `if`. -/
theorem ite_and_swap {α : Type} (p q : Prop) [Decidable p] [Decidable q] (x y z : α)
    (h : x = y) : (if p ∧ q then x else z) = (if q ∧ p then y else z) := by
  subst h
  by_cases hp : p <;> by_cases hq : q <;> simp [hp, hq]

/-- The scalar product is symmetric. -/
theorem scalar_product_comm (dim : Nat) (a b : Nat → R) :
    scalar_product dim a b = scalar_product dim b a := by
  rw [scalar_product_eq_sum, scalar_product_eq_sum]
  exact Finset.sum_congr rfl (fun d _ => mul_comm _ _)

/-- The cell-local matrices that a returning volume cell body leaves are symmetric. -/
theorem volume_cell_locals_symmetric (env : Env R E) (x : DoFExtractor)
    (state out : ThermalOperator R × VolumeLocals R) (cell : Cell R)
    (hout : volume_cell env x state cell = .ok out) :
    IsSymmetric out.2.cell_stiffness_matrix ∧ IsSymmetric out.2.cell_mass_matrix := by
  unfold volume_cell at hout
  split at hout
  · simp at hout
  · split at hout
    · simp at hout
    · simp only [Except.ok.injEq] at hout
      subst hout
      constructor
      · intro a b
        simp only [volume_quadrature_loop_stiffness]
        congr 1
        apply Finset.sum_congr rfl
        intro q _
        exact ite_and_swap _ _ _ _ _ (by rw [scalar_product_comm])
      · intro a b
        simp only [volume_quadrature_loop_mass]
        congr 1
        apply Finset.sum_congr rfl
        intro q _
        exact ite_and_swap _ _ _ _ _ (by rw [mul_comm (cell.fe_values.value a q)])

/-- The quadrature loop of a face keeps the cell stiffness matrix symmetric. -/
theorem robin_quadrature_loop_symmetric (n_face_q_points dofs_per_cell : Nat)
    (fe_face_values : FEFaceValues R) (h amb : Nat → R) (locals : RobinLocals R)
    (hs : IsSymmetric locals.cell_stiffness_matrix) :
    IsSymmetric (robin_quadrature_loop n_face_q_points dofs_per_cell fe_face_values h amb
      locals).cell_stiffness_matrix := by
  intro a b
  rw [robin_quadrature_loop_stiffness, robin_quadrature_loop_stiffness, hs a b]
  congr 1
  apply Finset.sum_congr rfl
  intro q _
  exact ite_and_swap _ _ _ _ _ (by rw [mul_right_comm (h q)])

/-- The loop over the faces keeps the cell stiffness matrix symmetric. -/
theorem robin_face_loop_symmetric (env : Env R E) (cell : Cell R) (faces : List Nat)
    (locals out : RobinLocals R) (hs : IsSymmetric locals.cell_stiffness_matrix)
    (hout : robin_face_loop env cell faces locals = .ok out) :
    IsSymmetric out.cell_stiffness_matrix := by
  induction faces generalizing locals with
  | nil =>
    simp only [robin_face_loop, Except.ok.injEq] at hout
    exact hout ▸ hs
  | cons f rest ih =>
    simp only [robin_face_loop] at hout
    split at hout
    · split at hout
      · simp at hout
      · split at hout
        · simp at hout
        · exact ih _ (robin_quadrature_loop_symmetric _ _ _ _ _ _ hs) hout
    · exact ih _ hs hout

/-- The cell-local matrix that a returning Robin cell body leaves is symmetric. -/
theorem robin_cell_locals_symmetric (env : Env R E) (x : DoFExtractor)
    (state out : ThermalOperator R × RobinLocals R) (cell : Cell R)
    (hout : robin_cell env x state cell = .ok out) :
    IsSymmetric out.2.cell_stiffness_matrix := by
  obtain ⟨hl, -⟩ := robin_cell_ok_frame env x state out cell hout
  unfold robin_integrate at hl
  split at hl
  · exact robin_face_loop_symmetric env cell _ _ _ (fun _ _ => rfl) hl
  · simp only [Except.ok.injEq] at hl
    rw [← hl]
    exact fun _ _ => rfl

/-- The extractor of the passes, built with one mask for rows and columns, extracts a
symmetric matrix from a symmetric matrix. -/
theorem extract_matrix_symmetric (env : Env R E) (tc : Nat) (M : FullMatrix R)
    (hM : IsSymmetric M) : IsSymmetric ((make_extractor env tc).extract_matrix M) := by
  intro a b
  simp only [DoFExtractor.extract_matrix, make_extractor, DoFExtractor.create]
  exact ite_and_swap _ _ _ _ _ (hM _ _)

/-- The accumulator without constraints preserves symmetry: scattering a symmetric local
matrix with one index list for rows and columns keeps a symmetric matrix symmetric. -/
theorem unconstrained_preserves_symmetry :
    (ConstraintMatrix.unconstrained : ConstraintMatrix R).PreservesSymmetry := by
  intro l idx G hl hG a b
  show scatter_add_matrix l idx G a b = scatter_add_matrix l idx G b a
  rw [scatter_add_matrix_apply, scatter_add_matrix_apply, hG a b, Finset.sum_comm]
  congr 1
  apply Finset.sum_congr rfl
  intro j _
  apply Finset.sum_congr rfl
  intro i _
  exact ite_and_swap _ _ _ _ _ (hl i j)

/-- Symmetry of the exact sums (over a commutative ring, where the order of the factors of
a product does not matter). The cell-local stiffness and mass matrices of the volume pass
and the cell-local stiffness matrix of the Robin pass are symmetric for every cell, whatever the
provider values, shape values, gradients and weights. Scattering with one index list for
rows and columns preserves symmetry; and with any accumulator that preserves symmetry, the
stiffness and mass matrices that `reset` leaves are symmetric (whether it returns or
throws). -/
theorem reset_matrices_symmetric {P : Type} (env : Env R E) (parameters : P)
    (op : ThermalOperator R) :
    (∀ x state out cell, volume_cell env x state cell = .ok out →
      (∀ i j, out.2.cell_stiffness_matrix i j = out.2.cell_stiffness_matrix j i) ∧
      (∀ i j, out.2.cell_mass_matrix i j = out.2.cell_mass_matrix j i)) ∧
    (∀ x state out cell, robin_cell env x state cell = .ok out →
      ∀ i j, out.2.cell_stiffness_matrix i j = out.2.cell_stiffness_matrix j i) ∧
    (∀ (local_matrix : FullMatrix R) indices (global_matrix : SparseMatrix R),
      (∀ i j, local_matrix i j = local_matrix j i) →
      (∀ a b, global_matrix a b = global_matrix b a) →
      ∀ a b, scatter_add_matrix local_matrix indices global_matrix a b =
        scatter_add_matrix local_matrix indices global_matrix b a) ∧
    (env.constraint_matrix.PreservesSymmetry →
      ∀ out, (reset env parameters op = .ok out ∨ ∃ e, reset env parameters op = .error (e, out)) →
        (∀ a b, out.stiffness_matrix a b = out.stiffness_matrix b a) ∧
        (∀ a b, out.mass_matrix a b = out.mass_matrix b a)) := by
  refine ⟨fun x state out cell h => volume_cell_locals_symmetric env x state out cell h,
    fun x state out cell h => robin_cell_locals_symmetric env x state out cell h,
    fun l idx G hl hG => unconstrained_preserves_symmetry l idx G hl hG, ?_⟩
  intro hsym
  have key := reset_invariant env parameters op
    (fun o => IsSymmetric o.stiffness_matrix ∧ IsSymmetric o.mass_matrix)
    (by
      intro state out cell hP hcell
      obtain ⟨hK, hM⟩ := volume_cell_locals_symmetric env _ state out cell hcell
      obtain ⟨-, -, -, -, eK, eM⟩ := volume_cell_ok_frame env _ state out cell hcell
      rw [eK, eM]
      exact ⟨hsym _ _ _ (extract_matrix_symmetric env _ _ hK) hP.1,
        hsym _ _ _ (extract_matrix_symmetric env _ _ hM) hP.2⟩)
    (by
      intro tc state out cell hP hcell
      have hK := robin_cell_locals_symmetric env _ state out cell hcell
      obtain ⟨-, -, -, eM, -, eK, -⟩ := robin_cell_ok_frame env _ state out cell hcell
      rw [eK, eM]
      exact ⟨hsym _ _ _ (extract_matrix_symmetric env _ _ hK) hP.1, hP.2⟩)
    ⟨fun _ _ => rfl, fun _ _ => rfl⟩
  intro out hout
  rcases hout with hout | ⟨e, hout⟩
  · exact key.1 out hout
  · exact key.2 e out hout

/-- Symmetry of the exact sums on the example mesh (integer data): the accumulator without
constraints preserves symmetry, and the matrices after `reset` are symmetric. -/
theorem reset_matrices_symmetric_witness :
    example_env.constraint_matrix.PreservesSymmetry ∧
    ∃ out, reset example_env () example_operator = .ok out ∧
      (∀ a b, out.stiffness_matrix a b = out.stiffness_matrix b a) ∧
      (∀ a b, out.mass_matrix a b = out.mass_matrix b a) := by
  refine ⟨unconstrained_preserves_symmetry, ?_⟩
  obtain ⟨out, hreset⟩ := example_reset_returns example_operator
  exact ⟨out, hreset,
    (reset_matrices_symmetric example_env () example_operator).2.2.2
      unconstrained_preserves_symmetry out (Or.inl hreset)⟩

/-- The multiplication of `double` is commutative. -/
theorem Double.mul_comm (a b : Double) : a.mul b = b.mul a := by
  unfold Double.mul
  rw [Int.mul_comm a.mantissa, Int.add_comm a.exponent]

/-- C4, at the failing input. In `double`, with the heat transfer coefficient `0.1`, the
shape values `3` for `i` and `5` for `j` and the weight `1` at the one quadrature point of
a boundary face, the Robin pass leaves `((0.1 * 3) * 5) * 1 = 1.5000000000000002` in
`cell_stiffness_matrix(i, j)` and `((0.1 * 5) * 3) * 1 = 1.5` in
`cell_stiffness_matrix(j, i)`: the two entries are not equal. The terms of the volume pass,
where the product of the two shape values (or gradients) stands in parentheses, are the
same for `(i, j)` and `(j, i)` for all values. -/
theorem robin_stiffness_not_symmetric_in_double :
    entry_after_one_term (robin_stiffness_term_double Double.one_tenth (Double.of_int 3)
        (Double.of_int 5) (Double.of_int 1))
      = { mantissa := 6755399441055745, exponent := -52 } ∧
    entry_after_one_term (robin_stiffness_term_double Double.one_tenth (Double.of_int 5)
        (Double.of_int 3) (Double.of_int 1))
      = { mantissa := 6755399441055744, exponent := -52 } ∧
    ¬ (entry_after_one_term (robin_stiffness_term_double Double.one_tenth (Double.of_int 3)
        (Double.of_int 5) (Double.of_int 1))).same_value
      (entry_after_one_term (robin_stiffness_term_double Double.one_tenth (Double.of_int 5)
        (Double.of_int 3) (Double.of_int 1))) ∧
    (∀ c value_i value_j JxW,
      volume_mass_term_double c value_i value_j JxW =
        volume_mass_term_double c value_j value_i JxW) ∧
    (∀ dim k gradient_i gradient_j JxW,
      volume_stiffness_term_double dim k gradient_i gradient_j JxW =
        volume_stiffness_term_double dim k gradient_j gradient_i JxW) := by
  have hij : entry_after_one_term (robin_stiffness_term_double Double.one_tenth
      (Double.of_int 3) (Double.of_int 5) (Double.of_int 1))
      = { mantissa := 6755399441055745, exponent := -52 } := by decide
  have hji : entry_after_one_term (robin_stiffness_term_double Double.one_tenth
      (Double.of_int 5) (Double.of_int 3) (Double.of_int 1))
      = { mantissa := 6755399441055744, exponent := -52 } := by decide
  refine ⟨hij, hji, ?_, ?_, ?_⟩
  · rw [hij, hji]
    unfold Double.same_value
    decide
  · intro c value_i value_j JxW
    unfold volume_mass_term_double
    rw [Double.mul_comm value_i value_j]
  · intro dim k gradient_i gradient_j JxW
    unfold volume_stiffness_term_double scalar_product_double
    have hfun : (fun (s : Double) (d : Nat) => s.add ((gradient_i d).mul (gradient_j d))) =
        (fun (s : Double) (d : Nat) => s.add ((gradient_j d).mul (gradient_i d))) := by
      funext s d
      rw [Double.mul_comm]
    rw [hfun]

end C4

/-! ## C5: `reset` recomputes everything -/

section C5

variable {R : Type} [CommRing R] {E : Type}

/-- The configuration of the operator that `reset` leaves is the one it was called with. -/
theorem reset_keeps_configuration {P : Type} (env : Env R E) (parameters : P)
    (op out : ThermalOperator R) (hout : reset env parameters op = .ok out) :
    out.temperature_component = op.temperature_component ∧ out.dof_shift = op.dof_shift := by
  have key := reset_invariant env parameters op
    (fun o => o.temperature_component = op.temperature_component ∧
      o.dof_shift = op.dof_shift)
    (by
      intro state out cell hP hcell
      obtain ⟨h1, h2, -⟩ := volume_cell_ok_frame env _ state out cell hcell
      exact ⟨h1.trans hP.1, h2.trans hP.2⟩)
    (by
      intro tc state out cell hP hcell
      obtain ⟨-, h1, h2, -⟩ := robin_cell_ok_frame env _ state out cell hcell
      exact ⟨h1.trans hP.1, h2.trans hP.2⟩)
    ⟨rfl, rfl⟩
  exact key.1 out hout

/-- C5. Idempotence of `reset`. With the same mesh and providers, the outcome of `reset`
(the three outputs, the boundary values, or the exception) does not depend on what the
outputs and `boundary_values` held before the call: replacing them by any `contents`
gives the same outcome. Hence calling `reset` a second time on the result of a first call
gives exactly the result of the first call. -/
theorem reset_idempotent {P : Type} (env : Env R E) (parameters : P)
    (op : ThermalOperator R) (contents : Operator R) :
    reset env parameters { op with toOperator := contents } = reset env parameters op ∧
    (reset env parameters op).bind (reset env parameters) = reset env parameters op := by
  refine ⟨rfl, ?_⟩
  cases hout : reset env parameters op with
  | error e => rfl
  | ok out =>
    obtain ⟨h1, h2⟩ := reset_keeps_configuration env parameters op out hout
    have hz : zero_outputs out = zero_outputs op := by
      cases out
      cases op
      simp only [zero_outputs] at h1 h2 ⊢
      simp_all
    show reset env parameters out = .ok out
    rw [← hout]
    simp only [reset, hz]

end C5

/-! ## C6: a mesh without boundary cell -/

section C6

variable {R : Type} [CommRing R] {E : Type}

/-- The accumulator without constraints is neutral on zero. -/
theorem unconstrained_zero_neutral :
    (ConstraintMatrix.unconstrained : ConstraintMatrix R).ZeroNeutral := by
  constructor
  · intro idx G
    funext a b
    show scatter_add_matrix (fun _ _ => 0) idx G a b = G a b
    rw [scatter_add_matrix_apply]
    simp
  · intro idx v
    funext a
    show scatter_add_vector (fun _ => 0) idx v a = v a
    rw [scatter_add_vector_apply]
    simp

/-- On a cell that is not at the boundary, with an accumulator that is neutral on zero,
the body of the Robin loop returns the operator unchanged. -/
theorem robin_cell_interior (env : Env R E) (hzero : env.constraint_matrix.ZeroNeutral)
    (x : DoFExtractor) (state : ThermalOperator R × RobinLocals R) (cell : Cell R)
    (hcell : cell.at_boundary = false) :
    ∃ locals, robin_cell env x state cell = .ok (state.1, locals) := by
  refine ⟨{ state.2 with cell_stiffness_matrix := fun _ _ => 0,
                         cell_load_vector := fun _ => 0 }, ?_⟩
  have hK : x.extract_matrix (fun _ _ => (0 : R)) = fun _ _ => 0 := by
    funext a b
    simp [DoFExtractor.extract_matrix]
  have hL : x.extract_vector (fun _ => (0 : R)) = fun _ => 0 := by
    funext a
    simp [DoFExtractor.extract_vector]
  simp only [robin_cell, robin_integrate, hcell, Bool.false_eq_true, if_false, hK, hL,
    hzero.1, hzero.2]

/-- On a list of cells none of which is at the boundary, with an accumulator that is
neutral on zero, the Robin loop returns the operator unchanged. -/
theorem robin_loop_interior (env : Env R E) (hzero : env.constraint_matrix.ZeroNeutral)
    (x : DoFExtractor) (cells : List (Cell R))
    (hcells : ∀ cell ∈ cells, cell.at_boundary = false)
    (state : ThermalOperator R × RobinLocals R) :
    ∃ locals, robin_loop env x cells state = .ok (state.1, locals) := by
  induction cells generalizing state with
  | nil => exact ⟨state.2, rfl⟩
  | cons cell rest ih =>
    obtain ⟨locals, h⟩ := robin_cell_interior env hzero x state cell
      (hcells cell (List.mem_cons_self _ _))
    obtain ⟨locals2, h2⟩ := ih (fun c hc => hcells c (List.mem_cons_of_mem _ hc))
      (state.1, locals)
    exact ⟨locals2, by simp only [robin_loop, h]; exact h2⟩

/-- The load vector that the volume pass leaves is the one it was entered with. -/
theorem compute_thermal_operator_contribution_load (env : Env R E)
    (op out : ThermalOperator R)
    (hout : compute_thermal_operator_contribution env op = .ok out) :
    out.load_vector = op.load_vector := by
  obtain ⟨locals, h⟩ := (compute_thermal_operator_contribution_eq_ok env op out).mp hout
  exact (volume_loop_invariant env _ (fun o => o.load_vector = op.load_vector)
    (fun state out cell hP hcell =>
      (volume_cell_ok_frame env _ state out cell hcell).2.2.1.trans hP)
    env.dof_handler.active_cells (op, _) rfl).1 _ h

/-- C6. Zero-boundary property. On a cell that does not report `at_boundary()` the body
of the Robin loop returns and hands an all-zero local matrix and vector to the
accumulator. If no active cell reports `at_boundary()`, then, with an accumulator that
leaves the global container as it was when it distributes an all-zero local matrix or
vector, the Robin pass returns the operator exactly as it was entered (stiffness matrix
and load vector included); so `reset` is the volume pass on the zeroed outputs alone, and
the load vector after `reset` is exactly zero. -/
theorem robin_pass_without_boundary {P : Type} (env : Env R E) (parameters : P)
    (hzero : env.constraint_matrix.ZeroNeutral)
    (hno : ∀ cell ∈ env.dof_handler.active_cells, cell.at_boundary = false)
    (op : ThermalOperator R) :
    (∀ cell ∈ env.dof_handler.active_cells, ∀ x state,
      ∃ out, robin_cell env x state cell = .ok out ∧
        (∀ i j, out.2.cell_stiffness_matrix i j = 0) ∧ (∀ i, out.2.cell_load_vector i = 0) ∧
        (∀ i j, x.extract_matrix out.2.cell_stiffness_matrix i j = 0) ∧
        (∀ i, x.extract_vector out.2.cell_load_vector i = 0)) ∧
    compute_robin_boundary_contribution env op = .ok op ∧
    reset env parameters op = compute_thermal_operator_contribution env (zero_outputs op) ∧
    ∀ out, reset env parameters op = .ok out → ∀ i, out.load_vector i = 0 := by
  have hrobin : ∀ o : ThermalOperator R, compute_robin_boundary_contribution env o = .ok o := by
    intro o
    obtain ⟨locals, h⟩ := robin_loop_interior env hzero
      (make_extractor env o.temperature_component) env.dof_handler.active_cells hno
      (o, { cell_stiffness_matrix := fun _ _ => 0, cell_load_vector := fun _ => 0 })
    exact (compute_robin_boundary_contribution_eq_ok env o o).mpr ⟨locals, h⟩
  have hreset : reset env parameters op =
      compute_thermal_operator_contribution env (zero_outputs op) := by
    simp only [reset]
    cases hmid : compute_thermal_operator_contribution env (zero_outputs op) with
    | error e => rfl
    | ok mid => exact hrobin mid
  refine ⟨?_, hrobin op, hreset, ?_⟩
  · intro cell hcell x state
    refine ⟨_, by simp only [robin_cell, robin_integrate, hno cell hcell]; rfl,
      fun _ _ => rfl, fun _ => rfl, ?_, ?_⟩
    · intro i j
      simp [DoFExtractor.extract_matrix]
    · intro i
      simp [DoFExtractor.extract_vector]
  · intro out hout i
    rw [hreset] at hout
    rw [compute_thermal_operator_contribution_load env _ out hout]
    rfl

/-- C6 on the example mesh without boundary cell. -/
theorem robin_pass_without_boundary_witness :
    example_env_interior.constraint_matrix.ZeroNeutral ∧
    (∀ cell ∈ example_env_interior.dof_handler.active_cells, cell.at_boundary = false) ∧
    (∀ cell ∈ example_env_interior.dof_handler.active_cells, ∀ x state,
      ∃ out, robin_cell example_env_interior x state cell = .ok out ∧
        (∀ i j, out.2.cell_stiffness_matrix i j = 0) ∧ (∀ i, out.2.cell_load_vector i = 0) ∧
        (∀ i j, x.extract_matrix out.2.cell_stiffness_matrix i j = 0) ∧
        (∀ i, x.extract_vector out.2.cell_load_vector i = 0)) ∧
    compute_robin_boundary_contribution example_env_interior example_operator
      = .ok example_operator ∧
    reset example_env_interior () example_operator =
      compute_thermal_operator_contribution example_env_interior
        (zero_outputs example_operator) ∧
    ∀ out, reset example_env_interior () example_operator = .ok out →
      ∀ i, out.load_vector i = 0 := by
  have hno : ∀ cell ∈ example_env_interior.dof_handler.active_cells,
      cell.at_boundary = false := by
    intro cell hcell
    simp only [example_env_interior, List.mem_cons, List.mem_singleton, List.not_mem_nil,
      or_false, or_self] at hcell
    rw [hcell]
    rfl
  exact ⟨unconstrained_zero_neutral, hno,
    robin_pass_without_boundary example_env_interior () unconstrained_zero_neutral hno
      example_operator⟩

end C6

/-! ## C7: the index shift -/

section C7

variable {R : Type} [CommRing R] {E : Type}

/-- An integer in the range of the unsigned type converts to itself. -/
theorem to_unsigned_of_lt (w : Nat) (x : Nat) (hx : x < 2 ^ w) :
    to_unsigned w (x : Int) = x := by
  unfold to_unsigned
  have h : ((x : Int)) % (2 : Int) ^ w = x := by
    apply Int.emod_eq_of_lt (Int.natCast_nonneg x)
    exact_mod_cast hx
  rw [h]
  exact Int.toNat_natCast x

/-- A subtraction in the unsigned type that does not wrap is the subtraction. -/
theorem to_unsigned_sub (w g s : Nat) (hs : s ≤ g) (hg : g < 2 ^ w) :
    to_unsigned w ((g : Int) - (s : Int)) = g - s := by
  have h : (g : Int) - (s : Int) = ((g - s : Nat) : Int) := by omega
  rw [h]
  exact to_unsigned_of_lt w (g - s) (by omega)

/-- The mask of the passes selects the temperature component and nothing else. -/
theorem the_mask_getD (n tc c : Nat) :
    (the_mask n tc).getD c false = true ↔ c = tc ∧ tc < n := by
  unfold the_mask
  rw [List.getD_eq_getElem?_getD, List.getElem?_set]
  by_cases h : tc = c
  · subst h
    by_cases hn : tc < n <;> simp [hn]
  · have h2 : ¬ c = tc := fun hc => h hc.symm
    simp only [h, h2, if_false, List.getElem?_replicate, false_and, iff_false]
    split <;> simp

omit [CommRing R] in
/-- An index that the extractor of the passes extracts from the indices of a cell is the
index of a local degree of freedom that belongs to the temperature component. -/
theorem mem_extract_row_indices (env : Env R E) (tc : Nat) (cell : Cell R) (g : Nat)
    (hg : g ∈ (make_extractor env tc).extract_row_indices
      ((List.range env.dof_handler.fe.dofs_per_cell).map cell.dof_indices)) :
    ∃ i, i < env.dof_handler.fe.dofs_per_cell ∧
      env.dof_handler.fe.system_to_component_index i = tc ∧
      tc < env.dof_handler.n_components ∧ g = cell.dof_indices i := by
  simp only [DoFExtractor.extract_row_indices, make_extractor, DoFExtractor.create,
    List.mem_map, List.mem_filter, List.mem_range] at hg
  obtain ⟨i, ⟨hi, hmask⟩, rfl⟩ := hg
  obtain ⟨hc, hn⟩ := (the_mask_getD _ _ _).mp hmask
  refine ⟨i, hi, hc, hn, ?_⟩
  rw [List.getD_eq_getElem?_getD, List.getElem?_map, List.getElem?_range hi]
  rfl

/-- The index list of both cell bodies, for an operator with a given `dof_shift`. Both
cell bodies hand to the accumulator the list
`tmp_indices`: the extracted indices of the cell, unchanged when `dof_shift` is 0, and
otherwise each one minus `dof_shift` in the unsigned index type, which is the plain
difference whenever `dof_shift` is at most the index. When `dof_shift` is the offset `n`
of the second of two blocks of `n` degrees of freedom and the extracted temperature
indices lie in that block `[n, 2n)`, every index handed to the accumulator lies in
`[0, n)`. This is so for the extractor that the passes build, when the space has two
components of `n` degrees of freedom each, the temperature is the second one, and the
temperature degrees of freedom of the cell are numbered in `[n, 2n)`. -/
theorem tmp_indices_shifted (env : Env R E) (x : DoFExtractor) (op : ThermalOperator R)
    (cell : Cell R) :
    (∀ (vstate vout : ThermalOperator R × VolumeLocals R),
      vstate.1 = op → volume_cell env x vstate cell = .ok vout →
      vout.1.stiffness_matrix = env.constraint_matrix.distribute_matrix
        (x.extract_matrix vout.2.cell_stiffness_matrix)
        (tmp_indices env x op.dof_shift cell) op.stiffness_matrix ∧
      vout.1.mass_matrix = env.constraint_matrix.distribute_matrix
        (x.extract_matrix vout.2.cell_mass_matrix)
        (tmp_indices env x op.dof_shift cell) op.mass_matrix) ∧
    (∀ (rstate rout : ThermalOperator R × RobinLocals R),
      rstate.1 = op → robin_cell env x rstate cell = .ok rout →
      rout.1.stiffness_matrix = env.constraint_matrix.distribute_matrix
        (x.extract_matrix rout.2.cell_stiffness_matrix)
        (tmp_indices env x op.dof_shift cell) op.stiffness_matrix ∧
      rout.1.load_vector = env.constraint_matrix.distribute_vector
        (x.extract_vector rout.2.cell_load_vector)
        (tmp_indices env x op.dof_shift cell) op.load_vector) ∧
    (op.dof_shift = 0 →
      tmp_indices env x op.dof_shift cell =
        x.extract_row_indices
          ((List.range env.dof_handler.fe.dofs_per_cell).map cell.dof_indices)) ∧
    (op.dof_shift ≠ 0 →
      tmp_indices env x op.dof_shift cell =
        (x.extract_row_indices
          ((List.range env.dof_handler.fe.dofs_per_cell).map cell.dof_indices)).map
          (fun g : Nat => to_unsigned env.index_bits ((g : Int) - (op.dof_shift : Int)))) ∧
    (∀ g : Nat, op.dof_shift ≤ g → g < 2 ^ env.index_bits →
      to_unsigned env.index_bits ((g : Int) - (op.dof_shift : Int)) = g - op.dof_shift) ∧
    (∀ n : Nat, op.dof_shift = n → 2 * n ≤ 2 ^ env.index_bits →
      (∀ g ∈ x.extract_row_indices
          ((List.range env.dof_handler.fe.dofs_per_cell).map cell.dof_indices),
        n ≤ g ∧ g < 2 * n) →
      ∀ g ∈ tmp_indices env x op.dof_shift cell, g < n) ∧
    (∀ n : Nat, env.dof_handler.dofs_per_component = [n, n] →
      op.temperature_component = 1 → op.dof_shift = n → 2 * n ≤ 2 ^ env.index_bits →
      (∀ i, i < env.dof_handler.fe.dofs_per_cell →
        env.dof_handler.fe.system_to_component_index i = 1 →
        n ≤ cell.dof_indices i ∧ cell.dof_indices i < 2 * n) →
      ∀ g ∈ tmp_indices env (make_extractor env op.temperature_component) op.dof_shift cell,
        g < n) := by
  have hzero : op.dof_shift = 0 →
      tmp_indices env x op.dof_shift cell =
        x.extract_row_indices
          ((List.range env.dof_handler.fe.dofs_per_cell).map cell.dof_indices) := by
    intro h0
    simp [tmp_indices, shift_indices, h0]
  have hmap : ∀ y : DoFExtractor, op.dof_shift ≠ 0 →
      tmp_indices env y op.dof_shift cell =
        (y.extract_row_indices
          ((List.range env.dof_handler.fe.dofs_per_cell).map cell.dof_indices)).map
          (fun g : Nat => to_unsigned env.index_bits ((g : Int) - (op.dof_shift : Int))) := by
    intro y h0
    simp [tmp_indices, shift_indices, h0]
  have hrange : ∀ (y : DoFExtractor) (n : Nat), op.dof_shift = n →
      2 * n ≤ 2 ^ env.index_bits →
      (∀ g ∈ y.extract_row_indices
          ((List.range env.dof_handler.fe.dofs_per_cell).map cell.dof_indices),
        n ≤ g ∧ g < 2 * n) →
      ∀ g ∈ tmp_indices env y op.dof_shift cell, g < n := by
    intro y n hshift hbits hblock g hg
    by_cases h0 : op.dof_shift = 0
    · simp only [tmp_indices, shift_indices, h0, ne_eq, not_true_eq_false, if_false] at hg
      have := hblock g hg
      omega
    · rw [hmap y h0, List.mem_map] at hg
      obtain ⟨e, he, rfl⟩ := hg
      have hb := hblock e he
      rw [to_unsigned_sub _ _ _ (by omega) (by omega)]
      omega
  refine ⟨?_, ?_, hzero, hmap x, ?_, hrange x, ?_⟩
  · intro vstate vout hst hv
    obtain ⟨-, -, -, -, hK, hM⟩ := volume_cell_ok_frame env _ vstate vout cell hv
    rw [hst] at hK hM
    exact ⟨hK, hM⟩
  · intro rstate rout hst hr
    obtain ⟨-, -, -, -, -, hK, hL⟩ := robin_cell_ok_frame env _ rstate rout cell hr
    rw [hst] at hK hL
    exact ⟨hK, hL⟩
  · intro g hs hg
    exact to_unsigned_sub _ g _ hs hg
  · intro n _ htc hshift hbits hblock
    apply hrange _ n hshift hbits
    intro e he
    obtain ⟨i, hi, hc, -, rfl⟩ := mem_extract_row_indices env _ cell e he
    exact hblock i hi (hc.trans htc)

/-- The index list on the left example cell: two components of 3 degrees of freedom, the
temperature second, `dof_shift = 3`; the indices handed to the accumulator are below 3. -/
theorem tmp_indices_shifted_witness :
    example_env.dof_handler.dofs_per_component = [3, 3] ∧
    example_operator.temperature_component = 1 ∧ example_operator.dof_shift = 3 ∧
    2 * 3 ≤ 2 ^ example_env.index_bits ∧
    (∀ i, i < example_env.dof_handler.fe.dofs_per_cell →
      example_env.dof_handler.fe.system_to_component_index i = 1 →
      3 ≤ example_cell_left.dof_indices i ∧ example_cell_left.dof_indices i < 2 * 3) ∧
    (make_extractor example_env 1).extract_row_indices
      ((List.range example_env.dof_handler.fe.dofs_per_cell).map
        example_cell_left.dof_indices) = [3, 4] ∧
    tmp_indices example_env (make_extractor example_env 1) 3 example_cell_left = [0, 1] ∧
    ∀ g ∈ tmp_indices example_env
      (make_extractor example_env example_operator.temperature_component)
      example_operator.dof_shift example_cell_left, g < 3 := by
  have hblock : ∀ i, i < example_env.dof_handler.fe.dofs_per_cell →
      example_env.dof_handler.fe.system_to_component_index i = 1 →
      3 ≤ example_cell_left.dof_indices i ∧ example_cell_left.dof_indices i < 2 * 3 := by
    show ∀ i, i < 4 → i % 2 = 1 → 3 ≤ [0, 3, 1, 4].getD i 0 ∧ [0, 3, 1, 4].getD i 0 < 2 * 3
    decide
  exact ⟨rfl, rfl, rfl, by decide, hblock, by decide, by decide,
    (tmp_indices_shifted example_env (make_extractor example_env 1) example_operator
      example_cell_left).2.2.2.2.2.2 3 rfl rfl rfl (by decide) hblock⟩

end C7

/-! ## C8: the offset computed by the constructor -/

section C8

variable {R : Type} {E : Type}

/-- A value in the range of `int` converts to itself. -/
theorem to_int_of_range (x : Int) (h0 : 0 ≤ x) (h1 : x < 2 ^ 31) : to_int x = x := by
  unfold to_int
  rw [Int.emod_eq_of_lt (by omega) (by omega)]
  omega

/-- While the running sum stays below `2^31`, `std::accumulate` with its `int` initial
value returns the sum. -/
theorem accumulate_eq_sum (read : Nat → Nat) (last : Nat)
    (h : ∑ k ∈ Finset.range last, read k < 2 ^ 31) :
    accumulate read last = ((∑ k ∈ Finset.range last, read k : Nat) : Int) := by
  unfold accumulate
  induction last with
  | zero => rfl
  | succ n ih =>
    rw [Finset.sum_range_succ] at h
    have hn : ∑ k ∈ Finset.range n, read k < 2 ^ 31 := by omega
    rw [List.range_succ, List.foldl_append, ih hn, Finset.sum_range_succ, List.foldl_cons,
      List.foldl_nil]
    have h1 : ((∑ k ∈ Finset.range n, read k : Nat) : Int) + (read n : Int) < 2 ^ 31 := by
      exact_mod_cast h
    have h0 : (0 : Int) ≤ ((∑ k ∈ Finset.range n, read k : Nat) : Int) + (read n : Int) := by
      positivity
    rw [to_int_of_range _ h0 h1]
    exact (Nat.cast_add _ _).symm

/-- The condition under which the checked subscript aborts fails in a build with an
unchecked `operator[]`, and for a `temperature_component` below the number of components. -/
theorem subscript_passes (env : Env R E) (tc : Nat)
    (hbuild : env.range_checked = false ∨ tc < env.dof_handler.n_components) :
    ¬ (env.range_checked = true ∧ env.dof_handler.dofs_per_component.length ≤ tc) := by
  rintro ⟨h1, h2⟩
  rcases hbuild with hb | hb
  · rw [hb] at h1
    exact Bool.noConfusion h1
  · exact absurd hb (Nat.not_lt.mpr h2)

/-- The constructor sets `dof_shift` to the sum of the counts of the preceding components
when that sum is below `2^31` (and fits the index type), where it completes: for a
`temperature_component` below the number of components, or equal to it in a build with an
unchecked `operator[]`. -/
theorem create_dof_shift_small (env : Env R E) (database : PropertyTree)
    (past_the_end : Nat → Nat) (base : Operator R) (tc : Nat)
    (hget : database.get_unsigned "temperature_component" = .ok tc)
    (htc : tc ≤ env.dof_handler.n_components)
    (hbuild : env.range_checked = false ∨ tc < env.dof_handler.n_components)
    (hsum : ((env.dof_handler.dofs_per_component.take tc).sum) < 2 ^ 31)
    (hbits : 31 ≤ env.index_bits) :
    ∃ op, ThermalOperator.create env database past_the_end base = .ok op ∧
      op.temperature_component = tc ∧
      op.dof_shift = (env.dof_handler.dofs_per_component.take tc).sum := by
  have hif := subscript_passes env tc hbuild
  have hread : ∑ k ∈ Finset.range tc,
      read_dofs_per_component env.dof_handler.dofs_per_component past_the_end k
      = (env.dof_handler.dofs_per_component.take tc).sum := by
    have hgen : ∀ (l : List Nat) (t : Nat), t ≤ l.length →
        ∑ k ∈ Finset.range t, read_dofs_per_component l past_the_end k = (l.take t).sum := by
      intro l t ht
      induction t with
      | zero => simp
      | succ t ih =>
        have hlt : t < l.length := by omega
        rw [Finset.sum_range_succ, ih (by omega), List.take_succ,
          List.getElem?_eq_getElem hlt]
        simp only [read_dofs_per_component, hlt, if_true, Option.toList_some,
          List.sum_append, List.sum_cons, List.sum_nil, add_zero]
        rw [List.getD_eq_getElem _ _ hlt]
    exact hgen _ _ htc
  refine ⟨_, by simp only [ThermalOperator.create, hget, hif, if_false]; rfl, rfl, ?_⟩
  show to_unsigned env.index_bits (accumulate _ tc) = _
  rw [accumulate_eq_sum _ _ (by rw [hread]; exact hsum), hread]
  apply to_unsigned_of_lt
  calc (env.dof_handler.dofs_per_component.take tc).sum < 2 ^ 31 := hsum
    _ ≤ 2 ^ env.index_bits := Nat.pow_le_pow_right (by decide) hbits

/-- C8, at the failing input. With 64 bit indices, component counts `[2^32, 1]` and
`temperature_component = 1`, the constructor returns with `dof_shift = 0`, although the
count of the preceding component is `2^32`: the sum is accumulated in an `int`, and the
`int` that `std::accumulate` returns is already `0`, whatever the type of `dof_shift`. -/
theorem create_dof_shift_truncated_to_int :
    ∃ op, ThermalOperator.create example_env_large (example_database "1") (fun _ => 0)
        example_base = .ok op ∧
      op.temperature_component = 1 ∧ op.dof_shift = 0 ∧
      accumulate (read_dofs_per_component
        example_env_large.dof_handler.dofs_per_component (fun _ => 0)) 1 = 0 ∧
      (example_env_large.dof_handler.dofs_per_component.take 1).sum = 4294967296 ∧
      1 < example_env_large.dof_handler.n_components :=
  ⟨_, rfl, rfl, by decide, by decide, by decide, by decide⟩

end C8

/-! ## C7: the index shift, from the constructor on -/

section IndexShiftFromConstructor

variable {R : Type} [CommRing R] {E : Type}

/-- Where the constructor accumulates without overflow, the indices are shifted into the
first block from the constructor on: with two components of `n < 2^31` degrees of freedom each and
`temperature_component = 1`, the constructor returns with `dof_shift = n`, and on every cell
whose temperature degrees of freedom are numbered in `[n, 2n)` every index handed to the
accumulator lies in `[0, n)`. -/
theorem create_then_tmp_indices_in_first_block (env : Env R E) (database : PropertyTree)
    (past_the_end : Nat → Nat) (base : Operator R) (n : Nat)
    (hget : database.get_unsigned "temperature_component" = .ok 1)
    (hcounts : env.dof_handler.dofs_per_component = [n, n])
    (hn : n < 2 ^ 31) (hbits : 32 ≤ env.index_bits) :
    ∃ op, ThermalOperator.create env database past_the_end base = .ok op ∧
      op.temperature_component = 1 ∧ op.dof_shift = n ∧
      ∀ cell : Cell R,
        (∀ i, i < env.dof_handler.fe.dofs_per_cell →
          env.dof_handler.fe.system_to_component_index i = 1 →
          n ≤ cell.dof_indices i ∧ cell.dof_indices i < 2 * n) →
        ∀ g ∈ tmp_indices env (make_extractor env op.temperature_component) op.dof_shift
          cell, g < n := by
  have hlen : env.dof_handler.n_components = 2 := by
    simp only [DoFHandler.n_components, hcounts, List.length_cons, List.length_nil]
  have hsum : (env.dof_handler.dofs_per_component.take 1).sum = n := by
    rw [hcounts]
    simp
  obtain ⟨op, hop, htc, hshift⟩ := create_dof_shift_small env database past_the_end base 1
    hget (by rw [hlen]; decide) (Or.inr (by rw [hlen]; decide)) (by rw [hsum]; exact hn)
    (by omega)
  rw [hsum] at hshift
  refine ⟨op, hop, htc, hshift, ?_⟩
  intro cell hblock
  have h2n : 2 * n ≤ 2 ^ env.index_bits := by
    have h32 : (2 : Nat) ^ 32 ≤ 2 ^ env.index_bits := Nat.pow_le_pow_right (by decide) hbits
    omega
  exact (tmp_indices_shifted env (make_extractor env op.temperature_component) op
    cell).2.2.2.2.2.2 n hcounts htc hshift h2n hblock

/-- C7, at the failing input. With 64 bit indices, two components of `n = 2^32` degrees of
freedom each, numbered as contiguous blocks, and `temperature_component = 1`, the
constructor returns with `dof_shift = 0` (the sum of the preceding counts is accumulated in
an `int`), so both passes hand the extracted indices to the accumulator unshifted: on the
cell whose temperature degrees of freedom are `n` and `n + 1` the list is `[n, n + 1]`,
every index of it lies in `[n, 2n)` and none in `[0, n)`, where the indices minus the
offset `n` would be `[0, 1]`; `reset` then writes the stiffness entry of the first
temperature degree of freedom at `(n, n)` and leaves `(0, 0)` zero. -/
theorem tmp_indices_unshifted_at_wide_counts :
    example_env_wide.index_bits = 64 ∧
    example_env_wide.dof_handler.dofs_per_component = [4294967296, 4294967296] ∧
    (∀ i, i < example_env_wide.dof_handler.fe.dofs_per_cell →
      (example_env_wide.dof_handler.fe.system_to_component_index i = 0 →
        example_cell_wide.dof_indices i < 4294967296) ∧
      (example_env_wide.dof_handler.fe.system_to_component_index i = 1 →
        4294967296 ≤ example_cell_wide.dof_indices i ∧
        example_cell_wide.dof_indices i < 2 * 4294967296)) ∧
    ∃ op, ThermalOperator.create example_env_wide (example_database "1") (fun _ => 0)
        example_base = .ok op ∧
      op.temperature_component = 1 ∧ op.dof_shift = 0 ∧
      tmp_indices example_env_wide (make_extractor example_env_wide op.temperature_component)
        op.dof_shift example_cell_wide = [4294967296, 4294967297] ∧
      (∀ g ∈ tmp_indices example_env_wide
          (make_extractor example_env_wide op.temperature_component) op.dof_shift
          example_cell_wide,
        ¬ g < 4294967296 ∧ 4294967296 ≤ g ∧ g < 2 * 4294967296) ∧
      (make_extractor example_env_wide op.temperature_component).extract_row_indices
        ((List.range example_env_wide.dof_handler.fe.dofs_per_cell).map
          example_cell_wide.dof_indices) = [4294967296, 4294967297] ∧
      shift_indices 64 4294967296 [4294967296, 4294967297] = [0, 1] ∧
      ∃ out, reset example_env_wide () op = .ok out ∧
        out.stiffness_matrix 4294967296 4294967296 = 9 ∧ out.stiffness_matrix 0 0 = 0 := by
  have hblock : ∀ i, i < example_env_wide.dof_handler.fe.dofs_per_cell →
      (example_env_wide.dof_handler.fe.system_to_component_index i = 0 →
        example_cell_wide.dof_indices i < 4294967296) ∧
      (example_env_wide.dof_handler.fe.system_to_component_index i = 1 →
        4294967296 ≤ example_cell_wide.dof_indices i ∧
        example_cell_wide.dof_indices i < 2 * 4294967296) := by
    show ∀ i, i < 4 →
      (i % 2 = 0 → [0, 4294967296, 1, 4294967297].getD i 0 < 4294967296) ∧
      (i % 2 = 1 → 4294967296 ≤ [0, 4294967296, 1, 4294967297].getD i 0 ∧
        [0, 4294967296, 1, 4294967297].getD i 0 < 2 * 4294967296)
    decide
  have hcreate : ThermalOperator.create example_env_wide (example_database "1") (fun _ => 0)
      example_base = .ok { toOperator := example_base, temperature_component := 1,
                           dof_shift := 0 } := rfl
  have hindices : tmp_indices example_env_wide (make_extractor example_env_wide 1) 0
      example_cell_wide = [4294967296, 4294967297] := by decide
  obtain ⟨mid, out, -, -, hreset, hm, ho, -, -⟩ := reset_eq_scattered_sums example_env_wide ()
    { toOperator := example_base, temperature_component := 1, dof_shift := 0 }
    unconstrained_additive (fun _ _ => 2) (fun _ _ => 3) (fun _ _ _ => 5) (fun _ _ _ => 300)
    (fun _ _ => ⟨rfl, rfl, fun _ _ _ _ => ⟨rfl, rfl⟩⟩)
  refine ⟨rfl, rfl, hblock, _, hcreate, rfl, rfl, hindices, ?_, by decide, by decide,
    out, hreset, ?_, ?_⟩
  · intro g hg
    have hg2 : g ∈ [4294967296, 4294967297] := by
      rw [← hindices]
      exact hg
    simp only [List.mem_cons, List.mem_singleton, List.not_mem_nil, or_false] at hg2
    rcases hg2 with h | h <;> subst h <;> decide
  · rw [ho, hm]
    decide
  · rw [ho, hm]
    decide

end IndexShiftFromConstructor

/-! ## C9: what the constructor checks -/

section C9

variable {R : Type} {E : Type}

/-- Without an entry at the path, `get<unsigned int>` throws `ptree_bad_path`. -/
theorem get_unsigned_missing (database : PropertyTree) (path : String)
    (h : database.entries.lookup path = none) :
    database.get_unsigned path = .error (.ptree_bad_path path) := by
  simp only [PropertyTree.get_unsigned, h]

/-- Reading the first `tc` entries of the counts does not reach past the end when `tc` is
at most the number of components. -/
theorem accumulate_within (counts : List Nat) (past1 past2 : Nat → Nat) (tc : Nat)
    (htc : tc ≤ counts.length) :
    accumulate (read_dofs_per_component counts past1) tc =
      accumulate (read_dofs_per_component counts past2) tc := by
  unfold accumulate
  apply List.foldl_ext
  intro init k hk
  have hlt : k < counts.length := by
    have := List.mem_range.mp hk
    omega
  simp only [read_dofs_per_component, hlt, if_true]

/-- C9, counterexample. In a default build (unchecked `operator[]`), on a space with two
components of 3 degrees of freedom each, a configuration with `temperature_component = 2`,
which is out of range, does not make the constructor fail: it returns an operator, with
`dof_shift` the count of all degrees of freedom. -/
theorem create_out_of_range_returns :
    example_env.range_checked = false ∧
    example_env.dof_handler.n_components ≤ 2 ∧
    ThermalOperator.create example_env (example_database "2") (fun _ => 0) example_base
      = .ok { toOperator := example_base, temperature_component := 2, dof_shift := 6 } ∧
    ¬ (example_env.dof_handler.n_components ≤ 2 →
        ∃ e, ThermalOperator.create example_env (example_database "2") (fun _ => 0)
          example_base = .error e) := by
  have hok : ThermalOperator.create example_env (example_database "2") (fun _ => 0)
      example_base = .ok { toOperator := example_base, temperature_component := 2,
                           dof_shift := 6 } := rfl
  refine ⟨rfl, by decide, hok, ?_⟩
  intro h
  obtain ⟨e, he⟩ := h (by decide)
  rw [hok] at he
  exact Except.noConfusion he

/-- C9, amended. The constructor fails, with `ptree_bad_path`, when the configuration has
no `temperature_component` entry. It does not itself compare the value `tc` of the entry
with the number of components; what an out-of-range value does is decided by the subscript
`dofs_per_component[tc]`. In a build whose `operator[]` checks its index, every `tc` that
is not below the number of components aborts the constructor at that subscript. In a build
whose `operator[]` does not (the default), and in any build for `tc` below the number of
components, the constructor returns for every `tc` up to and including the number of
components: the operator has that `temperature_component`, the base sub-object untouched,
and a `dof_shift` that does not depend on the memory behind the vector of counts: it is
the `int` accumulation of the first `tc` counts converted to the index type, which is the
sum of the counts of the components before `tc` whenever that sum is below `2^31`. -/
theorem create_outcome (env : Env R E) (database : PropertyTree)
    (past_the_end : Nat → Nat) (base : Operator R) :
    (database.entries.lookup "temperature_component" = none →
      ThermalOperator.create env database past_the_end base =
        .error (.ptree_bad_path "temperature_component")) ∧
    (∀ data tc, database.entries.lookup "temperature_component" = some data →
      database.translate_unsigned data = some tc →
      (env.range_checked = true → env.dof_handler.n_components ≤ tc →
        ThermalOperator.create env database past_the_end base =
          .error (.vector_index_out_of_range tc env.dof_handler.n_components)) ∧
      ((env.range_checked = false ∨ tc < env.dof_handler.n_components) →
        tc ≤ env.dof_handler.n_components →
        ∃ op, ThermalOperator.create env database past_the_end base = .ok op ∧
          op.temperature_component = tc ∧ op.toOperator = base ∧
          (∀ other, ThermalOperator.create env database other base = .ok op) ∧
          op.dof_shift = to_unsigned env.index_bits
            (accumulate (fun k => env.dof_handler.dofs_per_component.getD k 0) tc) ∧
          ((env.dof_handler.dofs_per_component.take tc).sum < 2 ^ 31 →
            31 ≤ env.index_bits →
            op.dof_shift = (env.dof_handler.dofs_per_component.take tc).sum))) := by
  constructor
  · intro h
    simp only [ThermalOperator.create, get_unsigned_missing database _ h]
  · intro data tc hdata htr
    have hget : database.get_unsigned "temperature_component" = .ok tc := by
      simp only [PropertyTree.get_unsigned, hdata, htr]
    constructor
    · intro hchecked hrange
      have hif : env.range_checked = true ∧
          env.dof_handler.dofs_per_component.length ≤ tc := ⟨hchecked, hrange⟩
      simp only [ThermalOperator.create, hget, hif, and_self, if_true]
      rfl
    · intro hbuild htc
      have hif := subscript_passes env tc hbuild
      have hcreate : ∀ other, ThermalOperator.create env database other base =
          .ok { toOperator := base
                temperature_component := tc
                dof_shift := to_unsigned env.index_bits
                  (accumulate (read_dofs_per_component env.dof_handler.dofs_per_component
                    other) tc) } := by
        intro other
        simp only [ThermalOperator.create, hget, hif, if_false]
      have hwithin : accumulate
          (read_dofs_per_component env.dof_handler.dofs_per_component past_the_end) tc =
          accumulate (fun k => env.dof_handler.dofs_per_component.getD k 0) tc := by
        unfold accumulate
        apply List.foldl_ext
        intro init k hk
        have hlt : k < env.dof_handler.dofs_per_component.length := by
          have := List.mem_range.mp hk
          have htc : tc ≤ env.dof_handler.dofs_per_component.length := htc
          omega
        simp only [read_dofs_per_component, hlt, if_true]
      refine ⟨_, hcreate past_the_end, rfl, rfl, ?_, ?_, ?_⟩
      · intro other
        rw [hcreate other, accumulate_within _ other past_the_end tc htc]
      · show to_unsigned env.index_bits _ = _
        rw [hwithin]
      · intro hsum hbits
        obtain ⟨op, hop, -, hshift⟩ := create_dof_shift_small env database past_the_end base
          tc hget htc hbuild hsum hbits
        rw [hcreate past_the_end] at hop
        rw [← hshift, ← Except.ok.inj hop]

/-- C9 amended, on the examples (two components of 3 degrees of freedom): an empty
configuration makes the constructor fail; the entry `2` makes it abort in a build with a
checked `operator[]`, and return with `dof_shift = 6` in a default build. -/
theorem create_outcome_witness :
    ThermalOperator.create example_env
        { entries := [], translate_unsigned := parse_decimal } (fun _ => 0) example_base
      = .error (.ptree_bad_path "temperature_component") ∧
    ThermalOperator.create { example_env with range_checked := true }
        (example_database "2") (fun _ => 0) example_base
      = .error (.vector_index_out_of_range 2 2) ∧
    ∃ op, ThermalOperator.create example_env (example_database "2") (fun _ => 0)
        example_base = .ok op ∧
      op.temperature_component = 2 ∧ op.toOperator = example_base ∧
      (∀ other, ThermalOperator.create example_env (example_database "2") other
        example_base = .ok op) ∧
      op.dof_shift = 6 := by
  refine ⟨(create_outcome example_env
      { entries := [], translate_unsigned := parse_decimal } (fun _ => 0) example_base).1 rfl,
    ((create_outcome { example_env with range_checked := true } (example_database "2")
      (fun _ => 0) example_base).2 "2" 2 rfl rfl).1 rfl (by decide), ?_⟩
  obtain ⟨op, hop, htc, hbase, hother, -, hshift⟩ :=
    ((create_outcome example_env (example_database "2") (fun _ => 0) example_base).2
      "2" 2 rfl rfl).2 (Or.inl rfl) (by decide)
  exact ⟨op, hop, htc, hbase, hother, by rw [hshift (by decide) (by decide)]; decide⟩

end C9

/-! ## C10: a provider that throws -/

section C10

variable {R : Type} [CommRing R] {E : Type}

/-- The volume loop over a concatenation runs the second list from where the first list
returns, and throws what the first list throws. -/
theorem volume_loop_append (env : Env R E) (x : DoFExtractor) (pre rest : List (Cell R))
    (state : ThermalOperator R × VolumeLocals R) :
    volume_loop env x (pre ++ rest) state =
      match volume_loop env x pre state with
      | .error e => .error e
      | .ok mid => volume_loop env x rest mid := by
  induction pre generalizing state with
  | nil => rfl
  | cons cell pre ih =>
    simp only [List.cons_append, volume_loop]
    cases volume_cell env x state cell with
    | error e => rfl
    | ok next => exact ih next

/-- The Robin loop over a concatenation runs the second list from where the first list
returns, and throws what the first list throws. -/
theorem robin_loop_append (env : Env R E) (x : DoFExtractor) (pre rest : List (Cell R))
    (state : ThermalOperator R × RobinLocals R) :
    robin_loop env x (pre ++ rest) state =
      match robin_loop env x pre state with
      | .error e => .error e
      | .ok mid => robin_loop env x rest mid := by
  induction pre generalizing state with
  | nil => rfl
  | cons cell pre ih =>
    simp only [List.cons_append, robin_loop]
    cases robin_cell env x state cell with
    | error e => rfl
    | ok next => exact ih next

/-- When a lookup of the volume pass throws on a cell, the body of the volume loop throws
that error and leaves the operator as it was. -/
theorem volume_cell_throws (env : Env R E) (x : DoFExtractor)
    (state : ThermalOperator R × VolumeLocals R) (cell : Cell R) (e : E)
    (h : volume_lookup_throws env cell e) :
    volume_cell env x state cell = .error (e, state.1) := by
  rcases h with h | ⟨⟨k, hk⟩, h⟩
  · simp only [volume_cell, h]
  · simp only [volume_cell, hk, h]

/-- A list of the first `n` numbers, split at one of them. -/
theorem range_split (n f : Nat) (hf : f < n) :
    List.range n = List.range f ++ f :: List.range' (f + 1) (n - (f + 1)) := by
  have h1 : n = (n - (f + 1) + 1) + f := by omega
  have h2 := List.range'_append 0 f (n - (f + 1) + 1) 1
  rw [← h1, List.range'_succ] at h2
  rw [List.range_eq_range', List.range_eq_range', ← h2]
  simp

/-- When the lookups return on the boundary faces before a boundary face on which a
lookup throws, the loop over the faces throws that error. -/
theorem robin_face_loop_throws (env : Env R E) (cell : Cell R) (fpre : List Nat)
    (f : Nat) (fpost : List Nat) (e : E) (locals : RobinLocals R)
    (hpre : ∀ g ∈ fpre, (cell.face g).at_boundary = true →
      (∃ h, env.b_values "heat_transfer_coefficient" cell g = .ok h) ∧
      (∃ amb, env.b_values "ambient_temperature" cell g = .ok amb))
    (hf : (cell.face f).at_boundary = true) (hthrow : robin_lookup_throws env cell f e) :
    robin_face_loop env cell (fpre ++ f :: fpost) locals = .error e := by
  induction fpre generalizing locals with
  | nil =>
    rcases hthrow with h | ⟨⟨h1, hh1⟩, h⟩
    · simp only [List.nil_append, robin_face_loop, hf, if_true, h]
    · simp only [List.nil_append, robin_face_loop, hf, if_true, hh1, h]
  | cons g rest ih =>
    have hrest : ∀ g' ∈ rest, (cell.face g').at_boundary = true →
        (∃ h, env.b_values "heat_transfer_coefficient" cell g' = .ok h) ∧
        (∃ amb, env.b_values "ambient_temperature" cell g' = .ok amb) :=
      fun g' hg' => hpre g' (List.mem_cons_of_mem _ hg')
    by_cases hg : (cell.face g).at_boundary = true
    · obtain ⟨⟨h1, hh1⟩, ⟨h2, hh2⟩⟩ := hpre g (List.mem_cons_self _ _) hg
      simp only [List.cons_append, robin_face_loop, hg, if_true, hh1, hh2]
      exact ih _ hrest
    · simp only [List.cons_append, robin_face_loop, hg]
      exact ih _ hrest

/-- When a lookup throws on a boundary face of a cell at the boundary, after the lookups
of the earlier boundary faces have returned, the body of the Robin loop throws that error
and leaves the operator as it was. -/
theorem robin_cell_throws (env : Env R E) (x : DoFExtractor)
    (state : ThermalOperator R × RobinLocals R) (cell : Cell R) (f : Nat) (e : E)
    (hcell : cell.at_boundary = true) (hlt : f < faces_per_cell env.dof_handler.dim)
    (hf : (cell.face f).at_boundary = true)
    (hpre : ∀ g, g < f → (cell.face g).at_boundary = true →
      (∃ h, env.b_values "heat_transfer_coefficient" cell g = .ok h) ∧
      (∃ amb, env.b_values "ambient_temperature" cell g = .ok amb))
    (hthrow : robin_lookup_throws env cell f e) :
    robin_cell env x state cell = .error (e, state.1) := by
  have h : robin_integrate env state.2 cell = .error e := by
    simp only [robin_integrate, hcell, if_true]
    rw [range_split _ f hlt]
    exact robin_face_loop_throws env cell _ f _ e _
      (fun g hg => hpre g (List.mem_range.mp hg)) hf hthrow
  simp only [robin_cell, h]

/-- C10. Provider failures fail the whole assembly. `reset` returns exactly when every
lookup it performs returns: the two volume lookups on every active cell and the two
boundary lookups on every boundary face of every active cell at the boundary. When a
volume lookup throws `e` on a cell, the lookups having returned on the cells before it,
`reset` throws `e`, and the operator stands as the volume loop left it after the cells
before the failing one: the failing cell is not skipped and no later cell is processed.
Likewise, when the volume pass returns and a boundary lookup throws `e` on a face of a
cell, the earlier lookups of the Robin pass having returned, `reset` throws `e` with the
operator as the Robin loop left it after the cells before the failing one. -/
theorem reset_fails_on_provider_failure {P : Type} (env : Env R E) (parameters : P)
    (op : ThermalOperator R) :
    ((∃ out, reset env parameters op = .ok out) ↔
      (∀ cell ∈ env.dof_handler.active_cells,
        (∃ k, env.mp_values "thermal_conductivity" cell = .ok k) ∧
        (∃ c, env.mp_values "density_times_heat_capacity" cell = .ok c)) ∧
      (∀ cell ∈ env.dof_handler.active_cells, cell.at_boundary = true →
        ∀ f, f < faces_per_cell env.dof_handler.dim → (cell.face f).at_boundary = true →
          (∃ h, env.b_values "heat_transfer_coefficient" cell f = .ok h) ∧
          (∃ amb, env.b_values "ambient_temperature" cell f = .ok amb))) ∧
    (∀ pre cell post e, env.dof_handler.active_cells = pre ++ cell :: post →
      (∀ c ∈ pre, volume_lookups_return env c) →
      volume_lookup_throws env cell e →
      ∃ before locals,
        volume_loop env (make_extractor env op.temperature_component) pre
          (zero_outputs op,
            { cell_stiffness_matrix := fun _ _ => 0, cell_mass_matrix := fun _ _ => 0 })
          = .ok (before, locals) ∧
        reset env parameters op = .error (e, before)) ∧
    (∀ pre cell post f e, env.dof_handler.active_cells = pre ++ cell :: post →
      (∀ c ∈ env.dof_handler.active_cells, volume_lookups_return env c) →
      (∀ c ∈ pre, robin_lookups_return env c) →
      cell.at_boundary = true → f < faces_per_cell env.dof_handler.dim →
      (cell.face f).at_boundary = true →
      (∀ g, g < f → (cell.face g).at_boundary = true →
        (∃ h, env.b_values "heat_transfer_coefficient" cell g = .ok h) ∧
        (∃ amb, env.b_values "ambient_temperature" cell g = .ok amb)) →
      robin_lookup_throws env cell f e →
      ∃ mid before locals,
        compute_thermal_operator_contribution env (zero_outputs op) = .ok mid ∧
        robin_loop env (make_extractor env op.temperature_component) pre
          (mid, { cell_stiffness_matrix := fun _ _ => 0, cell_load_vector := fun _ => 0 })
          = .ok (before, locals) ∧
        reset env parameters op = .error (e, before)) := by
  refine ⟨reset_ok_iff env parameters op, ?_, ?_⟩
  · intro pre cell post e hcells hpre hthrow
    obtain ⟨⟨before, locals⟩, hbefore⟩ :=
      (volume_loop_ok_iff env (make_extractor env op.temperature_component) pre
        (zero_outputs op,
          { cell_stiffness_matrix := fun _ _ => 0, cell_mass_matrix := fun _ _ => 0 })).mpr
        hpre
    refine ⟨before, locals, hbefore, ?_⟩
    have hloop : volume_loop env (make_extractor env op.temperature_component)
        env.dof_handler.active_cells
        (zero_outputs op,
          { cell_stiffness_matrix := fun _ _ => 0, cell_mass_matrix := fun _ _ => 0 })
        = .error (e, before) := by
      rw [hcells, volume_loop_append, hbefore]
      simp only [volume_loop, volume_cell_throws env _ _ cell e hthrow]
    have hpass := (compute_thermal_operator_contribution_eq_error env (zero_outputs op)
      (e, before)).mpr hloop
    simp only [reset, hpass]
  · intro pre cell post f e hcells hvol hpre hcell hlt hf hfpre hthrow
    obtain ⟨mid, hmid⟩ :=
      (compute_thermal_operator_contribution_ok_iff env (zero_outputs op)).mpr hvol
    obtain ⟨locals0, hmid0⟩ :=
      (compute_thermal_operator_contribution_eq_ok env (zero_outputs op) mid).mp hmid
    have htc : mid.temperature_component = op.temperature_component :=
      (volume_loop_invariant env _
        (fun o => o.temperature_component = op.temperature_component)
        (fun state out c hP hc => (volume_cell_ok_frame env _ state out c hc).1.trans hP)
        env.dof_handler.active_cells (zero_outputs op, _) rfl).1 _ hmid0
    obtain ⟨⟨before, locals⟩, hbefore⟩ :=
      (robin_loop_ok_iff env (make_extractor env op.temperature_component) pre
        (mid, { cell_stiffness_matrix := fun _ _ => 0, cell_load_vector := fun _ => 0 })).mpr
        hpre
    refine ⟨mid, before, locals, hmid, hbefore, ?_⟩
    have hloop : robin_loop env (make_extractor env mid.temperature_component)
        env.dof_handler.active_cells
        (mid, { cell_stiffness_matrix := fun _ _ => 0, cell_load_vector := fun _ => 0 })
        = .error (e, before) := by
      rw [htc, hcells, robin_loop_append, hbefore]
      simp only [robin_loop, robin_cell_throws env _ _ cell f e hcell hlt hf hfpre hthrow]
    have hpass := (compute_robin_boundary_contribution_eq_error env mid (e, before)).mpr hloop
    simp only [reset, hmid, hpass]

/-- C10 on the example mesh with a provider that throws on the right cell: `reset` throws
that error, with the outputs as the left cell alone left them. -/
theorem reset_fails_on_provider_failure_witness :
    example_env_failing.dof_handler.active_cells = [example_cell_left] ++ example_cell_right :: [] ∧
    (∀ c ∈ [example_cell_left], volume_lookups_return example_env_failing c) ∧
    volume_lookup_throws example_env_failing example_cell_right "cell out of range" ∧
    ∃ before locals,
      volume_loop example_env_failing (make_extractor example_env_failing 1)
        [example_cell_left]
        (zero_outputs example_operator,
          { cell_stiffness_matrix := fun _ _ => 0, cell_mass_matrix := fun _ _ => 0 })
        = .ok (before, locals) ∧
      reset example_env_failing () example_operator = .error ("cell out of range", before) := by
  have hpre : ∀ c ∈ [example_cell_left], volume_lookups_return example_env_failing c := by
    intro c hc
    rw [List.mem_singleton.mp hc]
    exact ⟨⟨_, rfl⟩, ⟨_, rfl⟩⟩
  have hthrow : volume_lookup_throws example_env_failing example_cell_right
      "cell out of range" := Or.inl rfl
  exact ⟨rfl, hpre, hthrow,
    (reset_fails_on_provider_failure example_env_failing () example_operator).2.1
      [example_cell_left] example_cell_right [] "cell out of range" rfl hpre hthrow⟩

end C10

/-! ## C11: what each pass writes -/

section C11

variable {R : Type} [CommRing R] {E : Type}

/-- The operator that the volume pass leaves, whether it returns or throws, has the
configuration, the load vector and the boundary values it was entered with. -/
theorem compute_thermal_operator_contribution_frame (env : Env R E)
    (op out : ThermalOperator R)
    (hout : compute_thermal_operator_contribution env op = .ok out ∨
      ∃ e, compute_thermal_operator_contribution env op = .error (e, out)) :
    out.load_vector = op.load_vector ∧ out.boundary_values = op.boundary_values ∧
    out.temperature_component = op.temperature_component ∧ out.dof_shift = op.dof_shift := by
  have key := volume_loop_invariant env (make_extractor env op.temperature_component)
    (fun o => o.load_vector = op.load_vector ∧ o.boundary_values = op.boundary_values ∧
      o.temperature_component = op.temperature_component ∧ o.dof_shift = op.dof_shift)
    (by
      intro state next cell hP hcell
      obtain ⟨h1, h2, h3, h4, -, -⟩ := volume_cell_ok_frame env _ state next cell hcell
      exact ⟨h3.trans hP.1, h4.trans hP.2.1, h1.trans hP.2.2.1, h2.trans hP.2.2.2⟩)
    env.dof_handler.active_cells
    (op, { cell_stiffness_matrix := fun _ _ => 0, cell_mass_matrix := fun _ _ => 0 })
    ⟨rfl, rfl, rfl, rfl⟩
  rcases hout with hout | ⟨e, hout⟩
  · obtain ⟨locals, h⟩ := (compute_thermal_operator_contribution_eq_ok env op out).mp hout
    exact key.1 _ h
  · exact key.2 e out ((compute_thermal_operator_contribution_eq_error env op _).mp hout)

/-- The operator that the Robin pass leaves, whether it returns or throws, has the
configuration, the mass matrix and the boundary values it was entered with. -/
theorem compute_robin_boundary_contribution_frame (env : Env R E)
    (op out : ThermalOperator R)
    (hout : compute_robin_boundary_contribution env op = .ok out ∨
      ∃ e, compute_robin_boundary_contribution env op = .error (e, out)) :
    out.mass_matrix = op.mass_matrix ∧ out.boundary_values = op.boundary_values ∧
    out.temperature_component = op.temperature_component ∧ out.dof_shift = op.dof_shift := by
  have key := robin_loop_invariant env (make_extractor env op.temperature_component)
    (fun o => o.mass_matrix = op.mass_matrix ∧ o.boundary_values = op.boundary_values ∧
      o.temperature_component = op.temperature_component ∧ o.dof_shift = op.dof_shift)
    (by
      intro state next cell hP hcell
      obtain ⟨-, h1, h2, h3, h4, -, -⟩ := robin_cell_ok_frame env _ state next cell hcell
      exact ⟨h3.trans hP.1, h4.trans hP.2.1, h1.trans hP.2.2.1, h2.trans hP.2.2.2⟩)
    env.dof_handler.active_cells
    (op, { cell_stiffness_matrix := fun _ _ => 0, cell_load_vector := fun _ => 0 })
    ⟨rfl, rfl, rfl, rfl⟩
  rcases hout with hout | ⟨e, hout⟩
  · obtain ⟨locals, h⟩ := (compute_robin_boundary_contribution_eq_ok env op out).mp hout
    exact key.1 _ h
  · exact key.2 e out ((compute_robin_boundary_contribution_eq_error env op _).mp hout)

/-- The volume loop does not consult the boundary provider. -/
theorem volume_loop_b_values (env : Env R E)
    (b_values : String → Cell R → Nat → Except E (Nat → R)) (x : DoFExtractor)
    (cells : List (Cell R)) (state : ThermalOperator R × VolumeLocals R) :
    volume_loop { env with b_values := b_values } x cells state =
      volume_loop env x cells state := by
  induction cells generalizing state with
  | nil => rfl
  | cons cell rest ih =>
    have hcell : volume_cell { env with b_values := b_values } x state cell =
        volume_cell env x state cell := rfl
    simp only [volume_loop, hcell]
    cases volume_cell env x state cell with
    | error e => rfl
    | ok next => exact ih next

/-- The Robin loop does not consult the volume provider. -/
theorem robin_loop_mp_values (env : Env R E)
    (mp_values : String → Cell R → Except E (Nat → R)) (x : DoFExtractor)
    (cells : List (Cell R)) (state : ThermalOperator R × RobinLocals R) :
    robin_loop { env with mp_values := mp_values } x cells state =
      robin_loop env x cells state := by
  induction cells generalizing state with
  | nil => rfl
  | cons cell rest ih =>
    have hface : ∀ (faces : List Nat) (locals : RobinLocals R),
        robin_face_loop { env with mp_values := mp_values } cell faces locals =
          robin_face_loop env cell faces locals := by
      intro faces
      induction faces with
      | nil => intro locals; rfl
      | cons f fs ihf =>
        intro locals
        simp only [robin_face_loop]
        split
        · split
          · rfl
          · split
            · rfl
            · exact ihf _
        · exact ihf _
    have hcell : robin_cell { env with mp_values := mp_values } x state cell =
        robin_cell env x state cell := by
      simp only [robin_cell, robin_integrate, hface]
      rfl
    simp only [robin_loop, hcell]
    cases robin_cell env x state cell with
    | error e => rfl
    | ok next => exact ih next

/-- The load vector that the Robin loop leaves is determined by the load vector and the
shift it is entered with: the matrices it is entered with do not matter. -/
theorem robin_loop_load_determined (env : Env R E) (x : DoFExtractor)
    (cells : List (Cell R)) (s t out_s out_t : ThermalOperator R × RobinLocals R)
    (hload : s.1.load_vector = t.1.load_vector) (hshift : s.1.dof_shift = t.1.dof_shift)
    (hs : robin_loop env x cells s = .ok out_s) (ht : robin_loop env x cells t = .ok out_t) :
    out_s.1.load_vector = out_t.1.load_vector := by
  induction cells generalizing s t with
  | nil =>
    simp only [robin_loop, Except.ok.injEq] at hs ht
    rw [← hs, ← ht]
    exact hload
  | cons cell rest ih =>
    simp only [robin_loop] at hs ht
    cases hcs : robin_cell env x s cell with
    | error e => simp [hcs] at hs
    | ok ns =>
      cases hct : robin_cell env x t cell with
      | error e => simp [hct] at ht
      | ok nt =>
        simp only [hcs] at hs
        simp only [hct] at ht
        obtain ⟨ls, -, ds, -, -, -, Ls⟩ := robin_cell_ok_frame env x s ns cell hcs
        obtain ⟨lt, -, dt, -, -, -, Lt⟩ := robin_cell_ok_frame env x t nt cell hct
        have hloc : ns.2 = nt.2 := by
          rw [robin_integrate_indep env s.2 t.2 cell] at ls
          have := ls.symm.trans lt
          simpa using this
        refine ih ns nt ?_ (ds.trans (hshift.trans dt.symm)) hs ht
        rw [Ls, Lt, hloc, hload, hshift]

/-- C11. Frame of the two passes. For every input, the volume pass leaves the load vector
(and the boundary values and the configuration) as it found them: it writes only the
stiffness and mass matrices. The Robin pass leaves the mass matrix (and the boundary
values and the configuration) as it found it: it writes only the stiffness matrix and the
load vector. Hence after `reset` the mass matrix is the one the volume pass computed and
is the same for any boundary provider, and the load vector is the same for any volume
provider. -/
theorem passes_frame {P : Type} (env : Env R E) (parameters : P) (op : ThermalOperator R) :
    (∀ out, (compute_thermal_operator_contribution env op = .ok out ∨
        ∃ e, compute_thermal_operator_contribution env op = .error (e, out)) →
      out.load_vector = op.load_vector ∧ out.boundary_values = op.boundary_values ∧
      out.temperature_component = op.temperature_component ∧
      out.dof_shift = op.dof_shift) ∧
    (∀ out, (compute_robin_boundary_contribution env op = .ok out ∨
        ∃ e, compute_robin_boundary_contribution env op = .error (e, out)) →
      out.mass_matrix = op.mass_matrix ∧ out.boundary_values = op.boundary_values ∧
      out.temperature_component = op.temperature_component ∧
      out.dof_shift = op.dof_shift) ∧
    (∀ out, reset env parameters op = .ok out →
      ∃ mid, compute_thermal_operator_contribution env (zero_outputs op) = .ok mid ∧
        compute_robin_boundary_contribution env mid = .ok out ∧
        out.mass_matrix = mid.mass_matrix ∧ ∀ i, mid.load_vector i = 0) ∧
    (∀ (b_values : String → Cell R → Nat → Except E (Nat → R)) out out',
      reset env parameters op = .ok out →
      reset { env with b_values := b_values } parameters op = .ok out' →
      out'.mass_matrix = out.mass_matrix) ∧
    (∀ (mp_values : String → Cell R → Except E (Nat → R)) out out',
      reset env parameters op = .ok out →
      reset { env with mp_values := mp_values } parameters op = .ok out' →
      out'.load_vector = out.load_vector) := by
  have hsplit : ∀ (env1 : Env R E) (out : ThermalOperator R),
      reset env1 parameters op = .ok out →
      ∃ mid, compute_thermal_operator_contribution env1 (zero_outputs op) = .ok mid ∧
        compute_robin_boundary_contribution env1 mid = .ok out := by
    intro env1 out hout
    simp only [reset] at hout
    cases hmid : compute_thermal_operator_contribution env1 (zero_outputs op) with
    | error e => simp [hmid] at hout
    | ok mid => exact ⟨mid, rfl, by simpa [hmid] using hout⟩
  refine ⟨fun out h => compute_thermal_operator_contribution_frame env op out h,
    fun out h => compute_robin_boundary_contribution_frame env op out h, ?_, ?_, ?_⟩
  · intro out hout
    obtain ⟨mid, hmid, hrob⟩ := hsplit env out hout
    refine ⟨mid, hmid, hrob,
      (compute_robin_boundary_contribution_frame env mid out (Or.inl hrob)).1, ?_⟩
    intro i
    rw [(compute_thermal_operator_contribution_frame env _ mid (Or.inl hmid)).1]
    rfl
  · intro b_values out out' hout hout'
    obtain ⟨mid, hmid, hrob⟩ := hsplit env out hout
    obtain ⟨mid', hmid', hrob'⟩ := hsplit _ out' hout'
    obtain ⟨l, hl⟩ := (compute_thermal_operator_contribution_eq_ok _ _ _).mp hmid
    obtain ⟨l', hl'⟩ := (compute_thermal_operator_contribution_eq_ok _ _ _).mp hmid'
    have hl'' := hl'
    rw [volume_loop_b_values env b_values] at hl''
    have heq : (mid', l') = (mid, l) := by
      have h1 : make_extractor { env with b_values := b_values }
          (zero_outputs op).temperature_component =
          make_extractor env (zero_outputs op).temperature_component := rfl
      have h2 : ({ env with b_values := b_values } : Env R E).dof_handler.active_cells =
          env.dof_handler.active_cells := rfl
      rw [h1, h2] at hl''
      exact Except.ok.inj (hl''.symm.trans hl)
    have hmm : mid' = mid := congrArg Prod.fst heq
    rw [(compute_robin_boundary_contribution_frame _ mid' out' (Or.inl hrob')).1,
      (compute_robin_boundary_contribution_frame env mid out (Or.inl hrob)).1, hmm]
  · intro mp_values out out' hout hout'
    obtain ⟨mid, hmid, hrob⟩ := hsplit env out hout
    obtain ⟨mid', hmid', hrob'⟩ := hsplit _ out' hout'
    obtain ⟨f1, -, f3, f4⟩ :=
      compute_thermal_operator_contribution_frame env _ mid (Or.inl hmid)
    obtain ⟨g1, -, g3, g4⟩ :=
      compute_thermal_operator_contribution_frame _ _ mid' (Or.inl hmid')
    obtain ⟨l, hl⟩ := (compute_robin_boundary_contribution_eq_ok _ _ _).mp hrob
    obtain ⟨l', hl'⟩ := (compute_robin_boundary_contribution_eq_ok _ _ _).mp hrob'
    rw [robin_loop_mp_values env mp_values] at hl'
    have h1 : make_extractor { env with mp_values := mp_values } mid'.temperature_component =
        make_extractor env mid.temperature_component := by
      rw [g3, f3]
      rfl
    have h2 : ({ env with mp_values := mp_values } : Env R E).dof_handler.active_cells =
        env.dof_handler.active_cells := rfl
    rw [h1, h2] at hl'
    exact robin_loop_load_determined env _ _ _ _ _ _ (g1.trans f1.symm) (g4.trans f4.symm)
      hl' hl

/-- C11 on the example mesh: the volume pass returns and leaves the load vector and the
boundary values of the example operator, the Robin pass returns and leaves its mass
matrix. -/
theorem passes_frame_witness :
    (∃ out, compute_thermal_operator_contribution example_env example_operator = .ok out ∧
      out.load_vector = example_operator.load_vector ∧
      out.boundary_values = example_operator.boundary_values) ∧
    (∃ out, compute_robin_boundary_contribution example_env example_operator = .ok out ∧
      out.mass_matrix = example_operator.mass_matrix) := by
  obtain ⟨v, hv⟩ := (compute_thermal_operator_contribution_ok_iff example_env
    example_operator).mpr example_volume_lookups_return
  obtain ⟨r, hr⟩ := (compute_robin_boundary_contribution_ok_iff example_env
    example_operator).mpr example_robin_lookups_return
  have h := passes_frame example_env () example_operator
  exact ⟨⟨v, hv, (h.1 v (Or.inl hv)).1, (h.1 v (Or.inl hv)).2.1⟩,
    ⟨r, hr, (h.2.1 r (Or.inl hr)).1⟩⟩

end C11

/-! ## Where `reset` stands when a lookup throws -/

section ResetThrows

variable {R : Type} [CommRing R] {E : Type}

/-- When a volume lookup throws on a cell, the lookups having returned on the cells before
it, `reset` throws that error with the operator as the volume loop left it after the
cells before the failing one. -/
theorem reset_throws_in_volume_pass {P : Type} (env : Env R E) (parameters : P)
    (op : ThermalOperator R) (pre : List (Cell R)) (cell : Cell R) (post : List (Cell R))
    (e : E) (hcells : env.dof_handler.active_cells = pre ++ cell :: post)
    (hpre : ∀ c ∈ pre, volume_lookups_return env c)
    (hthrow : volume_lookup_throws env cell e) :
    ∃ before locals,
      volume_loop env (make_extractor env op.temperature_component) pre
        (zero_outputs op,
          { cell_stiffness_matrix := fun _ _ => 0, cell_mass_matrix := fun _ _ => 0 })
        = .ok (before, locals) ∧
      reset env parameters op = .error (e, before) := by
  obtain ⟨⟨before, locals⟩, hbefore⟩ :=
    (volume_loop_ok_iff env (make_extractor env op.temperature_component) pre
      (zero_outputs op,
        { cell_stiffness_matrix := fun _ _ => 0, cell_mass_matrix := fun _ _ => 0 })).mpr hpre
  refine ⟨before, locals, hbefore, ?_⟩
  have hloop : volume_loop env (make_extractor env op.temperature_component)
      env.dof_handler.active_cells
      (zero_outputs op,
        { cell_stiffness_matrix := fun _ _ => 0, cell_mass_matrix := fun _ _ => 0 })
      = .error (e, before) := by
    rw [hcells, volume_loop_append, hbefore]
    simp only [volume_loop, volume_cell_throws env _ _ cell e hthrow]
  have hpass := (compute_thermal_operator_contribution_eq_error env (zero_outputs op)
    (e, before)).mpr hloop
  simp only [reset, hpass]

/-- When the volume pass returns and a boundary lookup throws on a face of a cell, the
earlier lookups of the Robin pass having returned, `reset` throws that error with the
operator as the Robin loop left it after the cells before the failing one. -/
theorem reset_throws_in_robin_pass {P : Type} (env : Env R E) (parameters : P)
    (op : ThermalOperator R) (pre : List (Cell R)) (cell : Cell R) (post : List (Cell R))
    (f : Nat) (e : E) (hcells : env.dof_handler.active_cells = pre ++ cell :: post)
    (hvol : ∀ c ∈ env.dof_handler.active_cells, volume_lookups_return env c)
    (hpre : ∀ c ∈ pre, robin_lookups_return env c)
    (hcell : cell.at_boundary = true) (hlt : f < faces_per_cell env.dof_handler.dim)
    (hf : (cell.face f).at_boundary = true)
    (hfpre : ∀ g, g < f → (cell.face g).at_boundary = true →
      (∃ h, env.b_values "heat_transfer_coefficient" cell g = .ok h) ∧
      (∃ amb, env.b_values "ambient_temperature" cell g = .ok amb))
    (hthrow : robin_lookup_throws env cell f e) :
    ∃ mid before locals,
      compute_thermal_operator_contribution env (zero_outputs op) = .ok mid ∧
      robin_loop env (make_extractor env op.temperature_component) pre
        (mid, { cell_stiffness_matrix := fun _ _ => 0, cell_load_vector := fun _ => 0 })
        = .ok (before, locals) ∧
      reset env parameters op = .error (e, before) := by
  obtain ⟨mid, hmid⟩ :=
    (compute_thermal_operator_contribution_ok_iff env (zero_outputs op)).mpr hvol
  have htc : mid.temperature_component = op.temperature_component :=
    (compute_thermal_operator_contribution_frame env _ mid (Or.inl hmid)).2.2.1
  obtain ⟨⟨before, locals⟩, hbefore⟩ :=
    (robin_loop_ok_iff env (make_extractor env op.temperature_component) pre
      (mid, { cell_stiffness_matrix := fun _ _ => 0, cell_load_vector := fun _ => 0 })).mpr
      hpre
  refine ⟨mid, before, locals, hmid, hbefore, ?_⟩
  have hloop : robin_loop env (make_extractor env mid.temperature_component)
      env.dof_handler.active_cells
      (mid, { cell_stiffness_matrix := fun _ _ => 0, cell_load_vector := fun _ => 0 })
      = .error (e, before) := by
    rw [htc, hcells, robin_loop_append, hbefore]
    simp only [robin_loop, robin_cell_throws env _ _ cell f e hcell hlt hf hfpre hthrow]
  have hpass := (compute_robin_boundary_contribution_eq_error env mid (e, before)).mpr hloop
  simp only [reset, hmid, hpass]

end ResetThrows

/-! ## C15: `reset` is not atomic -/

section C15

variable {R : Type} [CommRing R] {E : Type}

/-- C15. `reset` is not atomic on failure. The outcome of `reset`, the failure state
included, is the same whatever the outputs and `boundary_values` held before the call,
and when the very first lookup throws the operator stands with all three outputs zero and
`boundary_values` empty. With an accumulator that adds to the global container, and for
all values `k`, `c`, `h`, `amb` that the lookups before the failing one return: when a
volume lookup throws on a cell, the operator stands with stiffness and mass equal to the
sums, over the cells before it, of the scattered volume contributions (the quadrature sums
`k(q) * (grad(i,q) . grad(j,q)) * JxW(q)` and `c(q) * (value(i,q) * value(j,q)) * JxW(q)`,
extracted and scattered with the shifted temperature indices), the load vector zero and
`boundary_values` empty; when a boundary lookup throws on a cell, it stands with the
volume contributions of all cells in stiffness and mass, plus the scattered Robin
contributions (the face quadrature sums `h(q) * value(i,q) * value(j,q) * JxW(q)` and
`h(q) * amb(q) * value(i,q) * JxW(q)`) of the cells before the failing one in the stiffness
matrix and in the load vector. Nothing is restored. -/
theorem reset_failure_state {P : Type} (env : Env R E) (parameters : P)
    (op : ThermalOperator R) (hadd : env.constraint_matrix.Additive) :
    (∀ contents : Operator R,
      reset env parameters { op with toOperator := contents } = reset env parameters op) ∧
    (∀ cell post e, env.dof_handler.active_cells = cell :: post →
      volume_lookup_throws env cell e →
      reset env parameters op = .error (e, zero_outputs op) ∧
      (∀ a b, (zero_outputs op).stiffness_matrix a b = 0 ∧
        (zero_outputs op).mass_matrix a b = 0 ∧ (zero_outputs op).load_vector a = 0) ∧
      (zero_outputs op).boundary_values = []) ∧
    (∀ pre cell post e (k c : Cell R → Nat → R),
      env.dof_handler.active_cells = pre ++ cell :: post →
      (∀ x ∈ pre, volume_lookups_return_values env x (k x) (c x)) →
      volume_lookup_throws env cell e →
      ∃ before, reset env parameters op = .error (e, before) ∧
        before.boundary_values = [] ∧
        ∀ a b,
          before.stiffness_matrix a b =
            (pre.map (fun x => scattered_volume_stiffness env op.temperature_component
              op.dof_shift x (k x) a b)).sum ∧
          before.mass_matrix a b =
            (pre.map (fun x => scattered_volume_mass env op.temperature_component
              op.dof_shift x (c x) a b)).sum ∧
          before.load_vector a = 0) ∧
    (∀ pre cell post f e (k c : Cell R → Nat → R) (h amb : Cell R → Nat → Nat → R),
      env.dof_handler.active_cells = pre ++ cell :: post →
      (∀ x ∈ env.dof_handler.active_cells,
        volume_lookups_return_values env x (k x) (c x)) →
      (∀ x ∈ pre, robin_lookups_return_values env x (h x) (amb x)) →
      cell.at_boundary = true → f < faces_per_cell env.dof_handler.dim →
      (cell.face f).at_boundary = true →
      (∀ g, g < f → (cell.face g).at_boundary = true →
        (∃ h, env.b_values "heat_transfer_coefficient" cell g = .ok h) ∧
        (∃ amb, env.b_values "ambient_temperature" cell g = .ok amb)) →
      robin_lookup_throws env cell f e →
      ∃ before, reset env parameters op = .error (e, before) ∧
        before.boundary_values = [] ∧
        ∀ a b,
          before.stiffness_matrix a b =
            (env.dof_handler.active_cells.map (fun x =>
              scattered_volume_stiffness env op.temperature_component op.dof_shift x
                (k x) a b)).sum +
            (pre.map (fun x => scattered_robin_stiffness env op.temperature_component
              op.dof_shift x (h x) a b)).sum ∧
          before.mass_matrix a b =
            (env.dof_handler.active_cells.map (fun x =>
              scattered_volume_mass env op.temperature_component op.dof_shift x
                (c x) a b)).sum ∧
          before.load_vector a =
            (pre.map (fun x => scattered_robin_load env op.temperature_component
              op.dof_shift x (h x) (amb x) a)).sum) := by
  refine ⟨fun _ => rfl, ?_, ?_, ?_⟩
  · intro cell post e hcells hthrow
    obtain ⟨before, locals, hbefore, hreset⟩ := reset_throws_in_volume_pass env parameters op
      [] cell post e hcells (fun c hc => by simp at hc) hthrow
    simp only [volume_loop, Except.ok.injEq, Prod.mk.injEq] at hbefore
    rw [← hbefore.1] at hreset
    exact ⟨hreset, fun _ _ => ⟨rfl, rfl, rfl⟩, rfl⟩
  · intro pre cell post e k c hcells hpre hthrow
    obtain ⟨before, locals, hbefore, hreset⟩ := reset_throws_in_volume_pass env parameters op
      pre cell post e hcells (fun x hx => ⟨⟨_, (hpre x hx).1⟩, ⟨_, (hpre x hx).2⟩⟩) hthrow
    obtain ⟨-, -, hL, hB, hKM⟩ := volume_loop_additive env hadd op.temperature_component
      op.dof_shift pre (zero_outputs op, _) (before, locals) rfl rfl hbefore
    refine ⟨before, hreset, hB, ?_⟩
    intro a b
    have h := hKM a b
    obtain ⟨e1, e2⟩ := volume_contributions_eq_scattered env op.temperature_component
      op.dof_shift pre k c hpre a b
    refine ⟨?_, ?_, ?_⟩
    · rw [h.1, e1]
      exact zero_add _
    · rw [h.2, e2]
      exact zero_add _
    · rw [show before.load_vector = (zero_outputs op).load_vector from hL]
      rfl
  · intro pre cell post f e k c h amb hcells hvol hpre hcell hlt hf hfpre hthrow
    obtain ⟨mid, before, locals, hmid, hbefore, hreset⟩ := reset_throws_in_robin_pass env
      parameters op pre cell post f e hcells
      (fun x hx => ⟨⟨_, (hvol x hx).1⟩, ⟨_, (hvol x hx).2⟩⟩)
      (fun x hx hb g hg hgb => ⟨⟨_, (hpre x hx hb g hg hgb).1⟩, ⟨_, (hpre x hx hb g hg hgb).2⟩⟩)
      hcell hlt hf hfpre hthrow
    obtain ⟨m1, m2, m3, m4, m5⟩ :=
      compute_thermal_operator_contribution_additive env hadd _ _ hmid
    obtain ⟨-, -, rM, rB, rKL⟩ := robin_loop_additive env hadd op.temperature_component
      op.dof_shift pre (mid, _) (before, locals) m1 m2 hbefore
    refine ⟨before, hreset, ?_, ?_⟩
    · rw [show before.boundary_values = mid.boundary_values from rB, m4]
      rfl
    · intro a b
      have hm := m5 a b
      have hr := rKL a b
      obtain ⟨e1, e2⟩ := volume_contributions_eq_scattered env op.temperature_component
        op.dof_shift env.dof_handler.active_cells k c hvol a b
      obtain ⟨e3, e4⟩ := robin_contributions_eq_scattered env op.temperature_component
        op.dof_shift pre h amb hpre a b
      have hz1 : (zero_outputs op).stiffness_matrix a b = 0 := rfl
      have hz2 : (zero_outputs op).mass_matrix a b = 0 := rfl
      have hz3 : mid.load_vector a = 0 := by
        rw [m3]
        rfl
      have hmK : mid.stiffness_matrix a b =
          (env.dof_handler.active_cells.map (fun x =>
            scattered_volume_stiffness env op.temperature_component op.dof_shift x
              (k x) a b)).sum := by
        rw [hm.1, hz1, ← e1]
        exact zero_add _
      have hmM : mid.mass_matrix a b =
          (env.dof_handler.active_cells.map (fun x =>
            scattered_volume_mass env op.temperature_component op.dof_shift x
              (c x) a b)).sum := by
        rw [hm.2, hz2, ← e2]
        exact zero_add _
      refine ⟨?_, ?_, ?_⟩
      · rw [hr.1, ← e3]
        show mid.stiffness_matrix a b + _ = _
        rw [hmK]
      · rw [show before.mass_matrix = mid.mass_matrix from rM, hmM]
      · rw [hr.2, ← e4]
        show mid.load_vector a + _ = _
        rw [hz3]
        exact zero_add _

/-- C15 on the example mesh with a provider that throws on the right cell, from an
operator whose stiffness entry `(0, 0)` was 7: `reset` throws, and the outputs it leaves
are the integrals of the left cell alone (stiffness 4 and -4, mass 15 and 12), the load
vector zero, `boundary_values` empty. -/
theorem reset_failure_state_witness :
    (ConstraintMatrix.unconstrained : ConstraintMatrix Int).Additive ∧
    example_operator.stiffness_matrix 0 0 = 7 ∧
    ∃ before, reset example_env_failing () example_operator
        = .error ("cell out of range", before) ∧
      before.boundary_values = [] ∧
      before.stiffness_matrix 0 0 = 4 ∧ before.stiffness_matrix 0 1 = -4 ∧
      before.stiffness_matrix 1 1 = 4 ∧ before.stiffness_matrix 2 2 = 0 ∧
      before.mass_matrix 0 0 = 15 ∧ before.mass_matrix 0 1 = 12 ∧
      before.load_vector 0 = 0 := by
  refine ⟨unconstrained_additive, by decide, ?_⟩
  obtain ⟨before, hreset, hB, hK⟩ :=
    (reset_failure_state example_env_failing () example_operator unconstrained_additive).2.2.1
      [example_cell_left] example_cell_right [] "cell out of range"
      (fun _ _ => 2) (fun _ _ => 3) rfl
      (by
        intro c hc
        rw [List.mem_singleton.mp hc]
        exact ⟨rfl, rfl⟩)
      (Or.inl rfl)
  refine ⟨before, hreset, hB, ?_, ?_, ?_, ?_, ?_, ?_, (hK 0 0).2.2⟩
  · rw [(hK 0 0).1]
    decide
  · rw [(hK 0 1).1]
    decide
  · rw [(hK 1 1).1]
    decide
  · rw [(hK 2 2).1]
    decide
  · rw [(hK 0 0).2.1]
    decide
  · rw [(hK 0 1).2.1]
    decide

end C15

/-! ## C16: the argument of `reset` -/

section C16

variable {R : Type} [CommRing R] {E : Type}

/-- C16. `reset` ignores its argument. For any two values of `parameters` (of any types),
with the same operator, mesh and providers, `reset` has the same outcome, outputs
included: it is the volume pass on the zeroed outputs followed by the Robin pass, in
which `parameters` does not occur. -/
theorem reset_ignores_parameters {P Q : Type} (env : Env R E) (parameters : P)
    (other : Q) (op : ThermalOperator R) :
    reset env parameters op = reset env other op ∧
    reset env parameters op =
      (compute_thermal_operator_contribution env (zero_outputs op)).bind
        (compute_robin_boundary_contribution env) := by
  refine ⟨rfl, ?_⟩
  simp only [reset]
  cases compute_thermal_operator_contribution env (zero_outputs op) with
  | error e => rfl
  | ok mid => rfl

end C16

/-! ## C14: positive semidefiniteness of the cell-local matrices -/

section C14

variable {R : Type} [LinearOrderedCommRing R] {E : Type}

/-- A quadratic form whose matrix is a weighted sum of rank-one terms is the weighted sum
of the squares. -/
theorem quadratic_form_eq_sum_sq {ι : Type} (T : Finset ι) (n : Nat) (x : Nat → R)
    (a : ι → R) (u : Nat → ι → R) :
    ∑ i ∈ Finset.range n, ∑ j ∈ Finset.range n,
        x i * (∑ t ∈ T, a t * (u i t * u j t)) * x j
      = ∑ t ∈ T, a t * (∑ i ∈ Finset.range n, x i * u i t) ^ 2 := by
  have h1 : ∀ i j, x i * (∑ t ∈ T, a t * (u i t * u j t)) * x j =
      ∑ t ∈ T, a t * ((x i * u i t) * (x j * u j t)) := by
    intro i j
    rw [Finset.mul_sum, Finset.sum_mul]
    exact Finset.sum_congr rfl (fun t _ => by ring)
  have h2 : ∀ t, a t * (∑ i ∈ Finset.range n, x i * u i t) ^ 2 =
      ∑ i ∈ Finset.range n, ∑ j ∈ Finset.range n,
        a t * ((x i * u i t) * (x j * u j t)) := by
    intro t
    rw [sq, Finset.sum_mul_sum, Finset.mul_sum]
    exact Finset.sum_congr rfl (fun i _ => by rw [Finset.mul_sum])
  simp only [h1, h2]
  calc ∑ i ∈ Finset.range n, ∑ j ∈ Finset.range n, ∑ t ∈ T,
          a t * ((x i * u i t) * (x j * u j t))
      = ∑ i ∈ Finset.range n, ∑ t ∈ T, ∑ j ∈ Finset.range n,
          a t * ((x i * u i t) * (x j * u j t)) :=
        Finset.sum_congr rfl (fun i _ => Finset.sum_comm)
    _ = ∑ t ∈ T, ∑ i ∈ Finset.range n, ∑ j ∈ Finset.range n,
          a t * ((x i * u i t) * (x j * u j t)) := Finset.sum_comm

/-- A quadratic form whose matrix is, on the range of the form, a sum of rank-one terms
with non-negative weights is non-negative. -/
theorem quadratic_form_nonneg {ι : Type} (T : Finset ι) (n : Nat) (x : Nat → R)
    (a : ι → R) (u : Nat → ι → R) (M : Nat → Nat → R)
    (hM : ∀ i j, i < n → j < n → M i j = ∑ t ∈ T, a t * (u i t * u j t))
    (ha : ∀ t ∈ T, 0 ≤ a t) :
    0 ≤ ∑ i ∈ Finset.range n, ∑ j ∈ Finset.range n, x i * M i j * x j := by
  have h : ∑ i ∈ Finset.range n, ∑ j ∈ Finset.range n, x i * M i j * x j =
      ∑ i ∈ Finset.range n, ∑ j ∈ Finset.range n,
        x i * (∑ t ∈ T, a t * (u i t * u j t)) * x j :=
    Finset.sum_congr rfl (fun i hi => Finset.sum_congr rfl (fun j hj => by
      rw [hM i j (Finset.mem_range.mp hi) (Finset.mem_range.mp hj)]))
  rw [h, quadratic_form_eq_sum_sq]
  exact Finset.sum_nonneg (fun t ht => mul_nonneg (ha t ht) (sq_nonneg _))

/-- The cell-local matrices that the volume cell body leaves, given what its lookups
return. -/
theorem volume_cell_locals (env : Env R E) (x : DoFExtractor)
    (state out : ThermalOperator R × VolumeLocals R) (cell : Cell R) (k c : Nat → R)
    (hk : env.mp_values "thermal_conductivity" cell = .ok k)
    (hc : env.mp_values "density_times_heat_capacity" cell = .ok c)
    (hout : volume_cell env x state cell = .ok out) :
    out.2 = volume_quadrature_loop env.dof_handler.dim
      (QGauss_size env.dof_handler.dim (env.dof_handler.fe.degree + 1))
      env.dof_handler.fe.dofs_per_cell cell.fe_values k c
      { cell_stiffness_matrix := fun _ _ => 0, cell_mass_matrix := fun _ _ => 0 } := by
  simp only [volume_cell, hk, hc, Except.ok.injEq] at hout
  rw [← hout]

/-- C14. Positive semidefiniteness of the cell-local matrices. For every cell and every
vector `x`, when all quadrature weights are non-negative: the quadratic form of the
cell-local mass matrix is non-negative if the capacity values are non-negative, that of
the cell-local volume stiffness matrix is non-negative if the conductivity values are
non-negative, and that of the cell-local Robin matrix is non-negative if the heat transfer
coefficients (and the face weights) are non-negative on the boundary faces. -/
theorem cell_matrices_positive_semidefinite (env : Env R E) (dof_extractor : DoFExtractor)
    (cell : Cell R) (x : Nat → R) :
    (∀ (state out : ThermalOperator R × VolumeLocals R) (k c : Nat → R),
      env.mp_values "thermal_conductivity" cell = .ok k →
      env.mp_values "density_times_heat_capacity" cell = .ok c →
      volume_cell env dof_extractor state cell = .ok out →
      (∀ q, q < QGauss_size env.dof_handler.dim (env.dof_handler.fe.degree + 1) →
        0 ≤ cell.fe_values.JxW q) →
      ((∀ q, q < QGauss_size env.dof_handler.dim (env.dof_handler.fe.degree + 1) →
          0 ≤ c q) →
        0 ≤ ∑ i ∈ Finset.range env.dof_handler.fe.dofs_per_cell,
          ∑ j ∈ Finset.range env.dof_handler.fe.dofs_per_cell,
            x i * out.2.cell_mass_matrix i j * x j) ∧
      ((∀ q, q < QGauss_size env.dof_handler.dim (env.dof_handler.fe.degree + 1) →
          0 ≤ k q) →
        0 ≤ ∑ i ∈ Finset.range env.dof_handler.fe.dofs_per_cell,
          ∑ j ∈ Finset.range env.dof_handler.fe.dofs_per_cell,
            x i * out.2.cell_stiffness_matrix i j * x j)) ∧
    (∀ (state out : ThermalOperator R × RobinLocals R) (h amb : Nat → Nat → R),
      (∀ f, f < faces_per_cell env.dof_handler.dim → (cell.face f).at_boundary = true →
        env.b_values "heat_transfer_coefficient" cell f = .ok (h f) ∧
        env.b_values "ambient_temperature" cell f = .ok (amb f)) →
      robin_cell env dof_extractor state cell = .ok out →
      (∀ f, f < faces_per_cell env.dof_handler.dim → (cell.face f).at_boundary = true →
        ∀ q, q < QGauss_size (env.dof_handler.dim - 1) (env.dof_handler.fe.degree + 1) →
          0 ≤ (cell.face f).fe_face_values.JxW q ∧ 0 ≤ h f q) →
      0 ≤ ∑ i ∈ Finset.range env.dof_handler.fe.dofs_per_cell,
        ∑ j ∈ Finset.range env.dof_handler.fe.dofs_per_cell,
          x i * out.2.cell_stiffness_matrix i j * x j) := by
  constructor
  · intro state out k c hk hc hout hw
    have hloc := volume_cell_locals env dof_extractor state out cell k c hk hc hout
    constructor
    · intro hcap
      apply quadratic_form_nonneg
        (Finset.range (QGauss_size env.dof_handler.dim (env.dof_handler.fe.degree + 1)))
        env.dof_handler.fe.dofs_per_cell x
        (fun q => c q * cell.fe_values.JxW q) (fun i q => cell.fe_values.value i q)
      · intro i j hi hj
        rw [hloc, volume_quadrature_loop_mass]
        simp only [hi, hj, and_self, if_true, zero_add]
        exact Finset.sum_congr rfl (fun q _ => by ring)
      · intro q hq
        exact mul_nonneg (hcap q (Finset.mem_range.mp hq)) (hw q (Finset.mem_range.mp hq))
    · intro hcond
      apply quadratic_form_nonneg
        ((Finset.range (QGauss_size env.dof_handler.dim (env.dof_handler.fe.degree + 1))) ×ˢ
          (Finset.range env.dof_handler.dim))
        env.dof_handler.fe.dofs_per_cell x
        (fun t => k t.1 * cell.fe_values.JxW t.1)
        (fun i t => cell.fe_values.gradient i t.1 t.2)
      · intro i j hi hj
        rw [hloc, volume_quadrature_loop_stiffness, Finset.sum_product]
        simp only [hi, hj, and_self, if_true, zero_add, scalar_product_eq_sum]
        apply Finset.sum_congr rfl
        intro q _
        rw [Finset.mul_sum, Finset.sum_mul]
        exact Finset.sum_congr rfl (fun d _ => by ring)
      · intro t ht
        have hq := Finset.mem_range.mp (Finset.mem_product.mp ht).1
        exact mul_nonneg (hcond t.1 hq) (hw t.1 hq)
  · intro state out h amb hb hout hw
    obtain ⟨hl, -⟩ := robin_cell_ok_frame env dof_extractor state out cell hout
    obtain ⟨out2, hout2, hK, -⟩ := robin_integrate_ok env state.2 cell h amb hb
    have heq : out.2 = out2 := by
      have := hl.symm.trans hout2
      simpa using this
    by_cases hcell : cell.at_boundary = true
    · apply quadratic_form_nonneg
        (((Finset.range (faces_per_cell env.dof_handler.dim)).filter
            (fun f => (cell.face f).at_boundary = true)) ×ˢ
          (Finset.range
            (QGauss_size (env.dof_handler.dim - 1) (env.dof_handler.fe.degree + 1))))
        env.dof_handler.fe.dofs_per_cell x
        (fun t => h t.1 t.2 * (cell.face t.1).fe_face_values.JxW t.2)
        (fun i t => (cell.face t.1).fe_face_values.value i t.2)
      · intro i j hi hj
        rw [heq, hK, Finset.sum_product]
        simp only [hcell, hi, hj, and_self, if_true, robin_face_stiffness]
        apply Finset.sum_congr rfl
        intro f _
        exact Finset.sum_congr rfl (fun q _ => by ring)
      · intro t ht
        obtain ⟨hf, hq⟩ := Finset.mem_product.mp ht
        obtain ⟨hf1, hf2⟩ := Finset.mem_filter.mp hf
        have := hw t.1 (Finset.mem_range.mp hf1) hf2 t.2 (Finset.mem_range.mp hq)
        exact mul_nonneg this.2 this.1
    · have hzero : ∀ i j, out.2.cell_stiffness_matrix i j = 0 := by
        intro i j
        rw [heq, hK]
        simp [hcell]
      simp [hzero]

/-- C14 on the left example cell: weights 1, conductivity 2, capacity 3; the quadratic
forms of its cell-local mass and stiffness matrices at `x = (1, -2, 3, -4)` are
non-negative. -/
theorem cell_matrices_positive_semidefinite_witness :
    (∀ q, q < QGauss_size example_env.dof_handler.dim
        (example_env.dof_handler.fe.degree + 1) → 0 ≤ example_cell_left.fe_values.JxW q) ∧
    (∀ q, q < QGauss_size example_env.dof_handler.dim
        (example_env.dof_handler.fe.degree + 1) → (0 : Int) ≤ (fun _ => 3) q) ∧
    (∀ q, q < QGauss_size example_env.dof_handler.dim
        (example_env.dof_handler.fe.degree + 1) → (0 : Int) ≤ (fun _ => 2) q) ∧
    ∃ out, volume_cell example_env (make_extractor example_env 1)
        (example_operator, example_volume_locals) example_cell_left = .ok out ∧
      0 ≤ ∑ i ∈ Finset.range example_env.dof_handler.fe.dofs_per_cell,
        ∑ j ∈ Finset.range example_env.dof_handler.fe.dofs_per_cell,
          (fun i : Nat => ([1, -2, 3, -4] : List Int).getD i 0) i *
            out.2.cell_mass_matrix i j *
            (fun i : Nat => ([1, -2, 3, -4] : List Int).getD i 0) j ∧
      0 ≤ ∑ i ∈ Finset.range example_env.dof_handler.fe.dofs_per_cell,
        ∑ j ∈ Finset.range example_env.dof_handler.fe.dofs_per_cell,
          (fun i : Nat => ([1, -2, 3, -4] : List Int).getD i 0) i *
            out.2.cell_stiffness_matrix i j *
            (fun i : Nat => ([1, -2, 3, -4] : List Int).getD i 0) j := by
  have hw : ∀ q, q < QGauss_size example_env.dof_handler.dim
      (example_env.dof_handler.fe.degree + 1) → 0 ≤ example_cell_left.fe_values.JxW q :=
    fun _ _ => show (0 : Int) ≤ 1 by decide
  have hc : ∀ q, q < QGauss_size example_env.dof_handler.dim
      (example_env.dof_handler.fe.degree + 1) → (0 : Int) ≤ (fun _ => 3) q :=
    fun _ _ => show (0 : Int) ≤ 3 by decide
  have hk : ∀ q, q < QGauss_size example_env.dof_handler.dim
      (example_env.dof_handler.fe.degree + 1) → (0 : Int) ≤ (fun _ => 2) q :=
    fun _ _ => show (0 : Int) ≤ 2 by decide
  obtain ⟨out, hout⟩ := (volume_cell_ok_iff example_env (make_extractor example_env 1)
    (example_operator, example_volume_locals) example_cell_left).mpr
    ⟨⟨_, rfl⟩, ⟨_, rfl⟩⟩
  have h := (cell_matrices_positive_semidefinite example_env (make_extractor example_env 1)
    example_cell_left (fun i : Nat => ([1, -2, 3, -4] : List Int).getD i 0)).1
    (example_operator, example_volume_locals) out (fun _ => 2) (fun _ => 3) rfl rfl hout hw
  exact ⟨hw, hc, hk, out, hout, h.1 hc, h.2 hk⟩

end C14

/-! ## The local integrals on the unit square -/

section UnitSquareLocal

variable {R : Type} [Field R] [CharZero R]

set_option maxHeartbeats 4000000 in
/-- The 2x2 Gauss sum of the stiffness integrand on the unit square, as a polynomial
identity in `s`: the closed form plus a multiple of `3 * s^2 - 1`. -/
theorem unit_square_stiffness_sum (s k : R) (i j : Nat) (hi : i < 4) (hj : j < 4) :
    ∑ q ∈ Finset.range 4,
        k * scalar_product 2 ((unit_square_fe_values s).gradient i q)
          ((unit_square_fe_values s).gradient j q) * (unit_square_fe_values s).JxW q
      = k * ((closed_form_stiffness i j : R) / 6) +
        k * (((([[1, -1, -1, 1], [-1, 1, 1, -1], [-1, 1, 1, -1], [1, -1, -1, 1]] :
          List (List Int)).getD i []).getD j 0 : Int) : R) / 6 * (3 * s ^ 2 - 1) := by
  interval_cases i <;> interval_cases j <;>
    simp [Finset.sum_range_succ, scalar_product_eq_sum, unit_square_fe_values,
      bilinear_gradient, gauss_point, closed_form_stiffness] <;> ring

set_option maxHeartbeats 4000000 in
/-- The 2x2 Gauss sum of the mass integrand on the unit square, as a polynomial identity
in `s`: the closed form plus a multiple of `3 * s^2 - 1`. -/
theorem unit_square_mass_sum (s c : R) (i j : Nat) (hi : i < 4) (hj : j < 4) :
    ∑ q ∈ Finset.range 4,
        c * ((unit_square_fe_values s).value i q * (unit_square_fe_values s).value j q) *
          (unit_square_fe_values s).JxW q
      = c * ((closed_form_mass i j : R) / 36) +
        c * ((((([[7, -1, -1, -5], [-1, 7, -5, -1], [-1, -5, 7, -1], [-5, -1, -1, 7]] :
            List (List Int)).getD i []).getD j 0 : Int) : R) / 144 +
          (((([[1, -1, -1, 1], [-1, 1, 1, -1], [-1, 1, 1, -1], [1, -1, -1, 1]] :
            List (List Int)).getD i []).getD j 0 : Int) : R) / 48 * s ^ 2) *
          (3 * s ^ 2 - 1) := by
  interval_cases i <;> interval_cases j <;>
    simp [Finset.sum_range_succ, unit_square_fe_values, bilinear_value, gauss_point,
      closed_form_mass] <;> ring

set_option maxHeartbeats 4000000 in
/-- The 2-point Gauss sum of the Robin integrand on the face `x = 0`, as a polynomial
identity in `s`: the closed form plus a multiple of `3 * s^2 - 1`. -/
theorem unit_square_robin_sum (s h : R) (i j : Nat) (hi : i < 4) (hj : j < 4) :
    ∑ q ∈ Finset.range 2,
        h * (unit_square_face s true 0).fe_face_values.value i q *
          (unit_square_face s true 0).fe_face_values.value j q *
          (unit_square_face s true 0).fe_face_values.JxW q
      = h * ((closed_form_robin i j : R) / 6) +
        h * (((([[1, 0, -1, 0], [0, 0, 0, 0], [-1, 0, 1, 0], [0, 0, 0, 0]] :
          List (List Int)).getD i []).getD j 0 : Int) : R) / 12 * (3 * s ^ 2 - 1) := by
  interval_cases i <;> interval_cases j <;>
    simp [Finset.sum_range_succ, unit_square_face, bilinear_value, gauss_point,
      closed_form_robin] <;> ring

set_option maxHeartbeats 4000000 in
/-- The 2-point Gauss sum of the load integrand on the face `x = 0`: exact for every
`s`. -/
theorem unit_square_load_sum (s h amb : R) (i : Nat) (hi : i < 4) :
    ∑ q ∈ Finset.range 2,
        h * amb * (unit_square_face s true 0).fe_face_values.value i q *
          (unit_square_face s true 0).fe_face_values.JxW q
      = h * amb * ((closed_form_load i : R) / 2) := by
  interval_cases i <;>
    simp [Finset.sum_range_succ, unit_square_face, bilinear_value, gauss_point,
      closed_form_load] <;> ring

end UnitSquareLocal

/-! ## The assembly on the unit square -/

section UnitSquareAssembly

variable {R : Type} [Field R]

/-- Entry `i` of the list `0, ..., n-1`. -/
theorem getD_range (n i : Nat) (hi : i < n) : (List.range n).getD i 0 = i := by
  rw [List.getD_eq_getElem _ _ (by rw [List.length_range]; exact hi), List.getElem_range]

/-- Scatter-add of a local matrix with the index list `0, ..., n-1`: entry `(a, b)` of the
local matrix is added to entry `(a, b)` of the global one. -/
theorem scatter_add_matrix_range (local_matrix : FullMatrix R) (n : Nat)
    (global_matrix : SparseMatrix R) (a b : Nat) :
    scatter_add_matrix local_matrix (List.range n) global_matrix a b =
      global_matrix a b + if a < n ∧ b < n then local_matrix a b else 0 := by
  rw [scatter_add_matrix_apply, List.length_range, ← sum_sum_select n a b local_matrix]
  congr 1
  apply Finset.sum_congr rfl
  intro i hi
  apply Finset.sum_congr rfl
  intro j hj
  rw [getD_range n i (Finset.mem_range.mp hi), getD_range n j (Finset.mem_range.mp hj)]

/-- Scatter-add of a local vector with the index list `0, ..., n-1`. -/
theorem scatter_add_vector_range (local_vector : Vector R) (n : Nat)
    (global_vector : Vector R) (a : Nat) :
    scatter_add_vector local_vector (List.range n) global_vector a =
      global_vector a + if a < n then local_vector a else 0 := by
  rw [scatter_add_vector_apply, List.length_range, ← sum_select n a local_vector]
  congr 1
  apply Finset.sum_congr rfl
  intro i hi
  rw [getD_range n i (Finset.mem_range.mp hi)]

/-- An extractor that keeps the positions `0, ..., n-1` extracts the leading block. -/
theorem extract_matrix_range (n : Nat) (M : FullMatrix R) (a b : Nat) :
    (DoFExtractor.mk (List.range n) (List.range n)).extract_matrix M a b =
      if a < n ∧ b < n then M a b else 0 := by
  simp only [DoFExtractor.extract_matrix, List.length_range]
  split
  · next hab => rw [getD_range n a hab.1, getD_range n b hab.2]
  · rfl

/-- An extractor that keeps the positions `0, ..., n-1` extracts the leading entries. -/
theorem extract_vector_range (n : Nat) (v : Vector R) (a : Nat) :
    (DoFExtractor.mk (List.range n) (List.range n)).extract_vector v a =
      if a < n then v a else 0 := by
  simp only [DoFExtractor.extract_vector, List.length_range]
  split
  · next ha => rw [getD_range n a ha]
  · rfl

/-- The volume pass on the unit square: it returns, and the entries of the matrices it
leaves are those it was entered with plus the 2x2 Gauss sums. -/
theorem unit_square_volume_pass (s k c h amb : R) (op : ThermalOperator R)
    (htc : op.temperature_component = 0) (hds : op.dof_shift = 0) :
    ∃ mid, compute_thermal_operator_contribution (unit_square_env s k c h amb) op = .ok mid ∧
      mid.temperature_component = 0 ∧ mid.dof_shift = 0 ∧
      mid.load_vector = op.load_vector ∧ mid.boundary_values = op.boundary_values ∧
      ∀ i j, i < 4 → j < 4 →
        mid.stiffness_matrix i j = op.stiffness_matrix i j +
          ∑ q ∈ Finset.range 4,
            k * scalar_product 2 ((unit_square_fe_values s).gradient i q)
              ((unit_square_fe_values s).gradient j q) * (unit_square_fe_values s).JxW q ∧
        mid.mass_matrix i j = op.mass_matrix i j +
          ∑ q ∈ Finset.range 4,
            c * ((unit_square_fe_values s).value i q * (unit_square_fe_values s).value j q) *
              (unit_square_fe_values s).JxW q := by
  obtain ⟨toOp, tc, ds⟩ := op
  simp only at htc hds
  subst htc
  subst hds
  refine ⟨_, rfl, rfl, rfl, rfl, rfl, ?_⟩
  intro i j hi hj
  constructor
  · show scatter_add_matrix ((DoFExtractor.mk (List.range 4) (List.range 4)).extract_matrix
      (volume_quadrature_loop 2 4 4 (unit_square_fe_values s) (fun _ => k) (fun _ => c)
        { cell_stiffness_matrix := fun _ _ => 0,
          cell_mass_matrix := fun _ _ => 0 }).cell_stiffness_matrix)
      (List.range 4) toOp.stiffness_matrix i j = _
    rw [scatter_add_matrix_range, extract_matrix_range, volume_quadrature_loop_stiffness]
    simp only [hi, hj, and_self, if_true, zero_add]
  · show scatter_add_matrix ((DoFExtractor.mk (List.range 4) (List.range 4)).extract_matrix
      (volume_quadrature_loop 2 4 4 (unit_square_fe_values s) (fun _ => k) (fun _ => c)
        { cell_stiffness_matrix := fun _ _ => 0,
          cell_mass_matrix := fun _ _ => 0 }).cell_mass_matrix)
      (List.range 4) toOp.mass_matrix i j = _
    rw [scatter_add_matrix_range, extract_matrix_range, volume_quadrature_loop_mass]
    simp only [hi, hj, and_self, if_true, zero_add]

/-- The Robin pass on the unit square: it returns, and the entries of the stiffness matrix
and of the load vector it leaves are those it was entered with plus the 2-point Gauss
sums on the face `x = 0`. -/
theorem unit_square_robin_pass (s k c h amb : R) (op : ThermalOperator R)
    (htc : op.temperature_component = 0) (hds : op.dof_shift = 0) :
    ∃ out, compute_robin_boundary_contribution (unit_square_env s k c h amb) op = .ok out ∧
      out.mass_matrix = op.mass_matrix ∧ out.boundary_values = op.boundary_values ∧
      ∀ i j, i < 4 → j < 4 →
        out.stiffness_matrix i j = op.stiffness_matrix i j +
          ∑ q ∈ Finset.range 2,
            h * (unit_square_face s true 0).fe_face_values.value i q *
              (unit_square_face s true 0).fe_face_values.value j q *
              (unit_square_face s true 0).fe_face_values.JxW q ∧
        out.load_vector i = op.load_vector i +
          ∑ q ∈ Finset.range 2,
            h * amb * (unit_square_face s true 0).fe_face_values.value i q *
              (unit_square_face s true 0).fe_face_values.JxW q := by
  obtain ⟨toOp, tc, ds⟩ := op
  simp only at htc hds
  subst htc
  subst hds
  refine ⟨_, rfl, rfl, rfl, ?_⟩
  intro i j hi hj
  constructor
  · show scatter_add_matrix ((DoFExtractor.mk (List.range 4) (List.range 4)).extract_matrix
      (robin_quadrature_loop 2 4 (unit_square_face s true 0).fe_face_values (fun _ => h)
        (fun _ => amb)
        { cell_stiffness_matrix := fun _ _ => 0,
          cell_load_vector := fun _ => 0 }).cell_stiffness_matrix)
      (List.range 4) toOp.stiffness_matrix i j = _
    rw [scatter_add_matrix_range, extract_matrix_range, robin_quadrature_loop_stiffness]
    simp only [hi, hj, and_self, if_true, zero_add]
  · show scatter_add_vector ((DoFExtractor.mk (List.range 4) (List.range 4)).extract_vector
      (robin_quadrature_loop 2 4 (unit_square_face s true 0).fe_face_values (fun _ => h)
        (fun _ => amb)
        { cell_stiffness_matrix := fun _ _ => 0,
          cell_load_vector := fun _ => 0 }).cell_load_vector)
      (List.range 4) toOp.load_vector i = _
    rw [scatter_add_vector_range, extract_vector_range, robin_quadrature_loop_load]
    simp only [hi, if_true, zero_add]

end UnitSquareAssembly

/-! ## C12: the closed-form stiffness matrix -/

section C12

variable {R : Type} [Field R] [CharZero R]

/-- C12. Closed-form stiffness. On the single-cell mesh that is the unit square, with the
bilinear basis in the vertex order `(0,0), (1,0), (0,1), (1,1)`, the 2x2 Gauss rule
(abscissae `(1 ± s)/2` with `3 * s^2 = 1`, that is `s = 1/√3`), no constraint and a
constant conductivity `k`, for every `k`: the volume pass, started from zero matrices,
returns, and the stiffness matrix it assembles is `k` times
`(1/6) * [[4,-1,-1,-2],[-1,4,-2,-1],[-1,-2,4,-1],[-2,-1,-1,4]]`. -/
theorem unit_square_stiffness_closed_form (s k c h amb : R) (hs : 3 * s ^ 2 = 1) :
    ∃ out, compute_thermal_operator_contribution (unit_square_env s k c h amb)
        (zero_operator 0 0) = .ok out ∧
      ∀ i j, i < 4 → j < 4 →
        out.stiffness_matrix i j =
          k * ((1 / 6) * ((([[4, -1, -1, -2], [-1, 4, -2, -1], [-1, -2, 4, -1],
            [-2, -1, -1, 4]] : List (List Int)).getD i []).getD j 0 : Int)) := by
  obtain ⟨out, hout, -, -, -, -, hKM⟩ :=
    unit_square_volume_pass s k c h amb (zero_operator 0 0) rfl rfl
  refine ⟨out, hout, ?_⟩
  intro i j hi hj
  rw [(hKM i j hi hj).1, unit_square_stiffness_sum s k i j hi hj]
  have h0 : 3 * s ^ 2 - 1 = 0 := by rw [hs, sub_self]
  rw [h0, mul_zero, add_zero]
  show (0 : R) + k * ((closed_form_stiffness i j : R) / 6) = _
  unfold closed_form_stiffness
  ring

/-- C12 over the real numbers, with `s = √3 / 3` and conductivity `2`. -/
theorem unit_square_stiffness_closed_form_witness :
    3 * (Real.sqrt 3 / 3) ^ 2 = (1 : ℝ) ∧
    ∃ out, compute_thermal_operator_contribution
        (unit_square_env (Real.sqrt 3 / 3) (2 : ℝ) 3 5 300) (zero_operator 0 0) = .ok out ∧
      ∀ i j, i < 4 → j < 4 →
        out.stiffness_matrix i j =
          2 * ((1 / 6) * ((([[4, -1, -1, -2], [-1, 4, -2, -1], [-1, -2, 4, -1],
            [-2, -1, -1, 4]] : List (List Int)).getD i []).getD j 0 : Int)) := by
  have hs : 3 * (Real.sqrt 3 / 3) ^ 2 = (1 : ℝ) := by
    rw [div_pow, Real.sq_sqrt (by norm_num : (0 : ℝ) ≤ 3)]
    norm_num
  exact ⟨hs, unit_square_stiffness_closed_form (Real.sqrt 3 / 3) 2 3 5 300 hs⟩

end C12

/-! ## C13: the end-to-end scenario -/

section C13

variable {R : Type} [Field R] [CharZero R]

/-- C13. End-to-end scenario. On the unit square with the bilinear basis, the 2x2 Gauss
rule on the cell and the 2-point Gauss rule on the faces (`3 * s^2 = 1`), conductivity
`2`, capacity `3`, the face `x = 0` (local nodes 0 and 2) the only boundary face, with
`h = 5` and ambient temperature `300`: whatever the outputs held before, `reset` returns
and leaves `mass = (3/36) * [[4,2,2,1],[2,4,1,2],[2,1,4,2],[1,2,2,4]]`,
`stiffness = (2/6) * [[4,-1,-1,-2],[-1,4,-2,-1],[-1,-2,4,-1],[-2,-1,-1,4]]` plus
`(5/6) * [[2,1],[1,2]]` at the rows and columns `0` and `2`, and `load = 750` at the nodes
`0` and `2`, `0` at the nodes `1` and `3`. -/
theorem unit_square_reset_reference {P : Type} (s : R) (hs : 3 * s ^ 2 = 1)
    (parameters : P) (contents : Operator R) :
    ∃ out, reset (unit_square_env s 2 3 5 300) parameters
        { toOperator := contents, temperature_component := 0, dof_shift := 0 } = .ok out ∧
      (∀ i j, i < 4 → j < 4 →
        out.mass_matrix i j =
          3 / 36 * ((([[4, 2, 2, 1], [2, 4, 1, 2], [2, 1, 4, 2], [1, 2, 2, 4]] :
            List (List Int)).getD i []).getD j 0 : Int) ∧
        out.stiffness_matrix i j =
          2 / 6 * ((([[4, -1, -1, -2], [-1, 4, -2, -1], [-1, -2, 4, -1],
            [-2, -1, -1, 4]] : List (List Int)).getD i []).getD j 0 : Int) +
          5 / 6 * ((([[2, 0, 1, 0], [0, 0, 0, 0], [1, 0, 2, 0], [0, 0, 0, 0]] :
            List (List Int)).getD i []).getD j 0 : Int)) ∧
      out.load_vector 0 = 750 ∧ out.load_vector 1 = 0 ∧
      out.load_vector 2 = 750 ∧ out.load_vector 3 = 0 := by
  obtain ⟨mid, hmid, mtc, mds, mL, -, mKM⟩ := unit_square_volume_pass s 2 3 5 300
    (zero_outputs { toOperator := contents, temperature_component := 0, dof_shift := 0 })
    rfl rfl
  obtain ⟨out, hout, oM, -, oKL⟩ := unit_square_robin_pass s 2 3 5 300 mid mtc mds
  have h0 : 3 * s ^ 2 - 1 = 0 := by rw [hs, sub_self]
  have hload : ∀ i, i < 4 → out.load_vector i = 750 * (closed_form_load i : R) := by
    intro i hi
    rw [(oKL i i hi hi).2, unit_square_load_sum s 5 300 i hi, mL]
    show (0 : R) + 5 * 300 * ((closed_form_load i : R) / 2) = _
    ring
  refine ⟨out, by simp only [reset, hmid, hout], ?_, ?_, ?_, ?_, ?_⟩
  · intro i j hi hj
    constructor
    · rw [oM, (mKM i j hi hj).2, unit_square_mass_sum s 3 i j hi hj, h0, mul_zero, add_zero]
      show (0 : R) + 3 * ((closed_form_mass i j : R) / 36) = _
      unfold closed_form_mass
      ring
    · rw [(oKL i j hi hj).1, (mKM i j hi hj).1, unit_square_stiffness_sum s 2 i j hi hj,
        unit_square_robin_sum s 5 i j hi hj, h0, mul_zero, mul_zero, add_zero, add_zero]
      show (0 : R) + 2 * ((closed_form_stiffness i j : R) / 6) +
        5 * ((closed_form_robin i j : R) / 6) = _
      unfold closed_form_stiffness closed_form_robin
      ring
  · rw [hload 0 (by decide)]
    simp [closed_form_load]
  · rw [hload 1 (by decide)]
    simp [closed_form_load]
  · rw [hload 2 (by decide)]
    simp [closed_form_load]
  · rw [hload 3 (by decide)]
    simp [closed_form_load]

/-- C13 over the real numbers, with `s = √3 / 3`, from outputs that hold arbitrary
values. -/
theorem unit_square_reset_reference_witness :
    3 * (Real.sqrt 3 / 3) ^ 2 = (1 : ℝ) ∧
    ∃ out, reset (unit_square_env (Real.sqrt 3 / 3) (2 : ℝ) 3 5 300) ()
        { toOperator := { stiffness_matrix := fun _ _ => 1, mass_matrix := fun _ _ => 2,
                          load_vector := fun _ => 3, boundary_values := [(0, 4)] },
          temperature_component := 0, dof_shift := 0 } = .ok out ∧
      (∀ i j, i < 4 → j < 4 →
        out.mass_matrix i j =
          3 / 36 * ((([[4, 2, 2, 1], [2, 4, 1, 2], [2, 1, 4, 2], [1, 2, 2, 4]] :
            List (List Int)).getD i []).getD j 0 : Int) ∧
        out.stiffness_matrix i j =
          2 / 6 * ((([[4, -1, -1, -2], [-1, 4, -2, -1], [-1, -2, 4, -1],
            [-2, -1, -1, 4]] : List (List Int)).getD i []).getD j 0 : Int) +
          5 / 6 * ((([[2, 0, 1, 0], [0, 0, 0, 0], [1, 0, 2, 0], [0, 0, 0, 0]] :
            List (List Int)).getD i []).getD j 0 : Int)) ∧
      out.load_vector 0 = 750 ∧ out.load_vector 1 = 0 ∧
      out.load_vector 2 = 750 ∧ out.load_vector 3 = 0 := by
  have hs : 3 * (Real.sqrt 3 / 3) ^ 2 = (1 : ℝ) := by
    rw [div_pow, Real.sq_sqrt (by norm_num : (0 : ℝ) ≤ 3)]
    norm_num
  exact ⟨hs, unit_square_reset_reference (Real.sqrt 3 / 3) hs () _⟩

end C13

end cap
